import Mathlib

/-!
Verification of the element-collection core of `dash_cytoscape_elements`
(`element.py`, `elements.py`): nodes/edges with attribute matching and
merging, a collection with identity-resolving `add`/`get`/`filter`/`remove`,
and the wire (JSON-value level) codec.
-/

namespace DashCE

/-- The JSON-like attribute values passed to the element API (`**kwargs`
values and JSON wire values): strings, booleans, numbers (floats are
modelled as rationals; the code only stores and compares them), and
string-keyed objects.  Lists and sets appear in the library only for
caller-defined extension fields, which the default `Node`/`Edge` schema
(the subject of the claims) does not have. -/
inductive Value where
  | vStr (s : String)
  | vBool (b : Bool)
  | vFloat (q : Rat)
  | vDict (d : List (String × Value))
deriving Repr

/-- Boolean equality on `Value` (Python `==` restricted to this universe:
cross-kind comparisons are `False`). -/
def Value.beq : Value → Value → Bool
  | .vStr a, .vStr b => a == b
  | .vBool a, .vBool b => a == b
  | .vFloat a, .vFloat b => a == b
  | .vDict a, .vDict b => beqL a b
  | _, _ => false
where beqL : List (String × Value) → List (String × Value) → Bool
  | [], [] => true
  | (k, v) :: r, (k', v') :: r' => k == k' && Value.beq v v' && beqL r r'
  | _ :: _, [] => false
  | [], _ :: _ => false

mutual

theorem Value.beq_refl : ∀ (a : Value), Value.beq a a = true
  | .vStr _ => by simp [Value.beq]
  | .vBool _ => by simp [Value.beq]
  | .vFloat _ => by simp [Value.beq]
  | .vDict d => by simpa [Value.beq] using Value.beqL_refl d

theorem Value.beqL_refl : ∀ (d : List (String × Value)), Value.beq.beqL d d = true
  | [] => rfl
  | (_, v) :: r => by
      simpa [Value.beq.beqL] using ⟨Value.beq_refl v, Value.beqL_refl r⟩

end

mutual

theorem Value.eq_of_beq : ∀ {a b : Value}, Value.beq a b = true → a = b
  | .vStr _, .vStr _, h => by simpa [Value.beq] using congrArg Value.vStr (by simpa [Value.beq] using h)
  | .vBool _, .vBool _, h => by simpa [Value.beq] using congrArg Value.vBool (by simpa [Value.beq] using h)
  | .vFloat _, .vFloat _, h => by simpa [Value.beq] using congrArg Value.vFloat (by simpa [Value.beq] using h)
  | .vDict a, .vDict b, h => congrArg Value.vDict (Value.eqL_of_beqL (by simpa [Value.beq] using h))
  | .vStr _, .vBool _, h => by simp [Value.beq] at h
  | .vStr _, .vFloat _, h => by simp [Value.beq] at h
  | .vStr _, .vDict _, h => by simp [Value.beq] at h
  | .vBool _, .vStr _, h => by simp [Value.beq] at h
  | .vBool _, .vFloat _, h => by simp [Value.beq] at h
  | .vBool _, .vDict _, h => by simp [Value.beq] at h
  | .vFloat _, .vStr _, h => by simp [Value.beq] at h
  | .vFloat _, .vBool _, h => by simp [Value.beq] at h
  | .vFloat _, .vDict _, h => by simp [Value.beq] at h
  | .vDict _, .vStr _, h => by simp [Value.beq] at h
  | .vDict _, .vBool _, h => by simp [Value.beq] at h
  | .vDict _, .vFloat _, h => by simp [Value.beq] at h

theorem Value.eqL_of_beqL :
    ∀ {a b : List (String × Value)}, Value.beq.beqL a b = true → a = b
  | [], [], _ => rfl
  | (k, v) :: r, (k', v') :: r', h => by
      have h' := h
      simp [Value.beq.beqL] at h'
      obtain ⟨⟨hk, hv⟩, hr⟩ := h'
      rw [hk, Value.eq_of_beq hv, Value.eqL_of_beqL hr]
  | _ :: _, [], h => by simp [Value.beq.beqL] at h
  | [], _ :: _, h => by simp [Value.beq.beqL] at h

end

instance : DecidableEq Value := fun a b =>
  if h : Value.beq a b = true then isTrue (Value.eq_of_beq h)
  else isFalse (fun hh => h (hh ▸ Value.beq_refl a))

/-- Python exceptions (AttributeError, KeyError, pydantic ValidationError)
are modelled as `Except Unit`. -/
abbrev Res (α : Type) := Except Unit α

/-- An attribute mapping: the `**kwargs` of the Python API, in insertion
order (Python keyword arguments preserve order and have unique keys). -/
abbrev Attrs := List (String × Value)

/-! ### Python `str.split()` / `" ".join` and dict primitives -/

/-- Python `str.split()` on the character list: maximal runs of
non-whitespace characters, in order (no empty tokens). -/
def wordsAux : List Char → List Char → List (List Char)
  | [], acc => if acc.isEmpty then [] else [acc.reverse]
  | c :: cs, acc =>
    if c.isWhitespace then
      if acc.isEmpty then wordsAux cs [] else acc.reverse :: wordsAux cs []
    else wordsAux cs (c :: acc)

/-- Python `s.split()`. -/
def pySplit (s : String) : List String := (wordsAux s.data []).map String.mk

/-- Python `" ".join(ts)`. -/
def joinSpace (ts : List String) : String :=
  String.mk (List.intercalate [' '] (ts.map String.data))

/-- `set(c.split()) >= set(v.split())`: every token of `v` is a token of `c`. -/
def tokenSuperset (c v : String) : Bool :=
  (pySplit v).all (fun t => (pySplit c).contains t)

/-- The loop of `Element._add_classes`: append each token of the incoming
string that is not already present, preserving order. -/
def dedupAppend (base new : List String) : List String :=
  new.foldl (fun acc t => if acc.contains t then acc else acc ++ [t]) base

/-- `Element._add_classes`: split, merge without duplicates, re-join. -/
def addClassesStr (c v : String) : String :=
  joinSpace (dedupAppend (pySplit c) (pySplit v))

/-- Lookup in a Python dict modelled as an insertion-ordered association
list with unique keys. -/
def dlookup (k : String) : List (String × Value) → Option Value
  | [] => none
  | (k', v) :: r => if k' = k then some v else dlookup k r

/-- Python `d[k] = v`: overwrite in place if the key exists, else append. -/
def dset1 : List (String × Value) → String × Value → List (String × Value)
  | [], kv => [kv]
  | (k', v') :: r, (k, v) =>
    if k' = k then (k', v) :: r else (k', v') :: dset1 r (k, v)

/-- The dict branch of `add_attribute`: `for k, v in value.items():
field[k] = v`. -/
def dsetAll (field : List (String × Value)) (entries : List (String × Value)) :
    List (String × Value) :=
  entries.foldl dset1 field

/-- The dict branch of `is_match_attribute`: every key of `value` must be
present in the field (a missing key raises KeyError) with an equal value. -/
def dictMatchGo (field : List (String × Value)) : List (String × Value) → Res Bool
  | [] => .ok true
  | (k, v) :: rest =>
    match dlookup k field with
    | none => .error ()
    | some w => if w = v then dictMatchGo field rest else .ok false

/-- Matching a value against a dict-typed field; a non-dict value raises
(`value.items()`). -/
def dictMatch (field : List (String × Value)) : Value → Res Bool
  | .vDict entries => dictMatchGo field entries
  | _ => .error ()

/-- Python `==` between a `str` field and an attribute value (cross-kind
comparison is `False`, never an error). -/
def veqStr (a : String) : Value → Bool
  | .vStr b => a = b
  | _ => false

/-- Python `==` between a `bool` field and an attribute value. -/
def veqBool (a : Bool) : Value → Bool
  | .vBool b => a = b
  | _ => false

/-- Python `==` between a `float` field and an attribute value. -/
def veqFloat (a : Rat) : Value → Bool
  | .vFloat b => a = b
  | _ => false

/-! ### The element schema (`element.py`) -/

/-- `NodeData`. -/
structure NodeData where
  id : String := ""
  parent : String := ""
  label : String := ""
deriving DecidableEq, Repr

/-- `Position`. Floats are modelled as rationals; the code only stores and
compares them. -/
structure Position where
  x : Rat := 0
  y : Rat := 0
deriving DecidableEq, Repr

/-- `EdgeData` (`source_label`/`target_label` have the wire aliases
`source-label`/`target-label`). -/
structure EdgeData where
  id : String := ""
  source : String := ""
  target : String := ""
  label : String := ""
  source_label : String := ""
  target_label : String := ""
deriving DecidableEq, Repr

/-- `Node`, with the `Element` base fields inlined in pydantic field order
(`group`, `classes`, `selected`, `selectable`, `locked`, `grabbable`,
`scratch`, then `data`, `position`, `pannable`).  The `group` field is not
stored: its `always=True` validator forces it to `"nodes"` at construction
and on every assignment, so it is a function of the variant (see
`Elem.group`). -/
structure Node where
  classes : String := ""
  selected : Bool := false
  selectable : Bool := true
  locked : Bool := false
  grabbable : Bool := true
  scratch : List (String × Value) := []
  data : NodeData := {}
  position : Position := {}
  pannable : Bool := false
deriving DecidableEq, Repr

/-- `Edge` (no `position`; `pannable` defaults to `true`). -/
structure Edge where
  classes : String := ""
  selected : Bool := false
  selectable : Bool := true
  locked : Bool := false
  grabbable : Bool := true
  scratch : List (String × Value) := []
  data : EdgeData := {}
  pannable : Bool := true
deriving DecidableEq, Repr

/-- An element of the collection: `Union[Node, Edge]`. -/
inductive Elem where
  | node (n : Node)
  | edge (e : Edge)
deriving DecidableEq, Repr

/-- The `group` field, forced by the validators to reflect the variant. -/
def Elem.group : Elem → String
  | .node _ => "nodes"
  | .edge _ => "edges"

def Elem.classes : Elem → String
  | .node n => n.classes
  | .edge e => e.classes

/-! ### Matching (`BaseElement.is_match_attribute`, `Element.is_match`) -/

/-- `is_match_attribute` specialised to `NodeData`: three scalar string
fields; an unknown key would recurse into nested sub-records, of which
there are none, so it returns `False`. -/
def NodeData.is_match_attribute (d : NodeData) (key : String) (v : Value) : Bool :=
  if key = "id" then veqStr d.id v
  else if key = "parent" then veqStr d.parent v
  else if key = "label" then veqStr d.label v
  else false

/-- `is_match_attribute` specialised to `EdgeData`. -/
def EdgeData.is_match_attribute (d : EdgeData) (key : String) (v : Value) : Bool :=
  if key = "id" then veqStr d.id v
  else if key = "source" then veqStr d.source v
  else if key = "target" then veqStr d.target v
  else if key = "label" then veqStr d.label v
  else if key = "source_label" then veqStr d.source_label v
  else if key = "target_label" then veqStr d.target_label v
  else false

/-- `is_match_attribute` specialised to `Position`. -/
def Position.is_match_attribute (p : Position) (key : String) (v : Value) : Bool :=
  if key = "x" then veqFloat p.x v
  else if key = "y" then veqFloat p.y v
  else false

/-- `is_match_attribute` specialised to `Node`.  Keys declared directly on
the element dispatch on the field's runtime type (`scratch` is the only
dict field; `data` and `position` hit the scalar branch, where a pydantic
model never equals a plain value).  For any other key the code returns the
result of recursing into the *first* nested sub-record in field order,
which is `data` — `position` is never consulted by matching. -/
def Node.is_match_attribute (n : Node) (key : String) (v : Value) : Res Bool :=
  if key = "group" then .ok (veqStr "nodes" v)
  else if key = "classes" then .ok (veqStr n.classes v)
  else if key = "selected" then .ok (veqBool n.selected v)
  else if key = "selectable" then .ok (veqBool n.selectable v)
  else if key = "locked" then .ok (veqBool n.locked v)
  else if key = "grabbable" then .ok (veqBool n.grabbable v)
  else if key = "scratch" then dictMatch n.scratch v
  else if key = "data" then .ok false
  else if key = "position" then .ok false
  else if key = "pannable" then .ok (veqBool n.pannable v)
  else .ok (n.data.is_match_attribute key v)

/-- `is_match_attribute` specialised to `Edge` (the only nested sub-record
is `data`). -/
def Edge.is_match_attribute (e : Edge) (key : String) (v : Value) : Res Bool :=
  if key = "group" then .ok (veqStr "edges" v)
  else if key = "classes" then .ok (veqStr e.classes v)
  else if key = "selected" then .ok (veqBool e.selected v)
  else if key = "selectable" then .ok (veqBool e.selectable v)
  else if key = "locked" then .ok (veqBool e.locked v)
  else if key = "grabbable" then .ok (veqBool e.grabbable v)
  else if key = "scratch" then dictMatch e.scratch v
  else if key = "data" then .ok false
  else if key = "pannable" then .ok (veqBool e.pannable v)
  else .ok (e.data.is_match_attribute key v)

def Elem.is_match_attribute : Elem → String → Value → Res Bool
  | .node n, k, v => n.is_match_attribute k v
  | .edge e, k, v => e.is_match_attribute k v

/-- `Element.is_match`: iterates the pairs in insertion order; at a
`"classes"` pair it *returns* the class-token superset test immediately
(later pairs are not examined — the `return` sits inside the loop); every
other pair must succeed via `is_match_attribute`.  A non-string `classes`
value raises (`.split()` on a non-string). -/
def Elem.is_match (e : Elem) : Attrs → Res Bool
  | [] => .ok true
  | (k, v) :: rest =>
    if k = "classes" then
      match v with
      | .vStr s => .ok (tokenSuperset e.classes s)
      | _ => .error ()
    else
      match e.is_match_attribute k v with
      | .error _ => .error ()
      | .ok b => if b then e.is_match rest else .ok false

/-! ### Merging (`BaseElement.add_attribute`, `Element.add`) -/

/-- pydantic-validated assignment to a `str` field.  A non-string value is
a schema violation (spec §7: wrong value type is fatal), modelled as an
error. -/
def setStr : Value → Res String
  | .vStr s => .ok s
  | _ => .error ()

/-- pydantic-validated assignment to a `bool` field. -/
def setBool : Value → Res Bool
  | .vBool b => .ok b
  | _ => .error ()

/-- pydantic-validated assignment to a `float` field. -/
def setFloat : Value → Res Rat
  | .vFloat q => .ok q
  | _ => .error ()

/-- `add_attribute` specialised to `NodeData`: a declared key is a scalar
replacement; an unknown key recurses into nested sub-records (none), a
silent no-op. -/
def NodeData.add_attribute (d : NodeData) (key : String) (v : Value) : Res NodeData :=
  if key = "id" then do let s ← setStr v; .ok { d with id := s }
  else if key = "parent" then do let s ← setStr v; .ok { d with parent := s }
  else if key = "label" then do let s ← setStr v; .ok { d with label := s }
  else .ok d

/-- `add_attribute` specialised to `EdgeData`. -/
def EdgeData.add_attribute (d : EdgeData) (key : String) (v : Value) : Res EdgeData :=
  if key = "id" then do let s ← setStr v; .ok { d with id := s }
  else if key = "source" then do let s ← setStr v; .ok { d with source := s }
  else if key = "target" then do let s ← setStr v; .ok { d with target := s }
  else if key = "label" then do let s ← setStr v; .ok { d with label := s }
  else if key = "source_label" then do let s ← setStr v; .ok { d with source_label := s }
  else if key = "target_label" then do let s ← setStr v; .ok { d with target_label := s }
  else .ok d

/-- `add_attribute` specialised to `Position`. -/
def Position.add_attribute (p : Position) (key : String) (v : Value) : Res Position :=
  if key = "x" then do let q ← setFloat v; .ok { p with x := q }
  else if key = "y" then do let q ← setFloat v; .ok { p with y := q }
  else .ok p

/-- Reading an optional `str` field at parse time (missing → default). -/
def getStrFieldD (entries : List (String × Value)) (k : String) : Res String :=
  match dlookup k entries with
  | none => .ok ""
  | some v => setStr v

/-- Reading an optional `float` field at parse time. -/
def getFloatFieldD (entries : List (String × Value)) (k : String) : Res Rat :=
  match dlookup k entries with
  | none => .ok 0
  | some v => setFloat v

/-- Reading an aliased `str` field: the alias key wins, the field name is
also accepted (`allow_population_by_field_name`). -/
def getAliasStrField (entries : List (String × Value)) (alia fieldName : String) :
    Res String :=
  match dlookup alia entries with
  | some v => setStr v
  | none => getStrFieldD entries fieldName

/-- pydantic validation of a JSON object into a `NodeData` (assignment to
the `data` field revalidates, and the wire codec parses the same way):
unknown keys are forbidden (`extra = "forbid"`), missing keys default. -/
def parseNodeData (entries : List (String × Value)) : Res NodeData :=
  if entries.all (fun kv => kv.1 == "id" || kv.1 == "parent" || kv.1 == "label") then do
    let i ← getStrFieldD entries "id"
    let p ← getStrFieldD entries "parent"
    let l ← getStrFieldD entries "label"
    .ok { id := i, parent := p, label := l }
  else .error ()

/-- pydantic validation of a JSON object into an `EdgeData`; the aliased
fields accept the alias (`source-label`) or, with
`allow_population_by_field_name`, the field name. -/
def parseEdgeData (entries : List (String × Value)) : Res EdgeData :=
  if entries.all (fun kv => kv.1 == "id" || kv.1 == "source" || kv.1 == "target" ||
      kv.1 == "label" || kv.1 == "source-label" || kv.1 == "target-label" ||
      kv.1 == "source_label" || kv.1 == "target_label") then do
    let i ← getStrFieldD entries "id"
    let s ← getStrFieldD entries "source"
    let t ← getStrFieldD entries "target"
    let l ← getStrFieldD entries "label"
    let sl ← getAliasStrField entries "source-label" "source_label"
    let tl ← getAliasStrField entries "target-label" "target_label"
    .ok { id := i, source := s, target := t, label := l,
          source_label := sl, target_label := tl }
  else .error ()

/-- pydantic validation of a JSON object into a `Position`. -/
def parsePosition (entries : List (String × Value)) : Res Position :=
  if entries.all (fun kv => kv.1 == "x" || kv.1 == "y") then do
    let x ← getFloatFieldD entries "x"
    let y ← getFloatFieldD entries "y"
    .ok { x := x, y := y }
  else .error ()

/-- `add_attribute` specialised to `Node`.  A declared key dispatches on
the field's runtime type: `scratch` merges key-by-key; `data`/`position`
hit the scalar branch, whose `setattr` revalidates the value into the
sub-record type (replacing the whole record); `group`'s validator forces
the stored value back to `"nodes"`.  An unknown key recurses into *all*
nested sub-records (`data`, then `position`). -/
def Node.add_attribute (n : Node) (key : String) (v : Value) : Res Node :=
  if key = "group" then do let _ ← setStr v; .ok n
  else if key = "classes" then do let s ← setStr v; .ok { n with classes := s }
  else if key = "selected" then do let b ← setBool v; .ok { n with selected := b }
  else if key = "selectable" then do let b ← setBool v; .ok { n with selectable := b }
  else if key = "locked" then do let b ← setBool v; .ok { n with locked := b }
  else if key = "grabbable" then do let b ← setBool v; .ok { n with grabbable := b }
  else if key = "scratch" then
    match v with
    | .vDict entries => .ok { n with scratch := dsetAll n.scratch entries }
    | _ => .error ()
  else if key = "data" then
    match v with
    | .vDict entries => do let d ← parseNodeData entries; .ok { n with data := d }
    | _ => .error ()
  else if key = "position" then
    match v with
    | .vDict entries => do let p ← parsePosition entries; .ok { n with position := p }
    | _ => .error ()
  else if key = "pannable" then do let b ← setBool v; .ok { n with pannable := b }
  else do
    let d ← n.data.add_attribute key v
    let p ← n.position.add_attribute key v
    .ok { n with data := d, position := p }

/-- `add_attribute` specialised to `Edge`. -/
def Edge.add_attribute (e : Edge) (key : String) (v : Value) : Res Edge :=
  if key = "group" then do let _ ← setStr v; .ok e
  else if key = "classes" then do let s ← setStr v; .ok { e with classes := s }
  else if key = "selected" then do let b ← setBool v; .ok { e with selected := b }
  else if key = "selectable" then do let b ← setBool v; .ok { e with selectable := b }
  else if key = "locked" then do let b ← setBool v; .ok { e with locked := b }
  else if key = "grabbable" then do let b ← setBool v; .ok { e with grabbable := b }
  else if key = "scratch" then
    match v with
    | .vDict entries => .ok { e with scratch := dsetAll e.scratch entries }
    | _ => .error ()
  else if key = "data" then
    match v with
    | .vDict entries => do let d ← parseEdgeData entries; .ok { e with data := d }
    | _ => .error ()
  else if key = "pannable" then do let b ← setBool v; .ok { e with pannable := b }
  else do
    let d ← e.data.add_attribute key v
    .ok { e with data := d }

def Elem.addAttr : Elem → String → Value → Res Elem
  | .node n, k, v => (n.add_attribute k v).map .node
  | .edge e, k, v => (e.add_attribute k v).map .edge

def Elem.setClasses : Elem → String → Elem
  | .node n, c => .node { n with classes := c }
  | .edge e, c => .edge { e with classes := c }

/-- One iteration of the `Element.add` loop: a `"classes"` pair goes
through `_add_classes` (raising on a non-string value), every other pair
through `add_attribute`. -/
def Elem.addStep (e : Elem) (k : String) (v : Value) : Res Elem :=
  if k = "classes" then
    match v with
    | .vStr s => .ok (e.setClasses (addClassesStr e.classes s))
    | _ => .error ()
  else e.addAttr k v

/-- `Element.add`: applies the pairs in insertion order.  A raising pair
stops the loop; mutations already performed persist, and the boolean
records whether an exception escaped. -/
def Elem.add (e : Elem) : Attrs → Elem × Bool
  | [] => (e, false)
  | (k, v) :: rest =>
    match e.addStep k v with
    | .ok e' => e'.add rest
    | .error _ => (e, true)

/-! ### The collection (`elements.py`, `GenericElements`) -/

namespace GenericElements

/-- `"k" in kwargs`. -/
def hasKey (attrs : Attrs) (k : String) : Bool :=
  attrs.any (fun kv => kv.1 == k)

/-- `kwargs[k]` (callers guard the key's presence). -/
def kwget (attrs : Attrs) (k : String) : Value :=
  (dlookup k attrs).getD (.vStr "")

/-- `GenericElements.filter`: the sub-sequence of elements matching the
attrs; an exception from `is_match` propagates. -/
def filter : List Elem → Attrs → Res (List Elem)
  | [], _ => .ok []
  | e :: rest, attrs =>
    match e.is_match attrs with
    | .error _ => .error ()
    | .ok b =>
      match filter rest attrs with
      | .error _ => .error ()
      | .ok r => .ok (if b then e :: r else r)

/-- The scan `for e in self.filter(group=g): if e.is_match(**key_dict):
return e` of `GenericElements.get`, returning the position of the hit in
the underlying sequence (the caller mutates through the returned object,
which lives at that position). -/
def scanIdx (g : String) (keyAttrs : Attrs) : List Elem → Nat → Res (Option Nat)
  | [], _ => .ok none
  | e :: rest, i =>
    match e.is_match [("group", .vStr g)] with
    | .error _ => .error ()
    | .ok false => scanIdx g keyAttrs rest (i + 1)
    | .ok true =>
      match e.is_match keyAttrs with
      | .error _ => .error ()
      | .ok true => .ok (some i)
      | .ok false => scanIdx g keyAttrs rest (i + 1)

/-- `GenericElements.get` with `node_keys = {"id"}` and
`edge_keys = {"source", "target"}`, as the position of the resolved
element: scan the Nodes on the `node_keys` projection of the attrs when
those keys are all present, then the Edges analogously. -/
def getIdx (els : List Elem) (attrs : Attrs) : Res (Option Nat) :=
  match
    (if hasKey attrs "id" then
      scanIdx "nodes" [("id", kwget attrs "id")] els 0
    else .ok none) with
  | .error _ => .error ()
  | .ok (some i) => .ok (some i)
  | .ok none =>
    if hasKey attrs "source" && hasKey attrs "target" then
      scanIdx "edges" [("source", kwget attrs "source"), ("target", kwget attrs "target")]
        els 0
    else .ok none

/-- `GenericElements.get`: the resolved element itself. -/
def get (els : List Elem) (attrs : Attrs) : Res (Option Elem) := do
  let i? ← getIdx els attrs
  .ok (i?.bind fun i => els[i]?)

/-- `GenericElements.add`.  `fresh` is the `uuid.uuid4()` string the call
would generate (its only nondeterminism); the boolean records whether an
exception escaped.  If `get` resolves an element: with an explicit `id`,
any filter hit that is not `==`-equal to it aborts silently; otherwise the
attrs are merged into the element in place.  With no resolution, a fresh
default `Edge` (when `source` and `target` are both present) or `Node` is
built; an explicit `id` already in use aborts silently, and without an
explicit `id` the uuid is merged last.  A new element is appended only if
its merge raised no exception (otherwise the exception propagates before
`_append`). -/
def add (els : List Elem) (attrs : Attrs) (fresh : String) : List Elem × Bool :=
  match getIdx els attrs with
  | .error _ => (els, true)
  | .ok (some i) =>
    match els[i]? with
    | none => (els, true)
    | some element =>
      if hasKey attrs "id" then
        match filter els [("id", kwget attrs "id")] with
        | .error _ => (els, true)
        | .ok ms =>
          if ms.all (fun e => e == element) then
            let (e', raised) := element.add attrs
            (els.set i e', raised)
          else (els, false)
      else
        let (e', raised) := element.add attrs
        (els.set i e', raised)
  | .ok none =>
    let newElement : Elem :=
      if hasKey attrs "source" && hasKey attrs "target" then .edge {} else .node {}
    if hasKey attrs "id" then
      match filter els [("id", kwget attrs "id")] with
      | .error _ => (els, true)
      | .ok ms =>
        if ms.isEmpty then
          match newElement.add attrs with
          | (ne, false) => (els ++ [ne], false)
          | (_, true) => (els, true)
        else (els, false)
    else
      match newElement.add (attrs ++ [("id", .vStr fresh)]) with
      | (ne, false) => (els ++ [ne], false)
      | (_, true) => (els, true)

/-- `GenericElements.remove`: `get`, then Python `list.remove`, which
removes the first element `==`-equal to the resolved one (and would raise
if none were equal); a `get` miss is a no-op. -/
def remove (els : List Elem) (attrs : Attrs) : Res (List Elem) := do
  let e? ← get els attrs
  match e? with
  | none => .ok els
  | some element =>
    match els.findIdx? (fun e => e == element) with
    | some j => .ok (els.eraseIdx j)
    | none => .error ()

/-- A sequence of `add` calls starting from the empty collection, paired
with the uuid string each call would draw. -/
def addSeq (steps : List (Attrs × String)) : List Elem :=
  steps.foldl (fun els st => (add els st.1 st.2).1) []

end GenericElements

/-! ### Wire codec (`to_json` / `from_json` at the JSON-value level; the
JSON text layer is the standard `json` module, a bijection between valid
text and these values) -/

/-- Serialisation of a `NodeData`: fields differing from their declared
default, in field order (`exclude_defaults=True`). -/
def NodeData.toWire (d : NodeData) : List (String × Value) :=
  (if d.id ≠ "" then [("id", Value.vStr d.id)] else []) ++
  (if d.parent ≠ "" then [("parent", Value.vStr d.parent)] else []) ++
  (if d.label ≠ "" then [("label", Value.vStr d.label)] else [])

/-- Serialisation of an `EdgeData` (`by_alias=True`: the label fields use
their hyphenated aliases). -/
def EdgeData.toWire (d : EdgeData) : List (String × Value) :=
  (if d.id ≠ "" then [("id", Value.vStr d.id)] else []) ++
  (if d.source ≠ "" then [("source", Value.vStr d.source)] else []) ++
  (if d.target ≠ "" then [("target", Value.vStr d.target)] else []) ++
  (if d.label ≠ "" then [("label", Value.vStr d.label)] else []) ++
  (if d.source_label ≠ "" then [("source-label", Value.vStr d.source_label)] else []) ++
  (if d.target_label ≠ "" then [("target-label", Value.vStr d.target_label)] else [])

/-- Serialisation of a `Position`. -/
def Position.toWire (p : Position) : List (String × Value) :=
  (if p.x ≠ 0 then [("x", Value.vFloat p.x)] else []) ++
  (if p.y ≠ 0 then [("y", Value.vFloat p.y)] else [])

/-- The wire object of a `Node`: every field differing from its declared
default, in pydantic field order.  `group` holds `"nodes"` while its
declared default is `""`, so it is always present. -/
def Node.wireEntries (n : Node) : List (String × Value) :=
  [("group", Value.vStr "nodes")] ++
  (if n.classes ≠ "" then [("classes", Value.vStr n.classes)] else []) ++
  (if n.selected ≠ false then [("selected", Value.vBool n.selected)] else []) ++
  (if n.selectable ≠ true then [("selectable", Value.vBool n.selectable)] else []) ++
  (if n.locked ≠ false then [("locked", Value.vBool n.locked)] else []) ++
  (if n.grabbable ≠ true then [("grabbable", Value.vBool n.grabbable)] else []) ++
  (if n.scratch ≠ [] then [("scratch", Value.vDict n.scratch)] else []) ++
  (if n.data ≠ {} then [("data", Value.vDict n.data.toWire)] else []) ++
  (if n.position ≠ {} then [("position", Value.vDict n.position.toWire)] else []) ++
  (if n.pannable ≠ false then [("pannable", Value.vBool n.pannable)] else [])

def Node.toWire (n : Node) : Value := Value.vDict n.wireEntries

/-- The wire object of an `Edge` (`pannable` defaults to `true` here). -/
def Edge.wireEntries (e : Edge) : List (String × Value) :=
  [("group", Value.vStr "edges")] ++
  (if e.classes ≠ "" then [("classes", Value.vStr e.classes)] else []) ++
  (if e.selected ≠ false then [("selected", Value.vBool e.selected)] else []) ++
  (if e.selectable ≠ true then [("selectable", Value.vBool e.selectable)] else []) ++
  (if e.locked ≠ false then [("locked", Value.vBool e.locked)] else []) ++
  (if e.grabbable ≠ true then [("grabbable", Value.vBool e.grabbable)] else []) ++
  (if e.scratch ≠ [] then [("scratch", Value.vDict e.scratch)] else []) ++
  (if e.data ≠ {} then [("data", Value.vDict e.data.toWire)] else []) ++
  (if e.pannable ≠ true then [("pannable", Value.vBool e.pannable)] else [])

def Edge.toWire (e : Edge) : Value := Value.vDict e.wireEntries

def Elem.toWire : Elem → Value
  | .node n => n.toWire
  | .edge e => e.toWire

/-- Reading an optional boolean field at parse time. -/
def getBoolField (entries : List (String × Value)) (k : String) (dflt : Bool) : Res Bool :=
  match dlookup k entries with
  | none => .ok dflt
  | some v => setBool v

/-- Reading the `scratch` dict at parse time. -/
def getScratchField (entries : List (String × Value)) :
    Res (List (String × Value)) :=
  match dlookup "scratch" entries with
  | none => .ok []
  | some (.vDict d) => .ok d
  | some _ => .error ()

/-- Reading and validating the nested `data` object of a `Node`. -/
def getDataNodeField (entries : List (String × Value)) : Res NodeData :=
  match dlookup "data" entries with
  | none => .ok {}
  | some (.vDict d) => parseNodeData d
  | some _ => .error ()

/-- Reading and validating the nested `data` object of an `Edge`. -/
def getDataEdgeField (entries : List (String × Value)) : Res EdgeData :=
  match dlookup "data" entries with
  | none => .ok {}
  | some (.vDict d) => parseEdgeData d
  | some _ => .error ()

/-- Reading and validating the nested `position` object. -/
def getPositionField (entries : List (String × Value)) : Res Position :=
  match dlookup "position" entries with
  | none => .ok {}
  | some (.vDict d) => parsePosition d
  | some _ => .error ()

/-- pydantic parse of a wire object as a `Node` (`extra = "forbid"`,
missing fields default, `group`'s validator accepts any string and forces
`"nodes"`). -/
def parseNodeWire (entries : List (String × Value)) : Res Node :=
  if entries.all (fun kv => kv.1 == "group" || kv.1 == "classes" || kv.1 == "selected" ||
      kv.1 == "selectable" || kv.1 == "locked" || kv.1 == "grabbable" ||
      kv.1 == "scratch" || kv.1 == "data" || kv.1 == "position" ||
      kv.1 == "pannable") then do
    let _ ← getStrFieldD entries "group"
    let c ← getStrFieldD entries "classes"
    let se ← getBoolField entries "selected" false
    let sl ← getBoolField entries "selectable" true
    let lo ← getBoolField entries "locked" false
    let gr ← getBoolField entries "grabbable" true
    let sc ← getScratchField entries
    let da ← getDataNodeField entries
    let po ← getPositionField entries
    let pa ← getBoolField entries "pannable" false
    .ok { classes := c, selected := se, selectable := sl, locked := lo,
          grabbable := gr, scratch := sc, data := da, position := po, pannable := pa }
  else .error ()

/-- pydantic parse of a wire object as an `Edge`. -/
def parseEdgeWire (entries : List (String × Value)) : Res Edge :=
  if entries.all (fun kv => kv.1 == "group" || kv.1 == "classes" || kv.1 == "selected" ||
      kv.1 == "selectable" || kv.1 == "locked" || kv.1 == "grabbable" ||
      kv.1 == "scratch" || kv.1 == "data" || kv.1 == "pannable") then do
    let _ ← getStrFieldD entries "group"
    let c ← getStrFieldD entries "classes"
    let se ← getBoolField entries "selected" false
    let sl ← getBoolField entries "selectable" true
    let lo ← getBoolField entries "locked" false
    let gr ← getBoolField entries "grabbable" true
    let sc ← getScratchField entries
    let da ← getDataEdgeField entries
    let pa ← getBoolField entries "pannable" true
    .ok { classes := c, selected := se, selectable := sl, locked := lo,
          grabbable := gr, scratch := sc, data := da, pannable := pa }
  else .error ()

/-- One element of the wire array: the `Union[NodeT, EdgeT]` coercion
tries `Node` first and falls back to `Edge`. -/
def fromWireElem (v : Value) : Res Elem :=
  match v with
  | .vDict entries =>
    match parseNodeWire entries with
    | .ok n => .ok (.node n)
    | .error _ => (parseEdgeWire entries).map .edge
  | _ => .error ()

/-- `GenericElements.to_json` at the JSON-value level; `none` models the
empty string returned for an empty collection. -/
def to_json (els : List Elem) : Option (List Value) :=
  if els.isEmpty then none else some (els.map Elem.toWire)

/-- `GenericElements.from_json` at the JSON-value level: parse every array
entry (a failure anywhere is fatal). -/
def from_json : List Value → Res (List Elem)
  | [] => .ok []
  | v :: rest => do
    let e ← fromWireElem v
    let r ← from_json rest
    .ok (e :: r)

/-! ### Helper lemmas -/

deriving instance DecidableEq for Except

/-- The reading of "the pair `(k, v)` succeeds" in the specification of
`is_match`: the classes pair via the class-token superset test, every
other pair via the attribute matcher. -/
def pairMatchesB (e : Elem) (kv : String × Value) : Bool :=
  if kv.1 = "classes" then
    match kv.2 with
    | .vStr s => tokenSuperset e.classes s
    | _ => false
  else e.is_match_attribute kv.1 kv.2 == .ok true

theorem is_match_nil (e : Elem) : e.is_match [] = .ok true := rfl

theorem is_match_cons_true (e : Elem) (k : String) (v : Value) (rest : Attrs)
    (hk : k ≠ "classes") (hma : e.is_match_attribute k v = .ok true) :
    e.is_match ((k, v) :: rest) = e.is_match rest := by
  simp [Elem.is_match, hk, hma]

theorem is_match_cons_false (e : Elem) (k : String) (v : Value) (rest : Attrs)
    (hk : k ≠ "classes") (hma : e.is_match_attribute k v = .ok false) :
    e.is_match ((k, v) :: rest) = .ok false := by
  simp [Elem.is_match, hk, hma]

theorem is_match_cons_error (e : Elem) (k : String) (v : Value) (rest : Attrs)
    (hk : k ≠ "classes") (hma : e.is_match_attribute k v = .error ()) :
    e.is_match ((k, v) :: rest) = .error () := by
  simp [Elem.is_match, hk, hma]

theorem is_match_cons_classes (e : Elem) (s : String) (rest : Attrs) :
    e.is_match (("classes", .vStr s) :: rest) = .ok (tokenSuperset e.classes s) := by
  simp [Elem.is_match]

/-! ### C7: the duplicate-id scenario -/

/-- C7: starting from the empty collection, `add(id="n1")` creates one
Node with id `"n1"`; the subsequent
`add(id="n1", source="x", target="y")` leaves the collection unchanged
(still exactly that one Node, no Edge appended) and raises nothing. -/
theorem c7_duplicate_id_scenario :
    GenericElements.addSeq [([("id", .vStr "n1")], "u1")] =
      [Elem.node { data := { id := "n1" } }] ∧
    GenericElements.add [Elem.node { data := { id := "n1" } }]
        [("id", .vStr "n1"), ("source", .vStr "x"), ("target", .vStr "y")] "u2" =
      ([Elem.node { data := { id := "n1" } }], false) := by
  constructor
  · rfl
  · rfl

/-! ### C9: the match/merge asymmetry on `position` keys -/

/-- C9: matching and merging are asymmetric for keys declared only on a
nested sub-record other than `data`: for every Node and float `v`,
matching the key `"x"` returns `False` (the recursion descends only into
`data`) even though merging `"x"` sets `position.x`; consequently
`filter(x=v)` returns no element at all. -/
theorem c9_position_asymmetry :
    (∀ (n : Node) (v : Rat),
      Node.is_match_attribute n "x" (.vFloat v) = .ok false) ∧
    (∀ (n : Node) (v : Rat),
      Node.add_attribute n "x" (.vFloat v) =
        .ok { n with position := { n.position with x := v } }) ∧
    (∀ (els : List Elem) (v : Rat),
      GenericElements.filter els [("x", .vFloat v)] = .ok []) := by
  refine ⟨?_, ?_, ?_⟩
  · intro n v
    simp [Node.is_match_attribute, NodeData.is_match_attribute]
  · intro n v
    rfl
  · intro els v
    induction els with
    | nil => rfl
    | cons e rest ih =>
      have he : e.is_match [("x", Value.vFloat v)] = .ok false := by
        cases e with
        | node n =>
          simp [Elem.is_match, Elem.is_match_attribute, Node.is_match_attribute,
            NodeData.is_match_attribute]
        | edge ed =>
          simp [Elem.is_match, Elem.is_match_attribute, Edge.is_match_attribute,
            EdgeData.is_match_attribute]
      simp [GenericElements.filter, he, ih]

/-! ### C2: `is_match` is not a plain conjunction over the pairs -/

/-- C2 counterexample: on a default Node,
`is_match(classes="", id="zzz")` returns `True` although the `id` pair
fails the attribute matcher — the claimed "true iff every pair succeeds"
is false at this input. -/
theorem c2_counterexample :
    ¬ ((Elem.is_match (.node {}) [("classes", .vStr ""), ("id", .vStr "zzz")] = .ok true) ↔
        (∀ kv ∈ [("classes", Value.vStr ""), ("id", Value.vStr "zzz")],
          pairMatchesB (.node {}) kv = true)) := by
  decide

/-- C2 amended: `is_match` walks the pairs in order.  On attrs with no
`"classes"` key it is exactly the claimed conjunction: it returns `True`
iff every pair succeeds via the attribute matcher (and `True` on empty
attrs).  When a `"classes"` pair is present, the pairs before the first
one must succeed, and the call then *returns the class-token superset
test of that pair*, ignoring every later pair. -/
theorem c2_amended (e : Elem) (pre post : Attrs) (s : String)
    (hnc : ∀ kv ∈ pre, kv.1 ≠ "classes") :
    ((Elem.is_match e pre = .ok true) ↔ (∀ kv ∈ pre, pairMatchesB e kv = true)) ∧
    ((∀ kv ∈ pre, pairMatchesB e kv = true) →
      Elem.is_match e (pre ++ ("classes", .vStr s) :: post) =
        .ok (tokenSuperset e.classes s)) := by
  constructor
  · induction pre with
    | nil => simp [is_match_nil]
    | cons kv rest ih =>
      obtain ⟨k, v⟩ := kv
      have hk : k ≠ "classes" := hnc (k, v) (List.mem_cons_self _ _)
      have ih' := ih (fun kv h => hnc kv (List.mem_cons_of_mem _ h))
      cases hma : e.is_match_attribute k v with
      | error u =>
        cases u
        rw [is_match_cons_error e k v rest hk hma]
        constructor
        · intro h; exact absurd h (by simp)
        · intro h
          have hh := h (k, v) (List.mem_cons_self _ _)
          simp [pairMatchesB, hk, hma] at hh
      | ok b =>
        cases b with
        | true =>
          rw [is_match_cons_true e k v rest hk hma, ih']
          constructor
          · intro h kv hkv
            rcases List.mem_cons.mp hkv with h1 | h2
            · subst h1; simp [pairMatchesB, hk, hma]
            · exact h kv h2
          · intro h kv hkv; exact h kv (List.mem_cons_of_mem _ hkv)
        | false =>
          rw [is_match_cons_false e k v rest hk hma]
          constructor
          · intro h; exact absurd h (by simp)
          · intro h
            have hh := h (k, v) (List.mem_cons_self _ _)
            simp [pairMatchesB, hk, hma] at hh
  · induction pre with
    | nil =>
      intro _
      simpa using is_match_cons_classes e s post
    | cons kv rest ih =>
      intro h
      obtain ⟨k, v⟩ := kv
      have hk : k ≠ "classes" := hnc (k, v) (List.mem_cons_self _ _)
      have hp : e.is_match_attribute k v = .ok true := by
        have hh := h (k, v) (List.mem_cons_self _ _)
        simpa [pairMatchesB, hk] using hh
      rw [List.cons_append, is_match_cons_true e k v _ hk hp]
      exact ih (fun kv hkv => hnc kv (List.mem_cons_of_mem _ hkv))
        (fun kv hkv => h kv (List.mem_cons_of_mem _ hkv))

/-- Witness for `c2_amended` at concrete inputs. -/
theorem c2_amended_witness :
    (∀ kv ∈ [("id", Value.vStr "")], Prod.fst kv ≠ "classes") ∧
    ((Elem.is_match (.node {}) [("id", Value.vStr "")] = .ok true) ↔
      (∀ kv ∈ [("id", Value.vStr "")], pairMatchesB (.node {}) kv = true)) :=
  ⟨by decide, (c2_amended (.node {}) [("id", Value.vStr "")] [] "" (by decide)).1⟩

/-! ### C3: `filter` -/

/-- C3 counterexample: `filter` does not return the matching sub-sequence
for every attrs — a non-string `classes` value makes `is_match` raise, and
the exception propagates out of `filter`. -/
theorem c3_counterexample :
    GenericElements.filter [Elem.node {}] [("classes", Value.vBool true)] ≠
      Except.ok (([Elem.node {}]).filter
        (fun e => Elem.is_match e [("classes", Value.vBool true)] == Except.ok true)) := by
  decide

/-- C3 amended: whenever no element's `is_match` raises on the given
attrs (in particular for any well-typed attrs), `filter` returns exactly
the sub-sequence of elements, in original order, on which `is_match` is
`True` — and hence no element outside the result matches. -/
theorem c3_amended (els : List Elem) (attrs : Attrs)
    (h : ∀ e ∈ els, Elem.is_match e attrs ≠ .error ()) :
    GenericElements.filter els attrs =
      .ok (els.filter (fun e => Elem.is_match e attrs == Except.ok true)) := by
  induction els with
  | nil => rfl
  | cons e rest ih =>
    have he := h e (List.mem_cons_self _ _)
    have ih' := ih (fun x hx => h x (List.mem_cons_of_mem _ hx))
    cases hm : e.is_match attrs with
    | error u => cases u; exact absurd hm he
    | ok b =>
      have hbf : ((Except.ok false : Res Bool) == Except.ok true) = false := by decide
      cases b with
      | true => simp [GenericElements.filter, hm, ih', List.filter]
      | false => simp [GenericElements.filter, hm, ih', List.filter, hbf]

/-! ### Totality of the identity scans -/

/-- `is_match_attribute` on a `Node` can raise only on the dict field
`scratch` (`KeyError` / `.items()`). -/
theorem nodeIsMatchAttr_total (n : Node) (k : String) (v : Value)
    (hk : k ≠ "scratch") : ∃ b, n.is_match_attribute k v = .ok b := by
  unfold Node.is_match_attribute
  split_ifs with h1 h2 h3 h4 h5 h6 h7 h8 h9 h10
  all_goals first | exact ⟨_, rfl⟩ | exact absurd (by assumption) hk

/-- `is_match_attribute` on an `Edge` can raise only on `scratch`. -/
theorem edgeIsMatchAttr_total (ed : Edge) (k : String) (v : Value)
    (hk : k ≠ "scratch") : ∃ b, ed.is_match_attribute k v = .ok b := by
  unfold Edge.is_match_attribute
  split_ifs with h1 h2 h3 h4 h5 h6 h7 h8 h9
  all_goals first | exact ⟨_, rfl⟩ | exact absurd (by assumption) hk

/-- `is_match_attribute` can raise only on the dict field `scratch`. -/
theorem is_match_attribute_total (e : Elem) (k : String) (v : Value)
    (hk : k ≠ "scratch") : ∃ b, e.is_match_attribute k v = .ok b := by
  cases e with
  | node n => exact nodeIsMatchAttr_total n k v hk
  | edge ed => exact edgeIsMatchAttr_total ed k v hk

/-- `is_match` never raises on attrs whose keys avoid `classes` and
`scratch` (in particular on the identity-key projections used by `get`). -/
theorem is_match_total (e : Elem) (attrs : Attrs)
    (h : ∀ kv ∈ attrs, kv.1 ≠ "classes" ∧ kv.1 ≠ "scratch") :
    ∃ b, e.is_match attrs = .ok b := by
  induction attrs with
  | nil => exact ⟨true, rfl⟩
  | cons kv rest ih =>
    obtain ⟨k, v⟩ := kv
    obtain ⟨hkc, hks⟩ := h (k, v) (List.mem_cons_self _ _)
    obtain ⟨b, hb⟩ := is_match_attribute_total e k v hks
    cases b with
    | true =>
      rw [is_match_cons_true e k v rest hkc hb]
      exact ih (fun kv hkv => h kv (List.mem_cons_of_mem _ hkv))
    | false => exact ⟨false, is_match_cons_false e k v rest hkc hb⟩

theorem filter_total (els : List Elem) (attrs : Attrs)
    (h : ∀ kv ∈ attrs, kv.1 ≠ "classes" ∧ kv.1 ≠ "scratch") :
    ∃ L, GenericElements.filter els attrs = .ok L := by
  induction els with
  | nil => exact ⟨[], rfl⟩
  | cons e rest ih =>
    obtain ⟨b, hb⟩ := is_match_total e attrs h
    obtain ⟨L, hL⟩ := ih
    exact ⟨if b then e :: L else L, by simp [GenericElements.filter, hb, hL]⟩

/-- A hit of the `get` scan with group `g` and key projection `ka`. -/
def scanHit (g : String) (ka : Attrs) (e : Elem) : Prop :=
  e.is_match [("group", .vStr g)] = .ok true ∧ e.is_match ka = .ok true

instance (g : String) (ka : Attrs) (e : Elem) : Decidable (scanHit g ka e) := by
  unfold scanHit; infer_instance

theorem is_match_group_total (e : Elem) (g : String) :
    ∃ b, e.is_match [("group", .vStr g)] = .ok b :=
  is_match_total e _ (by
    intro kv h
    simp only [List.mem_singleton] at h
    subst h
    exact ⟨by simp, by simp⟩)

theorem scanIdx_total (g : String) (ka : Attrs) (els : List Elem) (i0 : Nat)
    (hT : ∀ e : Elem, ∃ b, e.is_match ka = .ok b) :
    ∃ o, GenericElements.scanIdx g ka els i0 = .ok o := by
  induction els generalizing i0 with
  | nil => exact ⟨none, rfl⟩
  | cons e rest ih =>
    obtain ⟨bg, hbg⟩ := is_match_group_total e g
    cases bg with
    | false =>
      obtain ⟨o, ho⟩ := ih (i0 + 1)
      exact ⟨o, by simp [GenericElements.scanIdx, hbg, ho]⟩
    | true =>
      obtain ⟨bk, hbk⟩ := hT e
      cases bk with
      | true => exact ⟨some i0, by simp [GenericElements.scanIdx, hbg, hbk]⟩
      | false =>
        obtain ⟨o, ho⟩ := ih (i0 + 1)
        exact ⟨o, by simp [GenericElements.scanIdx, hbg, hbk, ho]⟩

/-- What a successful scan returns: the position (shifted by the start
index) of the first hit, with no hit before it. -/
theorem scanIdx_some_spec (g : String) (ka : Attrs) (els : List Elem) (i0 j : Nat)
    (h : GenericElements.scanIdx g ka els i0 = .ok (some j)) :
    ∃ t e, els[t]? = some e ∧ j = i0 + t ∧ scanHit g ka e ∧
      (∀ u e', u < t → els[u]? = some e' → ¬ scanHit g ka e') := by
  induction els generalizing i0 with
  | nil => simp [GenericElements.scanIdx] at h
  | cons e rest ih =>
    rw [GenericElements.scanIdx] at h
    cases hbg : e.is_match [("group", .vStr g)] with
    | error u => rw [hbg] at h; cases h
    | ok bg =>
      rw [hbg] at h
      cases bg with
      | false =>
        obtain ⟨t, e', he', hj, hhit, hmin⟩ := ih (i0 + 1) h
        refine ⟨t + 1, e', by simpa using he', by omega, hhit, ?_⟩
        intro u e'' hu he''
        cases u with
        | zero =>
          simp at he''
          subst he''
          intro hc
          exact absurd hc.1 (by simp [hbg])
        | succ u' => exact hmin u' e'' (by omega) (by simpa using he'')
      | true =>
        cases hbk : e.is_match ka with
        | error u => rw [hbk] at h; cases h
        | ok bk =>
          rw [hbk] at h
          cases bk with
          | true =>
            simp at h
            exact ⟨0, e, by simp, by omega, ⟨hbg, hbk⟩,
              fun u e'' hu _ => absurd hu (Nat.not_lt_zero u)⟩
          | false =>
            obtain ⟨t, e', he', hj, hhit, hmin⟩ := ih (i0 + 1) h
            refine ⟨t + 1, e', by simpa using he', by omega, hhit, ?_⟩
            intro u e'' hu he''
            cases u with
            | zero =>
              simp at he''
              subst he''
              intro hc
              exact absurd hc.2 (by simp [hbk])
            | succ u' => exact hmin u' e'' (by omega) (by simpa using he'')

/-- What a none-returning scan means: no element is a hit. -/
theorem scanIdx_none_spec (g : String) (ka : Attrs) (els : List Elem) (i0 : Nat)
    (h : GenericElements.scanIdx g ka els i0 = .ok none) :
    ∀ (t : Nat) (e : Elem), els[t]? = some e → ¬ scanHit g ka e := by
  induction els generalizing i0 with
  | nil => intro t e he; simp at he
  | cons e rest ih =>
    rw [GenericElements.scanIdx] at h
    cases hbg : e.is_match [("group", .vStr g)] with
    | error u => rw [hbg] at h; cases h
    | ok bg =>
      rw [hbg] at h
      cases bg with
      | false =>
        intro t e' he'
        cases t with
        | zero =>
          simp at he'
          subst he'
          intro hc
          exact absurd hc.1 (by simp [hbg])
        | succ t' => exact ih (i0 + 1) h t' e' (by simpa using he')
      | true =>
        cases hbk : e.is_match ka with
        | error u => rw [hbk] at h; cases h
        | ok bk =>
          rw [hbk] at h
          cases bk with
          | true => simp at h
          | false =>
            intro t e' he'
            cases t with
            | zero =>
              simp at he'
              subst he'
              intro hc
              exact absurd hc.2 (by simp [hbk])
            | succ t' => exact ih (i0 + 1) h t' e' (by simpa using he')

/-- Keys eligible for the node scan's projection. -/
theorem id_proj_total (w : Value) (e : Elem) :
    ∃ b, e.is_match [("id", w)] = .ok b :=
  is_match_total e _ (by
    intro kv h
    simp only [List.mem_singleton] at h
    subst h
    exact ⟨by simp, by simp⟩)

theorem edge_proj_total (w1 w2 : Value) (e : Elem) :
    ∃ b, e.is_match [("source", w1), ("target", w2)] = .ok b :=
  is_match_total e _ (by
    intro kv h
    simp only [List.mem_cons, List.not_mem_nil, or_false] at h
    rcases h with h | h <;> subst h
    · exact ⟨by simp, by simp⟩
    · exact ⟨by simp, by simp⟩)

/-- `get` (hence `getIdx`) never raises: its internal matches use only the
`group` key and the identity-key projections. -/
theorem getIdx_total (els : List Elem) (attrs : Attrs) :
    ∃ o, GenericElements.getIdx els attrs = .ok o := by
  obtain ⟨oe, hoe⟩ : ∃ oe,
      (if (GenericElements.hasKey attrs "source" &&
          GenericElements.hasKey attrs "target") = true then
        GenericElements.scanIdx "edges"
          [("source", GenericElements.kwget attrs "source"),
           ("target", GenericElements.kwget attrs "target")] els 0
      else .ok none) = .ok oe := by
    split_ifs with h
    · exact scanIdx_total _ _ els 0 (edge_proj_total _ _)
    · exact ⟨none, rfl⟩
  unfold GenericElements.getIdx
  by_cases hid : GenericElements.hasKey attrs "id" = true
  · obtain ⟨o1, ho1⟩ :=
      scanIdx_total "nodes" [("id", GenericElements.kwget attrs "id")] els 0
        (id_proj_total _)
    rw [if_pos hid, ho1]
    cases o1 with
    | some i => exact ⟨some i, rfl⟩
    | none => exact ⟨oe, hoe⟩
  · rw [if_neg hid]
    exact ⟨oe, hoe⟩

/-- Decomposition of a successful resolution: it came from the node scan,
or from the edge scan with the node scan missing or skipped. -/
theorem getIdx_some_cases (els : List Elem) (attrs : Attrs) (i : Nat)
    (h : GenericElements.getIdx els attrs = .ok (some i)) :
    (GenericElements.hasKey attrs "id" = true ∧
      GenericElements.scanIdx "nodes" [("id", GenericElements.kwget attrs "id")] els 0 =
        .ok (some i)) ∨
    ((GenericElements.hasKey attrs "source" &&
        GenericElements.hasKey attrs "target") = true ∧
      GenericElements.scanIdx "edges"
        [("source", GenericElements.kwget attrs "source"),
         ("target", GenericElements.kwget attrs "target")] els 0 = .ok (some i) ∧
      (GenericElements.hasKey attrs "id" = true →
        GenericElements.scanIdx "nodes" [("id", GenericElements.kwget attrs "id")] els 0 =
          .ok none)) := by
  unfold GenericElements.getIdx at h
  by_cases hid : GenericElements.hasKey attrs "id" = true
  · rw [if_pos hid] at h
    obtain ⟨o1, ho1⟩ :=
      scanIdx_total "nodes" [("id", GenericElements.kwget attrs "id")] els 0
        (id_proj_total _)
    rw [ho1] at h
    cases o1 with
    | some j =>
      replace h : (Except.ok (some j) : Res (Option Nat)) = .ok (some i) := h
      simp only [Except.ok.injEq, Option.some.injEq] at h
      subst h
      exact Or.inl ⟨hid, ho1⟩
    | none =>
      replace h :
          (if (GenericElements.hasKey attrs "source" &&
              GenericElements.hasKey attrs "target") = true then
            GenericElements.scanIdx "edges"
              [("source", GenericElements.kwget attrs "source"),
               ("target", GenericElements.kwget attrs "target")] els 0
          else .ok none) = .ok (some i) := h
      by_cases hst : (GenericElements.hasKey attrs "source" &&
          GenericElements.hasKey attrs "target") = true
      · rw [if_pos hst] at h
        exact Or.inr ⟨hst, h, fun _ => ho1⟩
      · rw [if_neg hst] at h
        cases h
  · rw [if_neg hid] at h
    replace h :
        (if (GenericElements.hasKey attrs "source" &&
            GenericElements.hasKey attrs "target") = true then
          GenericElements.scanIdx "edges"
            [("source", GenericElements.kwget attrs "source"),
             ("target", GenericElements.kwget attrs "target")] els 0
        else .ok none) = .ok (some i) := h
    by_cases hst : (GenericElements.hasKey attrs "source" &&
        GenericElements.hasKey attrs "target") = true
    · rw [if_pos hst] at h
      exact Or.inr ⟨hst, h, fun hh => absurd hh hid⟩
    · rw [if_neg hst] at h
      cases h

/-- The resolved position holds the resolved element, and no earlier
position holds a `==`-equal element (`is_match` is a function of the
element's field values, so an equal element would have been scanned
first). -/
theorem getIdx_resolves (els : List Elem) (attrs : Attrs) (i : Nat)
    (h : GenericElements.getIdx els attrs = .ok (some i)) :
    ∃ element, els[i]? = some element ∧ ∀ j, j < i → els[j]? ≠ some element := by
  rcases getIdx_some_cases els attrs i h with ⟨_, hscan⟩ | ⟨_, hscan, _⟩ <;>
  · obtain ⟨t, e, he, hj, hhit, hmin⟩ := scanIdx_some_spec _ _ _ _ _ hscan
    have hit : i = t := by omega
    subst hit
    refine ⟨e, he, ?_⟩
    intro j hjlt hcon
    exact hmin j e hjlt hcon hhit

/-- `list.remove` deletes exactly the position of the first `==`-equal
occurrence. -/
theorem findIdx_first_eq_aux (els : List Elem) (x : Elem) :
    ∀ (i s : Nat), els[i]? = some x → (∀ j, j < i → els[j]? ≠ some x) →
      List.findIdx? (fun e => e == x) els s = some (s + i) := by
  induction els with
  | nil => intro i s hi _; simp at hi
  | cons e rest ih =>
    intro i s hi hlt
    rw [List.findIdx?_cons]
    cases i with
    | zero =>
      simp only [List.getElem?_cons_zero, Option.some.injEq] at hi
      subst hi
      simp
    | succ i' =>
      have h0 : (e == x) = false := by
        have hne : e ≠ x := fun hex => hlt 0 (Nat.succ_pos _) (by simp [hex])
        simpa using hne
      rw [h0]
      simp only [Bool.false_eq_true, if_false]
      have hrec := ih i' (s + 1) (by simpa using hi)
        (fun j hj hc => hlt (j + 1) (by omega) (by simpa using hc))
      rw [hrec]
      congr 1
      omega

/-- A scan over elements none of which is a hit returns nothing. -/
theorem scanIdx_no_hit (g : String) (ka : Attrs) (els : List Elem) (i0 : Nat)
    (hT : ∀ e : Elem, ∃ b, e.is_match ka = .ok b)
    (hno : ∀ e ∈ els, ¬ scanHit g ka e) :
    GenericElements.scanIdx g ka els i0 = .ok none := by
  induction els generalizing i0 with
  | nil => rfl
  | cons e rest ih =>
    have hrest := ih (i0 + 1) (fun x hx => hno x (List.mem_cons_of_mem _ hx))
    obtain ⟨bg, hbg⟩ := is_match_group_total e g
    cases bg with
    | false => simp [GenericElements.scanIdx, hbg, hrest]
    | true =>
      obtain ⟨bk, hbk⟩ := hT e
      cases bk with
      | true => exact absurd ⟨hbg, hbk⟩ (hno e (List.mem_cons_self _ _))
      | false => simp [GenericElements.scanIdx, hbg, hbk, hrest]

/-- A scan stops at the first hit. -/
theorem scanIdx_first_hit (g : String) (ka : Attrs) (A B : List Elem) (x : Elem)
    (i0 : Nat) (hT : ∀ e : Elem, ∃ b, e.is_match ka = .ok b)
    (hA : ∀ e ∈ A, ¬ scanHit g ka e) (hx : scanHit g ka x) :
    GenericElements.scanIdx g ka (A ++ x :: B) i0 = .ok (some (i0 + A.length)) := by
  induction A generalizing i0 with
  | nil =>
    simp only [List.nil_append, List.length_nil, Nat.add_zero]
    simp [GenericElements.scanIdx, hx.1, hx.2]
  | cons a A' ih =>
    have hrest := ih (i0 + 1) (fun e he => hA e (List.mem_cons_of_mem _ he))
    obtain ⟨bg, hbg⟩ := is_match_group_total a g
    have hna := hA a (List.mem_cons_self _ _)
    cases bg with
    | false =>
      simp only [List.cons_append]
      simp [GenericElements.scanIdx, hbg, hrest, List.length_cons]
      omega
    | true =>
      obtain ⟨bk, hbk⟩ := hT a
      cases bk with
      | true => exact absurd ⟨hbg, hbk⟩ hna
      | false =>
        simp only [List.cons_append]
        simp [GenericElements.scanIdx, hbg, hbk, hrest, List.length_cons]
        omega

/-- A filter over elements that all fail the match returns the empty
collection. -/
theorem filter_eq_nil (els : List Elem) (attrs : Attrs)
    (h : ∀ e ∈ els, Elem.is_match e attrs = .ok false) :
    GenericElements.filter els attrs = .ok [] := by
  induction els with
  | nil => rfl
  | cons e rest ih =>
    have he := h e (List.mem_cons_self _ _)
    have ih' := ih (fun x hx => h x (List.mem_cons_of_mem _ hx))
    simp [GenericElements.filter, he, ih']

/-- Setting at the junction position of an append. -/
theorem set_append_mid (A B : List Elem) (x y : Elem) :
    (A ++ x :: B).set A.length y = A ++ y :: B := by
  induction A with
  | nil => rfl
  | cons a A' ih => simp [List.set, ih]

theorem veqStr_str (a b : String) : veqStr a (.vStr b) = decide (a = b) := rfl

theorem is_match_single (e : Elem) (k : String) (v : Value) (b : Bool)
    (hk : k ≠ "classes") (hma : e.is_match_attribute k v = .ok b) :
    e.is_match [(k, v)] = .ok b := by
  cases b with
  | true => rw [is_match_cons_true e k v [] hk hma]; rfl
  | false => exact is_match_cons_false e k v [] hk hma

theorem node_match_group_nodes (n : Node) :
    Elem.is_match (.node n) [("group", .vStr "nodes")] = .ok true := rfl

theorem edge_match_group_nodes (ed : Edge) :
    Elem.is_match (.edge ed) [("group", .vStr "nodes")] = .ok false := rfl

theorem node_match_group_edges (n : Node) :
    Elem.is_match (.node n) [("group", .vStr "edges")] = .ok false := rfl

theorem edge_match_group_edges (ed : Edge) :
    Elem.is_match (.edge ed) [("group", .vStr "edges")] = .ok true := rfl

theorem node_match_id (n : Node) (w : Value) :
    Elem.is_match (.node n) [("id", w)] = .ok (veqStr n.data.id w) :=
  is_match_single _ _ _ _ (by decide) rfl

theorem edge_match_id (ed : Edge) (w : Value) :
    Elem.is_match (.edge ed) [("id", w)] = .ok (veqStr ed.data.id w) :=
  is_match_single _ _ _ _ (by decide) rfl

/-- A Node never matches the edge identity keys (`source` is found on no
sub-record of `NodeData`). -/
theorem node_match_src_tgt (n : Node) (v1 v2 : Value) :
    Elem.is_match (.node n) [("source", v1), ("target", v2)] = .ok false :=
  is_match_cons_false _ _ _ _ (by decide) rfl

theorem edge_match_src_tgt (ed : Edge) (v1 v2 : Value) :
    Elem.is_match (.edge ed) [("source", v1), ("target", v2)] =
      .ok (veqStr ed.data.source v1 && veqStr ed.data.target v2) := by
  have h1 : Elem.is_match_attribute (.edge ed) "source" v1 =
      .ok (veqStr ed.data.source v1) := rfl
  cases hb : veqStr ed.data.source v1 with
  | false =>
    rw [is_match_cons_false _ _ _ _ (by decide) (by rw [h1, hb])]
    simp
  | true =>
    rw [is_match_cons_true _ _ _ _ (by decide) (by rw [h1, hb])]
    rw [is_match_single (.edge ed) "target" v2 (veqStr ed.data.target v2) (by decide) rfl]
    simp

/-! ### C8: `remove` -/

/-- C8: `remove(attrs)` resolves via `get`; on a miss it is a no-op, and
on a hit it deletes exactly the resolved element's position (Python
`list.remove` deletes the first `==`-equal entry, which is the resolved
position because `get` returns the first match and value-equal elements
match alike), leaving every other element in place and in order. -/
theorem c8_remove_exact (els : List Elem) (attrs : Attrs) :
    ∃ o, GenericElements.getIdx els attrs = .ok o ∧
      GenericElements.get els attrs = .ok (o.bind fun i => els[i]?) ∧
      GenericElements.remove els attrs =
        .ok (match o with
          | none => els
          | some i => els.eraseIdx i) := by
  obtain ⟨o, ho⟩ := getIdx_total els attrs
  have hget : GenericElements.get els attrs = .ok (o.bind fun i => els[i]?) := by
    unfold GenericElements.get
    rw [ho]
    rfl
  refine ⟨o, ho, hget, ?_⟩
  unfold GenericElements.remove
  rw [hget]
  cases o with
  | none => rfl
  | some i =>
    obtain ⟨element, he, hfirst⟩ := getIdx_resolves els attrs i ho
    have hfi : List.findIdx? (fun e => e == element) els = some i := by
      have := findIdx_first_eq_aux els element i 0 he
        (fun j hj hc => hfirst j hj hc)
      simpa using this
    replace he' : (Option.some i).bind (fun i => els[i]?) = some element := by simp [he]
    rw [he']
    show (match List.findIdx? (fun e => e == element) els 0 with
      | some j => Except.ok (els.eraseIdx j)
      | none => Except.error ()) = _
    rw [show List.findIdx? (fun e => e == element) els 0 =
        List.findIdx? (fun e => e == element) els from rfl, hfi]

/-- Reading at the junction position of an append. -/
theorem getElem_append_mid (A B : List Elem) (x : Elem) :
    (A ++ x :: B)[A.length]? = some x := by
  induction A with
  | nil => simp
  | cons a A' ih => simpa using ih

/-! ### C10: the merge path rewrites an existing Edge's id -/

/-- C10: for a collection containing an Edge with source `s`, target `t`
and id `i` (the first Edge with that pair), `add(id=j, source=s, target=t)`
with `j ≠ i`, when no element of the collection matches id `j`, resolves
that Edge by its `(source, target)` pair and *overwrites its `data.id`
with `j`* in place — no new element is created and nothing aborts. -/
theorem c10_edge_id_rewrite (A B : List Elem) (E : Edge) (j fresh : String)
    (hij : E.data.id ≠ j)
    (hnoA : ∀ e ∈ A, Elem.is_match e [("id", Value.vStr j)] = .ok false)
    (hnoB : ∀ e ∈ B, Elem.is_match e [("id", Value.vStr j)] = .ok false)
    (hfirst : ∀ ed : Edge, Elem.edge ed ∈ A →
      ¬ (ed.data.source = E.data.source ∧ ed.data.target = E.data.target)) :
    GenericElements.add (A ++ Elem.edge E :: B)
      [("id", Value.vStr j), ("source", Value.vStr E.data.source),
       ("target", Value.vStr E.data.target)] fresh =
    (A ++ Elem.edge { E with data := { E.data with id := j } } :: B, false) := by
  set attrs : Attrs := [("id", Value.vStr j), ("source", Value.vStr E.data.source),
    ("target", Value.vStr E.data.target)] with hattrs
  set els : List Elem := A ++ Elem.edge E :: B with hels
  have hEid : Elem.is_match (.edge E) [("id", Value.vStr j)] = .ok false := by
    rw [edge_match_id, veqStr_str]
    simp [hij]
  have hnoid : ∀ e ∈ els, Elem.is_match e [("id", Value.vStr j)] = .ok false := by
    intro e he
    rw [hels] at he
    rcases List.mem_append.mp he with hA | hEB
    · exact hnoA e hA
    · rcases List.mem_cons.mp hEB with hE | hB
      · subst hE; exact hEid
      · exact hnoB e hB
  have hkwid : GenericElements.kwget attrs "id" = Value.vStr j := rfl
  have hkws : GenericElements.kwget attrs "source" = Value.vStr E.data.source := rfl
  have hkwt : GenericElements.kwget attrs "target" = Value.vStr E.data.target := rfl
  have hnodescan :
      GenericElements.scanIdx "nodes" [("id", GenericElements.kwget attrs "id")] els 0 =
        .ok none := by
    rw [hkwid]
    apply scanIdx_no_hit _ _ _ _ (id_proj_total _)
    intro e he hhit
    cases e with
    | node n => exact absurd hhit.2 (by simp [hnoid _ he])
    | edge ed => exact absurd hhit.1 (by simp [edge_match_group_nodes])
  have hedgescan :
      GenericElements.scanIdx "edges"
        [("source", GenericElements.kwget attrs "source"),
         ("target", GenericElements.kwget attrs "target")] els 0 =
        .ok (some A.length) := by
    rw [hkws, hkwt, hels]
    have := scanIdx_first_hit "edges"
      [("source", Value.vStr E.data.source), ("target", Value.vStr E.data.target)]
      A B (Elem.edge E) 0 (edge_proj_total _ _) ?_ ?_
    · simpa using this
    · intro e he hhit
      cases e with
      | node n => exact absurd hhit.2 (by simp [node_match_src_tgt])
      | edge ed =>
        have hp := hhit.2
        rw [edge_match_src_tgt, veqStr_str, veqStr_str] at hp
        have := hfirst ed he
        simp only [Except.ok.injEq, Bool.and_eq_true] at hp
        obtain ⟨hs, ht⟩ := hp
        exact this ⟨by simpa using hs, by simpa using ht⟩
    · refine ⟨edge_match_group_edges E, ?_⟩
      rw [edge_match_src_tgt, veqStr_str, veqStr_str]
      simp
  have hk1 : GenericElements.hasKey attrs "id" = true := by rw [hattrs]; rfl
  have hk2 : (GenericElements.hasKey attrs "source" &&
      GenericElements.hasKey attrs "target") = true := by rw [hattrs]; rfl
  have hgi : GenericElements.getIdx els attrs = .ok (some A.length) := by
    unfold GenericElements.getIdx
    rw [if_pos hk1, hnodescan]
    rw [if_pos hk2, hedgescan]
  have hfil : GenericElements.filter els [("id", GenericElements.kwget attrs "id")] =
      .ok [] := by
    rw [hkwid]
    exact filter_eq_nil els _ hnoid
  have hmerge : Elem.add (.edge E) attrs =
      (Elem.edge { E with data := { E.data with id := j } }, false) := rfl
  have hIdx : els[A.length]? = some (Elem.edge E) := by
    rw [hels]; exact getElem_append_mid A B _
  unfold GenericElements.add
  simp only [hgi, hIdx, hk1, hfil, hmerge, if_true, List.all_nil]
  rw [hels, set_append_mid]

/-- Witness for `c10_edge_id_rewrite` at concrete inputs. -/
theorem c10_witness :
    GenericElements.add [Elem.edge { data := { id := "e1", source := "a", target := "b" } }]
      [("id", Value.vStr "e2"), ("source", Value.vStr "a"), ("target", Value.vStr "b")]
      "u" =
    ([Elem.edge { data := { id := "e2", source := "a", target := "b" } }], false) :=
  c10_edge_id_rewrite [] [] { data := { id := "e1", source := "a", target := "b" } }
    "e2" "u" (by decide) (by simp) (by simp) (by simp)

/-! ### Schema-typed attribute values -/

/-- Keys ultimately stored in `str` fields of the default schema. -/
def strKey (k : String) : Bool :=
  k == "classes" || k == "group" || k == "id" || k == "parent" || k == "label" ||
  k == "source" || k == "target" || k == "source_label" || k == "target_label"

/-- Keys stored in `bool` fields. -/
def boolKey (k : String) : Bool :=
  k == "selected" || k == "selectable" || k == "locked" || k == "grabbable" ||
  k == "pannable"

/-- Keys stored in `float` fields. -/
def floatKey (k : String) : Bool :=
  k == "x" || k == "y"

/-- The value kinds that merging the given key accepts without a pydantic
validation error or a raising `.split()`/`.items()` call.  The
record-replacing keys `data` and `position` are excluded. -/
def typeOk (k : String) (v : Value) : Bool :=
  if strKey k then (match v with | .vStr _ => true | _ => false)
  else if boolKey k then (match v with | .vBool _ => true | _ => false)
  else if floatKey k then (match v with | .vFloat _ => true | _ => false)
  else if k == "scratch" then (match v with | .vDict _ => true | _ => false)
  else if k == "data" || k == "position" then false
  else true

/-- Attrs whose every pair is schema-typed. -/
def WellTyped (attrs : Attrs) : Prop :=
  ∀ kv ∈ attrs, typeOk kv.1 kv.2 = true

instance (attrs : Attrs) : Decidable (WellTyped attrs) := by
  unfold WellTyped; infer_instance

theorem typeOk_str {k : String} {v : Value} (hk : strKey k = true)
    (h : typeOk k v = true) : ∃ s, v = .vStr s := by
  unfold typeOk at h
  rw [if_pos hk] at h
  cases v with
  | vStr s => exact ⟨s, rfl⟩
  | vBool b => cases h
  | vFloat q => cases h
  | vDict d => cases h

theorem typeOk_bool {k : String} {v : Value} (hs : strKey k = false)
    (hb : boolKey k = true) (h : typeOk k v = true) : ∃ b, v = .vBool b := by
  unfold typeOk at h
  rw [if_neg (by simp [hs]), if_pos hb] at h
  cases v with
  | vBool b => exact ⟨b, rfl⟩
  | vStr s => cases h
  | vFloat q => cases h
  | vDict d => cases h

theorem typeOk_float {k : String} {v : Value} (hs : strKey k = false)
    (hb : boolKey k = false) (hf : floatKey k = true) (h : typeOk k v = true) :
    ∃ q, v = .vFloat q := by
  unfold typeOk at h
  rw [if_neg (by simp [hs]), if_neg (by simp [hb]), if_pos hf] at h
  cases v with
  | vFloat q => exact ⟨q, rfl⟩
  | vStr s => cases h
  | vBool b => cases h
  | vDict d => cases h

theorem typeOk_scratch {v : Value} (h : typeOk "scratch" v = true) :
    ∃ d, v = .vDict d := by
  unfold typeOk at h
  rw [if_neg (by decide), if_neg (by decide), if_neg (by decide),
    if_pos (by decide)] at h
  cases v with
  | vDict d => exact ⟨d, rfl⟩
  | vStr s => cases h
  | vBool b => cases h
  | vFloat q => cases h

theorem typeOk_data_false (v : Value) : typeOk "data" v = false := by
  unfold typeOk
  rw [if_neg (by decide), if_neg (by decide), if_neg (by decide),
    if_neg (by decide), if_pos (by decide)]

theorem typeOk_position_false (v : Value) : typeOk "position" v = false := by
  unfold typeOk
  rw [if_neg (by decide), if_neg (by decide), if_neg (by decide),
    if_neg (by decide), if_pos (by decide)]

/-! ### Merging schema-typed values never raises -/

theorem nodeDataAddAttr_ok (d : NodeData) (k : String) (v : Value)
    (h : typeOk k v = true) : ∃ d', d.add_attribute k v = .ok d' := by
  unfold NodeData.add_attribute
  split_ifs with h1 h2 h3
  · obtain ⟨s, hv⟩ := typeOk_str (by rw [h1]; decide) h
    subst hv; exact ⟨_, rfl⟩
  · obtain ⟨s, hv⟩ := typeOk_str (by rw [h2]; decide) h
    subst hv; exact ⟨_, rfl⟩
  · obtain ⟨s, hv⟩ := typeOk_str (by rw [h3]; decide) h
    subst hv; exact ⟨_, rfl⟩
  · exact ⟨d, rfl⟩

theorem edgeDataAddAttr_ok (d : EdgeData) (k : String) (v : Value)
    (h : typeOk k v = true) : ∃ d', d.add_attribute k v = .ok d' := by
  unfold EdgeData.add_attribute
  split_ifs with h1 h2 h3 h4 h5 h6
  · obtain ⟨s, hv⟩ := typeOk_str (by rw [h1]; decide) h
    subst hv; exact ⟨_, rfl⟩
  · obtain ⟨s, hv⟩ := typeOk_str (by rw [h2]; decide) h
    subst hv; exact ⟨_, rfl⟩
  · obtain ⟨s, hv⟩ := typeOk_str (by rw [h3]; decide) h
    subst hv; exact ⟨_, rfl⟩
  · obtain ⟨s, hv⟩ := typeOk_str (by rw [h4]; decide) h
    subst hv; exact ⟨_, rfl⟩
  · obtain ⟨s, hv⟩ := typeOk_str (by rw [h5]; decide) h
    subst hv; exact ⟨_, rfl⟩
  · obtain ⟨s, hv⟩ := typeOk_str (by rw [h6]; decide) h
    subst hv; exact ⟨_, rfl⟩
  · exact ⟨d, rfl⟩

theorem positionAddAttr_ok (p : Position) (k : String) (v : Value)
    (h : typeOk k v = true) : ∃ p', p.add_attribute k v = .ok p' := by
  unfold Position.add_attribute
  split_ifs with h1 h2
  · obtain ⟨q, hv⟩ := typeOk_float (by rw [h1]; decide) (by rw [h1]; decide)
      (by rw [h1]; decide) h
    subst hv; exact ⟨_, rfl⟩
  · obtain ⟨q, hv⟩ := typeOk_float (by rw [h2]; decide) (by rw [h2]; decide)
      (by rw [h2]; decide) h
    subst hv; exact ⟨_, rfl⟩
  · exact ⟨p, rfl⟩

theorem res_bind_ok {α β : Type} (a : α) (f : α → Res β) :
    (Except.ok a : Res α) >>= f = f a := rfl

theorem nodeAddAttr_ok (n : Node) (k : String) (v : Value)
    (h : typeOk k v = true) : ∃ n', n.add_attribute k v = .ok n' := by
  by_cases h1 : k = "group"
  · obtain ⟨s, hv⟩ := typeOk_str (by rw [h1]; decide) h
    subst h1 hv; exact ⟨_, rfl⟩
  by_cases h2 : k = "classes"
  · obtain ⟨s, hv⟩ := typeOk_str (by rw [h2]; decide) h
    subst h2 hv; exact ⟨_, rfl⟩
  by_cases h3 : k = "selected"
  · obtain ⟨b, hv⟩ := typeOk_bool (by rw [h3]; decide) (by rw [h3]; decide) h
    subst h3 hv; exact ⟨_, rfl⟩
  by_cases h4 : k = "selectable"
  · obtain ⟨b, hv⟩ := typeOk_bool (by rw [h4]; decide) (by rw [h4]; decide) h
    subst h4 hv; exact ⟨_, rfl⟩
  by_cases h5 : k = "locked"
  · obtain ⟨b, hv⟩ := typeOk_bool (by rw [h5]; decide) (by rw [h5]; decide) h
    subst h5 hv; exact ⟨_, rfl⟩
  by_cases h6 : k = "grabbable"
  · obtain ⟨b, hv⟩ := typeOk_bool (by rw [h6]; decide) (by rw [h6]; decide) h
    subst h6 hv; exact ⟨_, rfl⟩
  by_cases h7 : k = "scratch"
  · obtain ⟨d, hv⟩ := typeOk_scratch (h7 ▸ h)
    subst h7 hv; exact ⟨_, rfl⟩
  by_cases h8 : k = "data"
  · rw [h8, typeOk_data_false] at h; cases h
  by_cases h9 : k = "position"
  · rw [h9, typeOk_position_false] at h; cases h
  by_cases h10 : k = "pannable"
  · obtain ⟨b, hv⟩ := typeOk_bool (by rw [h10]; decide) (by rw [h10]; decide) h
    subst h10 hv; exact ⟨_, rfl⟩
  obtain ⟨d', hd⟩ := nodeDataAddAttr_ok n.data k v h
  obtain ⟨p', hp⟩ := positionAddAttr_ok n.position k v h
  unfold Node.add_attribute
  rw [if_neg h1, if_neg h2, if_neg h3, if_neg h4, if_neg h5, if_neg h6, if_neg h7,
    if_neg h8, if_neg h9, if_neg h10, hd, res_bind_ok, hp, res_bind_ok]
  exact ⟨_, rfl⟩

theorem edgeAddAttr_ok (ed : Edge) (k : String) (v : Value)
    (h : typeOk k v = true) : ∃ e', ed.add_attribute k v = .ok e' := by
  by_cases h1 : k = "group"
  · obtain ⟨s, hv⟩ := typeOk_str (by rw [h1]; decide) h
    subst h1 hv; exact ⟨_, rfl⟩
  by_cases h2 : k = "classes"
  · obtain ⟨s, hv⟩ := typeOk_str (by rw [h2]; decide) h
    subst h2 hv; exact ⟨_, rfl⟩
  by_cases h3 : k = "selected"
  · obtain ⟨b, hv⟩ := typeOk_bool (by rw [h3]; decide) (by rw [h3]; decide) h
    subst h3 hv; exact ⟨_, rfl⟩
  by_cases h4 : k = "selectable"
  · obtain ⟨b, hv⟩ := typeOk_bool (by rw [h4]; decide) (by rw [h4]; decide) h
    subst h4 hv; exact ⟨_, rfl⟩
  by_cases h5 : k = "locked"
  · obtain ⟨b, hv⟩ := typeOk_bool (by rw [h5]; decide) (by rw [h5]; decide) h
    subst h5 hv; exact ⟨_, rfl⟩
  by_cases h6 : k = "grabbable"
  · obtain ⟨b, hv⟩ := typeOk_bool (by rw [h6]; decide) (by rw [h6]; decide) h
    subst h6 hv; exact ⟨_, rfl⟩
  by_cases h7 : k = "scratch"
  · obtain ⟨d, hv⟩ := typeOk_scratch (h7 ▸ h)
    subst h7 hv; exact ⟨_, rfl⟩
  by_cases h8 : k = "data"
  · rw [h8, typeOk_data_false] at h; cases h
  by_cases h9 : k = "pannable"
  · obtain ⟨b, hv⟩ := typeOk_bool (by rw [h9]; decide) (by rw [h9]; decide) h
    subst h9 hv; exact ⟨_, rfl⟩
  obtain ⟨d', hd⟩ := edgeDataAddAttr_ok ed.data k v h
  unfold Edge.add_attribute
  rw [if_neg h1, if_neg h2, if_neg h3, if_neg h4, if_neg h5, if_neg h6, if_neg h7,
    if_neg h8, if_neg h9, hd, res_bind_ok]
  exact ⟨_, rfl⟩

theorem addStep_ok (e : Elem) (k : String) (v : Value) (h : typeOk k v = true) :
    ∃ e', e.addStep k v = .ok e' := by
  unfold Elem.addStep
  split_ifs with h1
  · obtain ⟨s, hv⟩ := typeOk_str (by rw [h1]; decide) h
    subst hv; exact ⟨_, rfl⟩
  · cases e with
    | node n =>
      obtain ⟨n', hn⟩ := nodeAddAttr_ok n k v h
      exact ⟨.node n', by simp [Elem.addAttr, hn, Except.map]⟩
    | edge ed =>
      obtain ⟨e', he⟩ := edgeAddAttr_ok ed k v h
      exact ⟨.edge e', by simp [Elem.addAttr, he, Except.map]⟩

/-- Merging well-typed attrs raises no exception. -/
theorem Elem.add_no_raise (attrs : Attrs) (e : Elem) (h : WellTyped attrs) :
    (e.add attrs).2 = false := by
  induction attrs generalizing e with
  | nil => rfl
  | cons kv rest ih =>
    obtain ⟨k, v⟩ := kv
    obtain ⟨e', he⟩ := addStep_ok e k v (h (k, v) (List.mem_cons_self _ _))
    rw [Elem.add, he]
    exact ih e' (fun kv hkv => h kv (List.mem_cons_of_mem _ hkv))

theorem Elem.add_eq_of_no_raise (attrs : Attrs) (e : Elem) (h : WellTyped attrs) :
    e.add attrs = ((e.add attrs).1, false) := by
  rw [Prod.ext_iff]
  exact ⟨rfl, Elem.add_no_raise attrs e h⟩

/-! ### C6: `add` raises / guard behaviour -/

/-- C6 counterexample: `add(classes=True)` on the empty collection raises
(`True.split()` inside `_add_classes`), so "add never raises an error" is
false as quantified over every attrs. -/
theorem c6_counterexample :
    (GenericElements.add [] [("classes", Value.vBool true)] "u").2 = true := by
  decide

/-- C6 amended: both guards abort silently and completely unchanged (no
exception, no mutation), unconditionally.  Moreover for schema-typed attrs
(values of the kinds the fields accept, no nested-record keys) `add` never
raises, and its only effect is one of: nothing, one in-place element
update, or one append. -/
theorem c6_amended (els : List Elem) (attrs : Attrs) (fresh : String) :
    (∀ (i : Nat) (element : Elem) (ms : List Elem),
      GenericElements.getIdx els attrs = .ok (some i) →
      els[i]? = some element →
      GenericElements.hasKey attrs "id" = true →
      GenericElements.filter els [("id", GenericElements.kwget attrs "id")] = .ok ms →
      ms.all (fun e => e == element) = false →
      GenericElements.add els attrs fresh = (els, false)) ∧
    (∀ ms : List Elem,
      GenericElements.getIdx els attrs = .ok none →
      GenericElements.hasKey attrs "id" = true →
      GenericElements.filter els [("id", GenericElements.kwget attrs "id")] = .ok ms →
      ms.isEmpty = false →
      GenericElements.add els attrs fresh = (els, false)) ∧
    (WellTyped attrs →
      (GenericElements.add els attrs fresh).2 = false ∧
      ((GenericElements.add els attrs fresh).1 = els ∨
       (∃ (i : Nat) (e' : Elem), i < els.length ∧
         (GenericElements.add els attrs fresh).1 = els.set i e') ∨
       (∃ ne : Elem, (GenericElements.add els attrs fresh).1 = els ++ [ne]))) := by
  refine ⟨?_, ?_, ?_⟩
  · intro i element ms hgi hi hk hf hall
    unfold GenericElements.add
    simp only [hgi, hi, hk, hf, hall, if_true, Bool.false_eq_true, if_false]
  · intro ms hgi hk hf hne
    unfold GenericElements.add
    simp only [hgi, hk, hf, if_true]
    simp [hne]
  · intro hwt
    obtain ⟨o, ho⟩ := getIdx_total els attrs
    cases o with
    | some i =>
      obtain ⟨element, hi, _⟩ := getIdx_resolves els attrs i ho
      have hlen : i < els.length := by
        by_contra hcon
        rw [List.getElem?_eq_none (by omega)] at hi
        cases hi
      by_cases hk : GenericElements.hasKey attrs "id" = true
      · obtain ⟨ms, hf⟩ := filter_total els [("id", GenericElements.kwget attrs "id")]
          (by
            intro kv hkv
            simp only [List.mem_singleton] at hkv
            subst hkv
            exact ⟨by simp, by simp⟩)
        by_cases hall : ms.all (fun e => e == element) = true
        · obtain ⟨e', he'⟩ : ∃ e', element.add attrs = (e', false) :=
            ⟨(element.add attrs).1, Elem.add_eq_of_no_raise attrs element hwt⟩
          have hadd : GenericElements.add els attrs fresh = (els.set i e', false) := by
            unfold GenericElements.add
            simp only [ho, hi, hk, hf, hall, if_true, he']
          rw [hadd]
          exact ⟨rfl, Or.inr (Or.inl ⟨i, e', hlen, rfl⟩)⟩
        · rw [Bool.not_eq_true] at hall
          have hadd : GenericElements.add els attrs fresh = (els, false) := by
            unfold GenericElements.add
            simp only [ho, hi, hk, hf, hall, if_true, Bool.false_eq_true, if_false]
          rw [hadd]
          exact ⟨rfl, Or.inl rfl⟩
      · obtain ⟨e', he'⟩ : ∃ e', element.add attrs = (e', false) :=
          ⟨(element.add attrs).1, Elem.add_eq_of_no_raise attrs element hwt⟩
        have hadd : GenericElements.add els attrs fresh = (els.set i e', false) := by
          unfold GenericElements.add
          simp only [ho, hi, if_neg hk, he']
        rw [hadd]
        exact ⟨rfl, Or.inr (Or.inl ⟨i, e', hlen, rfl⟩)⟩
    | none =>
      by_cases hk : GenericElements.hasKey attrs "id" = true
      · obtain ⟨ms, hf⟩ := filter_total els [("id", GenericElements.kwget attrs "id")]
          (by
            intro kv hkv
            simp only [List.mem_singleton] at hkv
            subst hkv
            exact ⟨by simp, by simp⟩)
        by_cases hne : ms.isEmpty = true
        · obtain ⟨ne, hce⟩ : ∃ ne,
              (if GenericElements.hasKey attrs "source" &&
                  GenericElements.hasKey attrs "target" then
                (Elem.edge {}) else (Elem.node {})).add attrs = (ne, false) :=
            ⟨_, Elem.add_eq_of_no_raise attrs _ hwt⟩
          have hadd : GenericElements.add els attrs fresh = (els ++ [ne], false) := by
            unfold GenericElements.add
            simp only [ho, hk, hf, hne, if_true, hce]
          rw [hadd]
          exact ⟨rfl, Or.inr (Or.inr ⟨ne, rfl⟩)⟩
        · rw [Bool.not_eq_true] at hne
          have hadd : GenericElements.add els attrs fresh = (els, false) := by
            unfold GenericElements.add
            simp only [ho, hk, hf, if_true, hne, Bool.false_eq_true, if_false]
          rw [hadd]
          exact ⟨rfl, Or.inl rfl⟩
      · have hwt' : WellTyped (attrs ++ [("id", .vStr fresh)]) := by
          intro kv hkv
          rcases List.mem_append.mp hkv with hl | hr
          · exact hwt kv hl
          · simp only [List.mem_singleton] at hr
            subst hr
            simp [typeOk, strKey]
        obtain ⟨ne, hce⟩ : ∃ ne,
            (if GenericElements.hasKey attrs "source" &&
                GenericElements.hasKey attrs "target" then
              (Elem.edge {}) else (Elem.node {})).add (attrs ++ [("id", .vStr fresh)]) =
              (ne, false) :=
          ⟨_, Elem.add_eq_of_no_raise (attrs ++ [("id", .vStr fresh)]) _ hwt'⟩
        have hadd : GenericElements.add els attrs fresh = (els ++ [ne], false) := by
          unfold GenericElements.add
          simp only [ho, if_neg hk, hce]
        rw [hadd]
        exact ⟨rfl, Or.inr (Or.inr ⟨ne, rfl⟩)⟩

/-- Witness for `c6_amended` at concrete inputs. -/
theorem c6_amended_witness :
    WellTyped [("id", Value.vStr "n1")] ∧
    ((GenericElements.add [] [("id", Value.vStr "n1")] "u").2 = false ∧
      ((GenericElements.add [] [("id", Value.vStr "n1")] "u").1 = [] ∨
       (∃ (i : Nat) (e' : Elem), i < ([] : List Elem).length ∧
         (GenericElements.add [] [("id", Value.vStr "n1")] "u").1 = ([] : List Elem).set i e') ∨
       (∃ ne : Elem,
         (GenericElements.add [] [("id", Value.vStr "n1")] "u").1 = [] ++ [ne]))) :=
  ⟨by decide, (c6_amended [] [("id", Value.vStr "n1")] "u").2.2 (by decide)⟩

/-- Witness for `c3_amended` at concrete inputs. -/
theorem c3_amended_witness :
    (∀ e ∈ [Elem.node {}], Elem.is_match e [("id", Value.vStr "a")] ≠ .error ()) ∧
    GenericElements.filter [Elem.node {}] [("id", Value.vStr "a")] =
      .ok (([Elem.node {}]).filter
        (fun e => Elem.is_match e [("id", Value.vStr "a")] == Except.ok true)) :=
  ⟨by decide, c3_amended [Elem.node {}] [("id", Value.vStr "a")] (by decide)⟩

/-! ### Wire lookup lemmas (C5) -/

def oor : Option Value → Option Value → Option Value
  | some v, _ => some v
  | none, o => o

theorem oor_none_right (x : Option Value) : oor x none = x := by cases x <;> rfl

theorem dlookup_append (k : String) (l1 l2 : List (String × Value)) :
    dlookup k (l1 ++ l2) = oor (dlookup k l1) (dlookup k l2) := by
  induction l1 with
  | nil => rfl
  | cons kv r ih =>
    obtain ⟨k1, v1⟩ := kv
    simp only [List.cons_append, dlookup]
    split_ifs <;> simp [oor, ih]

theorem dlookup_if_singleton (c : Prop) [Decidable c] (k k1 : String) (v : Value) :
    dlookup k (if c then [(k1, v)] else []) =
      if c then (if k1 = k then some v else none) else none := by
  split_ifs <;> simp_all [dlookup]

theorem dlookup_if_singleton' (c : Prop) [Decidable c] (k k1 : String) (v : Value) :
    dlookup k (if c then [] else [(k1, v)]) =
      if c then none else (if k1 = k then some v else none) := by
  split_ifs <;> simp_all [dlookup]

theorem all_if_singleton (c : Prop) [Decidable c] (p : String × Value → Bool)
    (kv : String × Value) :
    (if c then [kv] else []).all p = (if c then p kv else true) := by
  split_ifs <;> simp

theorem all_if_singleton' (c : Prop) [Decidable c] (p : String × Value → Bool)
    (kv : String × Value) :
    (if c then [] else [kv]).all p = (if c then true else p kv) := by
  split_ifs <;> simp

theorem nw_group (n : Node) :
    dlookup "group" n.wireEntries =
      some (Value.vStr "nodes") := by
  simp [Node.wireEntries, dlookup, dlookup_append, dlookup_if_singleton, dlookup_if_singleton', oor, oor_none_right]

theorem nw_classes (n : Node) :
    dlookup "classes" n.wireEntries =
      if n.classes ≠ "" then some (Value.vStr n.classes) else none := by
  by_cases hc : n.classes = "" <;>
    simp [Node.wireEntries, dlookup, dlookup_append, dlookup_if_singleton, dlookup_if_singleton', oor, oor_none_right, hc]

theorem nw_selected (n : Node) :
    dlookup "selected" n.wireEntries =
      if n.selected ≠ false then some (Value.vBool n.selected) else none := by
  by_cases hc : n.selected = false <;>
    simp [Node.wireEntries, dlookup, dlookup_append, dlookup_if_singleton, dlookup_if_singleton', oor, oor_none_right, hc]

theorem nw_selectable (n : Node) :
    dlookup "selectable" n.wireEntries =
      if n.selectable ≠ true then some (Value.vBool n.selectable) else none := by
  by_cases hc : n.selectable = true <;>
    simp [Node.wireEntries, dlookup, dlookup_append, dlookup_if_singleton, dlookup_if_singleton', oor, oor_none_right, hc]

theorem nw_locked (n : Node) :
    dlookup "locked" n.wireEntries =
      if n.locked ≠ false then some (Value.vBool n.locked) else none := by
  by_cases hc : n.locked = false <;>
    simp [Node.wireEntries, dlookup, dlookup_append, dlookup_if_singleton, dlookup_if_singleton', oor, oor_none_right, hc]

theorem nw_grabbable (n : Node) :
    dlookup "grabbable" n.wireEntries =
      if n.grabbable ≠ true then some (Value.vBool n.grabbable) else none := by
  by_cases hc : n.grabbable = true <;>
    simp [Node.wireEntries, dlookup, dlookup_append, dlookup_if_singleton, dlookup_if_singleton', oor, oor_none_right, hc]

theorem nw_scratch (n : Node) :
    dlookup "scratch" n.wireEntries =
      if n.scratch ≠ [] then some (Value.vDict n.scratch) else none := by
  by_cases hc : n.scratch = [] <;>
    simp [Node.wireEntries, dlookup, dlookup_append, dlookup_if_singleton, dlookup_if_singleton', oor, oor_none_right, hc]

theorem nw_data (n : Node) :
    dlookup "data" n.wireEntries =
      if n.data ≠ {} then some (Value.vDict n.data.toWire) else none := by
  by_cases hc : n.data = ({} : NodeData) <;>
    simp [Node.wireEntries, dlookup, dlookup_append, dlookup_if_singleton, dlookup_if_singleton', oor, oor_none_right, hc]

theorem nw_position (n : Node) :
    dlookup "position" n.wireEntries =
      if n.position ≠ {} then some (Value.vDict n.position.toWire) else none := by
  by_cases hc : n.position = ({} : Position) <;>
    simp [Node.wireEntries, dlookup, dlookup_append, dlookup_if_singleton, dlookup_if_singleton', oor, oor_none_right, hc]

theorem nw_pannable (n : Node) :
    dlookup "pannable" n.wireEntries =
      if n.pannable ≠ false then some (Value.vBool n.pannable) else none := by
  by_cases hc : n.pannable = false <;>
    simp [Node.wireEntries, dlookup, dlookup_append, dlookup_if_singleton, dlookup_if_singleton', oor, oor_none_right, hc]

theorem ew_group (e : Edge) :
    dlookup "group" e.wireEntries =
      some (Value.vStr "edges") := by
  simp [Edge.wireEntries, dlookup, dlookup_append, dlookup_if_singleton, dlookup_if_singleton', oor, oor_none_right]

theorem ew_classes (e : Edge) :
    dlookup "classes" e.wireEntries =
      if e.classes ≠ "" then some (Value.vStr e.classes) else none := by
  by_cases hc : e.classes = "" <;>
    simp [Edge.wireEntries, dlookup, dlookup_append, dlookup_if_singleton, dlookup_if_singleton', oor, oor_none_right, hc]

theorem ew_selected (e : Edge) :
    dlookup "selected" e.wireEntries =
      if e.selected ≠ false then some (Value.vBool e.selected) else none := by
  by_cases hc : e.selected = false <;>
    simp [Edge.wireEntries, dlookup, dlookup_append, dlookup_if_singleton, dlookup_if_singleton', oor, oor_none_right, hc]

theorem ew_selectable (e : Edge) :
    dlookup "selectable" e.wireEntries =
      if e.selectable ≠ true then some (Value.vBool e.selectable) else none := by
  by_cases hc : e.selectable = true <;>
    simp [Edge.wireEntries, dlookup, dlookup_append, dlookup_if_singleton, dlookup_if_singleton', oor, oor_none_right, hc]

theorem ew_locked (e : Edge) :
    dlookup "locked" e.wireEntries =
      if e.locked ≠ false then some (Value.vBool e.locked) else none := by
  by_cases hc : e.locked = false <;>
    simp [Edge.wireEntries, dlookup, dlookup_append, dlookup_if_singleton, dlookup_if_singleton', oor, oor_none_right, hc]

theorem ew_grabbable (e : Edge) :
    dlookup "grabbable" e.wireEntries =
      if e.grabbable ≠ true then some (Value.vBool e.grabbable) else none := by
  by_cases hc : e.grabbable = true <;>
    simp [Edge.wireEntries, dlookup, dlookup_append, dlookup_if_singleton, dlookup_if_singleton', oor, oor_none_right, hc]

theorem ew_scratch (e : Edge) :
    dlookup "scratch" e.wireEntries =
      if e.scratch ≠ [] then some (Value.vDict e.scratch) else none := by
  by_cases hc : e.scratch = [] <;>
    simp [Edge.wireEntries, dlookup, dlookup_append, dlookup_if_singleton, dlookup_if_singleton', oor, oor_none_right, hc]

theorem ew_data (e : Edge) :
    dlookup "data" e.wireEntries =
      if e.data ≠ {} then some (Value.vDict e.data.toWire) else none := by
  by_cases hc : e.data = ({} : EdgeData) <;>
    simp [Edge.wireEntries, dlookup, dlookup_append, dlookup_if_singleton, dlookup_if_singleton', oor, oor_none_right, hc]

theorem ew_pannable (e : Edge) :
    dlookup "pannable" e.wireEntries =
      if e.pannable ≠ true then some (Value.vBool e.pannable) else none := by
  by_cases hc : e.pannable = true <;>
    simp [Edge.wireEntries, dlookup, dlookup_append, dlookup_if_singleton, dlookup_if_singleton', oor, oor_none_right, hc]

theorem ndw_id (d : NodeData) :
    dlookup "id" d.toWire =
      if d.id ≠ "" then some (Value.vStr d.id) else none := by
  by_cases hc : d.id = "" <;>
    simp [NodeData.toWire, dlookup, dlookup_append, dlookup_if_singleton, dlookup_if_singleton', oor, oor_none_right, hc]

theorem ndw_parent (d : NodeData) :
    dlookup "parent" d.toWire =
      if d.parent ≠ "" then some (Value.vStr d.parent) else none := by
  by_cases hc : d.parent = "" <;>
    simp [NodeData.toWire, dlookup, dlookup_append, dlookup_if_singleton, dlookup_if_singleton', oor, oor_none_right, hc]

theorem ndw_label (d : NodeData) :
    dlookup "label" d.toWire =
      if d.label ≠ "" then some (Value.vStr d.label) else none := by
  by_cases hc : d.label = "" <;>
    simp [NodeData.toWire, dlookup, dlookup_append, dlookup_if_singleton, dlookup_if_singleton', oor, oor_none_right, hc]

theorem edw_id (d : EdgeData) :
    dlookup "id" d.toWire =
      if d.id ≠ "" then some (Value.vStr d.id) else none := by
  by_cases hc : d.id = "" <;>
    simp [EdgeData.toWire, dlookup, dlookup_append, dlookup_if_singleton, dlookup_if_singleton', oor, oor_none_right, hc]

theorem edw_source (d : EdgeData) :
    dlookup "source" d.toWire =
      if d.source ≠ "" then some (Value.vStr d.source) else none := by
  by_cases hc : d.source = "" <;>
    simp [EdgeData.toWire, dlookup, dlookup_append, dlookup_if_singleton, dlookup_if_singleton', oor, oor_none_right, hc]

theorem edw_target (d : EdgeData) :
    dlookup "target" d.toWire =
      if d.target ≠ "" then some (Value.vStr d.target) else none := by
  by_cases hc : d.target = "" <;>
    simp [EdgeData.toWire, dlookup, dlookup_append, dlookup_if_singleton, dlookup_if_singleton', oor, oor_none_right, hc]

theorem edw_label (d : EdgeData) :
    dlookup "label" d.toWire =
      if d.label ≠ "" then some (Value.vStr d.label) else none := by
  by_cases hc : d.label = "" <;>
    simp [EdgeData.toWire, dlookup, dlookup_append, dlookup_if_singleton, dlookup_if_singleton', oor, oor_none_right, hc]

theorem edw_source_alias (d : EdgeData) :
    dlookup "source-label" d.toWire =
      if d.source_label ≠ "" then some (Value.vStr d.source_label) else none := by
  by_cases hc : d.source_label = "" <;>
    simp [EdgeData.toWire, dlookup, dlookup_append, dlookup_if_singleton, dlookup_if_singleton', oor, oor_none_right, hc]

theorem edw_target_alias (d : EdgeData) :
    dlookup "target-label" d.toWire =
      if d.target_label ≠ "" then some (Value.vStr d.target_label) else none := by
  by_cases hc : d.target_label = "" <;>
    simp [EdgeData.toWire, dlookup, dlookup_append, dlookup_if_singleton, dlookup_if_singleton', oor, oor_none_right, hc]

theorem edw_source_name (d : EdgeData) :
    dlookup "source_label" d.toWire =
      none := by
  simp [EdgeData.toWire, dlookup, dlookup_append, dlookup_if_singleton, dlookup_if_singleton', oor, oor_none_right]

theorem edw_target_name (d : EdgeData) :
    dlookup "target_label" d.toWire =
      none := by
  simp [EdgeData.toWire, dlookup, dlookup_append, dlookup_if_singleton, dlookup_if_singleton', oor, oor_none_right]

theorem pw_x (p : Position) :
    dlookup "x" p.toWire =
      if p.x ≠ 0 then some (Value.vFloat p.x) else none := by
  by_cases hc : p.x = 0 <;>
    simp [Position.toWire, dlookup, dlookup_append, dlookup_if_singleton, dlookup_if_singleton', oor, oor_none_right, hc]

theorem pw_y (p : Position) :
    dlookup "y" p.toWire =
      if p.y ≠ 0 then some (Value.vFloat p.y) else none := by
  by_cases hc : p.y = 0 <;>
    simp [Position.toWire, dlookup, dlookup_append, dlookup_if_singleton, dlookup_if_singleton', oor, oor_none_right, hc]


/-! ### Wire key-set and read lemmas (C5) -/

theorem nw_keys (n : Node) :
    (n.wireEntries.all (fun kv => kv.1 == "group" || kv.1 == "classes" ||
      kv.1 == "selected" || kv.1 == "selectable" || kv.1 == "locked" ||
      kv.1 == "grabbable" || kv.1 == "scratch" || kv.1 == "data" ||
      kv.1 == "position" || kv.1 == "pannable")) = true := by
  simp [Node.wireEntries, List.all_append, all_if_singleton, all_if_singleton']

theorem ew_keys_node (e : Edge) :
    (e.wireEntries.all (fun kv => kv.1 == "group" || kv.1 == "classes" ||
      kv.1 == "selected" || kv.1 == "selectable" || kv.1 == "locked" ||
      kv.1 == "grabbable" || kv.1 == "scratch" || kv.1 == "data" ||
      kv.1 == "position" || kv.1 == "pannable")) = true := by
  simp [Edge.wireEntries, List.all_append, all_if_singleton, all_if_singleton']

theorem ew_keys_edge (e : Edge) :
    (e.wireEntries.all (fun kv => kv.1 == "group" || kv.1 == "classes" ||
      kv.1 == "selected" || kv.1 == "selectable" || kv.1 == "locked" ||
      kv.1 == "grabbable" || kv.1 == "scratch" || kv.1 == "data" ||
      kv.1 == "pannable")) = true := by
  simp [Edge.wireEntries, List.all_append, all_if_singleton, all_if_singleton']

theorem ndw_keys (d : NodeData) :
    (d.toWire.all (fun kv => kv.1 == "id" || kv.1 == "parent" || kv.1 == "label")) =
      true := by
  simp [NodeData.toWire, List.all_append, all_if_singleton, all_if_singleton']

theorem edw_keys (d : EdgeData) :
    (d.toWire.all (fun kv => kv.1 == "id" || kv.1 == "source" || kv.1 == "target" ||
      kv.1 == "label" || kv.1 == "source-label" || kv.1 == "target-label" ||
      kv.1 == "source_label" || kv.1 == "target_label")) = true := by
  simp [EdgeData.toWire, List.all_append, all_if_singleton, all_if_singleton']

theorem pw_keys (p : Position) :
    (p.toWire.all (fun kv => kv.1 == "x" || kv.1 == "y")) = true := by
  simp [Position.toWire, List.all_append, all_if_singleton, all_if_singleton']

theorem getStrFieldD_eq (entries : List (String × Value)) (k s : String)
    (h : dlookup k entries = if s ≠ "" then some (Value.vStr s) else none) :
    getStrFieldD entries k = .ok s := by
  unfold getStrFieldD
  rw [h]
  split_ifs with hc
  · rfl
  · simp only [ne_eq, not_not] at hc
    rw [hc]

theorem getStrFieldD_some (entries : List (String × Value)) (k s : String)
    (h : dlookup k entries = some (Value.vStr s)) :
    getStrFieldD entries k = .ok s := by
  unfold getStrFieldD
  rw [h]
  rfl

theorem getBoolField_eq (entries : List (String × Value)) (k : String) (dflt b : Bool)
    (h : dlookup k entries = if b ≠ dflt then some (Value.vBool b) else none) :
    getBoolField entries k dflt = .ok b := by
  unfold getBoolField
  rw [h]
  split_ifs with hc
  · rfl
  · simp only [ne_eq, not_not] at hc
    rw [hc]

theorem getFloatFieldD_eq (entries : List (String × Value)) (k : String) (q : Rat)
    (h : dlookup k entries = if q ≠ 0 then some (Value.vFloat q) else none) :
    getFloatFieldD entries k = .ok q := by
  unfold getFloatFieldD
  rw [h]
  split_ifs with hc
  · rfl
  · simp only [ne_eq, not_not] at hc
    rw [hc]

theorem getScratchField_eq (entries : List (String × Value))
    (sc : List (String × Value))
    (h : dlookup "scratch" entries = if sc ≠ [] then some (Value.vDict sc) else none) :
    getScratchField entries = .ok sc := by
  unfold getScratchField
  rw [h]
  split_ifs with hc
  · rfl
  · simp only [ne_eq, not_not] at hc
    rw [hc]

theorem getDataNodeField_eq (entries : List (String × Value)) (d : NodeData)
    (h : dlookup "data" entries = if d ≠ {} then some (Value.vDict d.toWire) else none)
    (hp : parseNodeData d.toWire = .ok d) :
    getDataNodeField entries = .ok d := by
  unfold getDataNodeField
  rw [h]
  split_ifs with hc
  · exact hp
  · simp only [ne_eq, not_not] at hc
    rw [hc]

theorem getDataNodeField_err (entries w : List (String × Value))
    (h : dlookup "data" entries = some (Value.vDict w))
    (hp : parseNodeData w = .error ()) :
    getDataNodeField entries = .error () := by
  unfold getDataNodeField
  rw [h]
  exact hp

theorem getDataEdgeField_eq (entries : List (String × Value)) (d : EdgeData)
    (h : dlookup "data" entries = if d ≠ {} then some (Value.vDict d.toWire) else none)
    (hp : parseEdgeData d.toWire = .ok d) :
    getDataEdgeField entries = .ok d := by
  unfold getDataEdgeField
  rw [h]
  split_ifs with hc
  · exact hp
  · simp only [ne_eq, not_not] at hc
    rw [hc]

theorem getPositionField_eq (entries : List (String × Value)) (p : Position)
    (h : dlookup "position" entries =
      if p ≠ {} then some (Value.vDict p.toWire) else none)
    (hp : parsePosition p.toWire = .ok p) :
    getPositionField entries = .ok p := by
  unfold getPositionField
  rw [h]
  split_ifs with hc
  · exact hp
  · simp only [ne_eq, not_not] at hc
    rw [hc]

theorem getAliasStrField_eq (entries : List (String × Value)) (alia fname s : String)
    (h1 : dlookup alia entries = if s ≠ "" then some (Value.vStr s) else none)
    (h2 : dlookup fname entries = none) :
    getAliasStrField entries alia fname = .ok s := by
  unfold getAliasStrField
  rw [h1]
  split_ifs with hc
  · rfl
  · simp only [ne_eq, not_not] at hc
    unfold getStrFieldD
    rw [h2, hc]

theorem res_bind_err {α β : Type} (f : α → Res β) :
    (Except.error () : Res α) >>= f = Except.error () := rfl

/-! ### Per-record wire round-trips (C5) -/

theorem parseNodeData_toWire (d : NodeData) : parseNodeData d.toWire = .ok d := by
  unfold parseNodeData
  rw [if_pos (ndw_keys d)]
  simp only [getStrFieldD_eq _ _ _ (ndw_id d), getStrFieldD_eq _ _ _ (ndw_parent d),
    getStrFieldD_eq _ _ _ (ndw_label d), res_bind_ok]

theorem parseEdgeData_toWire (d : EdgeData) : parseEdgeData d.toWire = .ok d := by
  unfold parseEdgeData
  rw [if_pos (edw_keys d)]
  simp only [getStrFieldD_eq _ _ _ (edw_id d), getStrFieldD_eq _ _ _ (edw_source d),
    getStrFieldD_eq _ _ _ (edw_target d), getStrFieldD_eq _ _ _ (edw_label d),
    getAliasStrField_eq _ _ _ _ (edw_source_alias d) (edw_source_name d),
    getAliasStrField_eq _ _ _ _ (edw_target_alias d) (edw_target_name d), res_bind_ok]

theorem parsePosition_toWire (p : Position) : parsePosition p.toWire = .ok p := by
  unfold parsePosition
  rw [if_pos (pw_keys p)]
  simp only [getFloatFieldD_eq _ _ _ (pw_x p), getFloatFieldD_eq _ _ _ (pw_y p),
    res_bind_ok]

theorem parseNodeData_edge_err (d : EdgeData)
    (h : d.source ≠ "" ∨ d.target ≠ "") :
    parseNodeData d.toWire = .error () := by
  have hfalse : (d.toWire.all
      (fun kv => kv.1 == "id" || kv.1 == "parent" || kv.1 == "label")) = false := by
    rcases h with h1 | h1 <;>
      simp [EdgeData.toWire, List.all_append, all_if_singleton, all_if_singleton', h1]
  unfold parseNodeData
  rw [if_neg (by rw [hfalse]; simp)]

theorem parseNodeWire_toWire (n : Node) : parseNodeWire n.wireEntries = .ok n := by
  unfold parseNodeWire
  rw [if_pos (nw_keys n)]
  simp only [getStrFieldD_some _ _ _ (nw_group n), getStrFieldD_eq _ _ _ (nw_classes n),
    getBoolField_eq _ _ _ _ (nw_selected n), getBoolField_eq _ _ _ _ (nw_selectable n),
    getBoolField_eq _ _ _ _ (nw_locked n), getBoolField_eq _ _ _ _ (nw_grabbable n),
    getScratchField_eq _ _ (nw_scratch n),
    getDataNodeField_eq _ _ (nw_data n) (parseNodeData_toWire n.data),
    getPositionField_eq _ _ (nw_position n) (parsePosition_toWire n.position),
    getBoolField_eq _ _ _ _ (nw_pannable n), res_bind_ok]

theorem parseNodeWire_edge_err (e : Edge)
    (h : e.data.source ≠ "" ∨ e.data.target ≠ "") :
    parseNodeWire e.wireEntries = .error () := by
  have hd : e.data ≠ ({} : EdgeData) := by
    intro hd
    rcases h with h1 | h1 <;> (rw [hd] at h1; exact h1 rfl)
  have hdl : dlookup "data" e.wireEntries = some (Value.vDict e.data.toWire) := by
    rw [ew_data e, if_pos hd]
  unfold parseNodeWire
  rw [if_pos (ew_keys_node e)]
  simp only [getStrFieldD_some _ _ _ (ew_group e), getStrFieldD_eq _ _ _ (ew_classes e),
    getBoolField_eq _ _ _ _ (ew_selected e), getBoolField_eq _ _ _ _ (ew_selectable e),
    getBoolField_eq _ _ _ _ (ew_locked e), getBoolField_eq _ _ _ _ (ew_grabbable e),
    getScratchField_eq _ _ (ew_scratch e),
    getDataNodeField_err _ _ hdl (parseNodeData_edge_err e.data h),
    res_bind_ok, res_bind_err]

theorem parseEdgeWire_toWire (e : Edge) : parseEdgeWire e.wireEntries = .ok e := by
  unfold parseEdgeWire
  rw [if_pos (ew_keys_edge e)]
  simp only [getStrFieldD_some _ _ _ (ew_group e), getStrFieldD_eq _ _ _ (ew_classes e),
    getBoolField_eq _ _ _ _ (ew_selected e), getBoolField_eq _ _ _ _ (ew_selectable e),
    getBoolField_eq _ _ _ _ (ew_locked e), getBoolField_eq _ _ _ _ (ew_grabbable e),
    getScratchField_eq _ _ (ew_scratch e),
    getDataEdgeField_eq _ _ (ew_data e) (parseEdgeData_toWire e.data),
    getBoolField_eq _ _ _ _ (ew_pannable e), res_bind_ok]

theorem fromWireElem_node (n : Node) : fromWireElem n.toWire = .ok (.node n) := by
  show (match parseNodeWire n.wireEntries with
    | .ok nn => (.ok (.node nn) : Res Elem)
    | .error _ => (parseEdgeWire n.wireEntries).map .edge) = .ok (.node n)
  rw [parseNodeWire_toWire n]

theorem fromWireElem_edge (e : Edge)
    (h : e.data.source ≠ "" ∨ e.data.target ≠ "") :
    fromWireElem e.toWire = .ok (.edge e) := by
  show (match parseNodeWire e.wireEntries with
    | .ok nn => (.ok (.node nn) : Res Elem)
    | .error _ => (parseEdgeWire e.wireEntries).map .edge) = .ok (.edge e)
  rw [parseNodeWire_edge_err e h]
  show (parseEdgeWire e.wireEntries).map Elem.edge = .ok (.edge e)
  rw [parseEdgeWire_toWire e]
  rfl

theorem from_json_toWire (els : List Elem)
    (hedge : ∀ ed : Edge, Elem.edge ed ∈ els →
      ed.data.source ≠ "" ∨ ed.data.target ≠ "") :
    from_json (els.map Elem.toWire) = .ok els := by
  induction els with
  | nil => rfl
  | cons e rest ih =>
    have hrest := ih (fun ed hm => hedge ed (List.mem_cons_of_mem _ hm))
    have he : fromWireElem e.toWire = .ok e := by
      cases e with
      | node n => exact fromWireElem_node n
      | edge ed => exact fromWireElem_edge ed (hedge ed (List.mem_cons_self _ _))
    simp [from_json, he, hrest, res_bind_ok]

/-! ### C5: the serialisation round-trip -/

/-- C5 counterexample: an Edge whose `source` and `target` both hold the
default `""` serialises to `{"group": "edges", "data": {...}}` with no
edge-only key, which the `Union[Node, Edge]` parse (Node first, `group`
coerced by the validator) reads back as a *Node*: the round-trip loses the
variant, so the claim fails for this non-empty default-schema collection. -/
theorem c5_counterexample :
    to_json [Elem.edge { data := { id := "e1" } }] =
      some [Elem.toWire (Elem.edge { data := { id := "e1" } })] ∧
    from_json [Elem.toWire (Elem.edge { data := { id := "e1" } })] =
      .ok [Elem.node { data := { id := "e1" } }] ∧
    (Elem.node { data := { id := "e1" } } : Elem) ≠
      Elem.edge { data := { id := "e1" } } := by
  refine ⟨rfl, by decide, by decide⟩

/-- C5 amended: for a non-empty default-schema collection in which every
Edge has a non-default `source` or `target` (so that its wire object keeps
at least one edge-only key), `from_json (to_json C)` restores `C` exactly:
each element keeps its variant, fields and position. -/
theorem c5_amended (els : List Elem) (hne : els ≠ [])
    (hedge : ∀ ed : Edge, Elem.edge ed ∈ els →
      ed.data.source ≠ "" ∨ ed.data.target ≠ "") :
    to_json els = some (els.map Elem.toWire) ∧
    from_json (els.map Elem.toWire) = .ok els := by
  constructor
  · unfold to_json
    rw [if_neg (by simpa using hne)]
  · exact from_json_toWire els hedge

/-- Witness for `c5_amended` at concrete inputs. -/
theorem c5_amended_witness :
    (([Elem.node { data := { id := "n1" } },
       Elem.edge { data := { id := "e1", source := "a", target := "b" } }] :
        List Elem) ≠ []) ∧
    to_json [Elem.node { data := { id := "n1" } },
             Elem.edge { data := { id := "e1", source := "a", target := "b" } }] =
      some ([Elem.node { data := { id := "n1" } },
             Elem.edge { data := { id := "e1", source := "a", target := "b" } }].map
        Elem.toWire) ∧
    from_json ([Elem.node { data := { id := "n1" } },
                Elem.edge { data := { id := "e1", source := "a", target := "b" } }].map
        Elem.toWire) =
      .ok [Elem.node { data := { id := "n1" } },
           Elem.edge { data := { id := "e1", source := "a", target := "b" } }] := by
  have h := c5_amended
    [Elem.node { data := { id := "n1" } },
     Elem.edge { data := { id := "e1", source := "a", target := "b" } }]
    (by decide)
    (by
      intro ed hm
      simp only [List.mem_cons, List.not_mem_nil, or_false] at hm
      rcases hm with hm | hm
      · cases hm
      · cases hm
        simp)
  exact ⟨by decide, h.1, h.2⟩

/-! ### C1: identity uniqueness under `add` -/

/-- The `data.id` values of the Node elements, in order. -/
def nodeIds (els : List Elem) : List String :=
  els.filterMap (fun e => match e with
    | .node n => some n.data.id
    | .edge _ => none)

/-- The `(data.source, data.target)` pairs of the Edge elements, in order. -/
def edgePairs (els : List Elem) : List (String × String) :=
  els.filterMap (fun e => match e with
    | .node _ => none
    | .edge ed => some (ed.data.source, ed.data.target))

/-- The uniqueness invariant of the claim: no two Nodes share a `data.id`
and no two Edges share a `(data.source, data.target)` pair. -/
def UniqueIds (els : List Elem) : Prop :=
  (nodeIds els).Nodup ∧ (edgePairs els).Nodup

instance (els : List Elem) : Decidable (UniqueIds els) := by
  unfold UniqueIds
  infer_instance

theorem mem_nodeIds (els : List Elem) (s : String) :
    s ∈ nodeIds els ↔ ∃ n : Node, Elem.node n ∈ els ∧ n.data.id = s := by
  simp only [nodeIds, List.mem_filterMap]
  constructor
  · rintro ⟨e, he, hf⟩
    cases e with
    | node n =>
      refine ⟨n, he, ?_⟩
      simpa using hf
    | edge ed => simp at hf
  · rintro ⟨n, hn, hid⟩
    exact ⟨.node n, hn, by simpa using hid⟩

theorem mem_edgePairs (els : List Elem) (p : String × String) :
    p ∈ edgePairs els ↔
      ∃ ed : Edge, Elem.edge ed ∈ els ∧ (ed.data.source, ed.data.target) = p := by
  simp only [edgePairs, List.mem_filterMap]
  constructor
  · rintro ⟨e, he, hf⟩
    cases e with
    | node n => simp at hf
    | edge ed =>
      refine ⟨ed, he, ?_⟩
      simpa using hf
  · rintro ⟨ed, hm, hp⟩
    exact ⟨.edge ed, hm, by simpa using hp⟩

theorem nodeIds_append (A B : List Elem) :
    nodeIds (A ++ B) = nodeIds A ++ nodeIds B := by
  simp [nodeIds]

theorem edgePairs_append (A B : List Elem) :
    edgePairs (A ++ B) = edgePairs A ++ edgePairs B := by
  simp [edgePairs]

/-- Replacing one element by another with the same projection value leaves
a `filterMap` projection of the collection unchanged. -/
theorem filterMap_set_same {α : Type} (f : Elem → Option α) :
    ∀ (els : List Elem) (i : Nat) (x y : Elem), els[i]? = some x → f y = f x →
      (els.set i y).filterMap f = els.filterMap f := by
  intro els
  induction els with
  | nil => intro i x y hx _; simp at hx
  | cons a rest ih =>
    intro i x y hx hf
    cases i with
    | zero =>
      simp only [List.getElem?_cons_zero, Option.some.injEq] at hx
      subst hx
      show List.filterMap f (y :: rest) = List.filterMap f (a :: rest)
      rw [List.filterMap_cons, List.filterMap_cons, hf]
    | succ i' =>
      simp only [List.getElem?_cons_succ] at hx
      show List.filterMap f (a :: rest.set i' y) = List.filterMap f (a :: rest)
      rw [List.filterMap_cons, List.filterMap_cons, ih i' x y hx hf]

theorem nodeIds_set_node (els : List Elem) (i : Nat) (n n' : Node)
    (hx : els[i]? = some (.node n)) (hid : n'.data.id = n.data.id) :
    nodeIds (els.set i (.node n')) = nodeIds els :=
  filterMap_set_same _ els i _ _ hx (by simp [hid])

theorem edgePairs_set_node (els : List Elem) (i : Nat) (n n' : Node)
    (hx : els[i]? = some (.node n)) :
    edgePairs (els.set i (.node n')) = edgePairs els :=
  filterMap_set_same _ els i _ _ hx (by simp)

theorem nodeIds_set_edge (els : List Elem) (i : Nat) (ed ed' : Edge)
    (hx : els[i]? = some (.edge ed)) :
    nodeIds (els.set i (.edge ed')) = nodeIds els :=
  filterMap_set_same _ els i _ _ hx (by simp)

theorem edgePairs_set_edge (els : List Elem) (i : Nat) (ed ed' : Edge)
    (hx : els[i]? = some (.edge ed)) (hs : ed'.data.source = ed.data.source)
    (ht : ed'.data.target = ed.data.target) :
    edgePairs (els.set i (.edge ed')) = edgePairs els :=
  filterMap_set_same _ els i _ _ hx (by simp [hs, ht])

theorem veqStr_true_iff (a : String) (v : Value) :
    veqStr a v = true ↔ v = .vStr a := by
  cases v with
  | vStr b => simp [veqStr, eq_comm]
  | vBool b => simp [veqStr]
  | vFloat q => simp [veqStr]
  | vDict d => simp [veqStr]

theorem hasKey_cons (k : String) (v : Value) (rest : Attrs) (q : String) :
    GenericElements.hasKey ((k, v) :: rest) q =
      (k == q || GenericElements.hasKey rest q) := by
  simp [GenericElements.hasKey]

theorem hasKey_append (l1 l2 : Attrs) (q : String) :
    GenericElements.hasKey (l1 ++ l2) q =
      (GenericElements.hasKey l1 q || GenericElements.hasKey l2 q) := by
  simp [GenericElements.hasKey]

theorem dlookup_mem (attrs : Attrs) (q : String) (v : Value)
    (h : dlookup q attrs = some v) : (q, v) ∈ attrs := by
  induction attrs with
  | nil => cases h
  | cons kv rest ih =>
    obtain ⟨k, w⟩ := kv
    rw [dlookup] at h
    by_cases hk : k = q
    · rw [if_pos hk] at h
      simp only [Option.some.injEq] at h
      subst hk
      subst h
      exact List.mem_cons_self _ _
    · rw [if_neg hk] at h
      exact List.mem_cons_of_mem _ (ih h)

theorem dlookup_some_of_hasKey (attrs : Attrs) (q : String)
    (h : GenericElements.hasKey attrs q = true) :
    ∃ v, dlookup q attrs = some v := by
  induction attrs with
  | nil => cases h
  | cons kv rest ih =>
    obtain ⟨k, w⟩ := kv
    by_cases hk : k = q
    · exact ⟨w, by rw [dlookup, if_pos hk]⟩
    · rw [hasKey_cons, Bool.or_eq_true] at h
      rcases h with h | h
      · exact absurd (by simpa using h) hk
      · obtain ⟨v, hv⟩ := ih h
        exact ⟨v, by rw [dlookup, if_neg hk]; exact hv⟩

theorem not_mem_keys_of_hasKey_false (attrs : Attrs) (q : String)
    (h : GenericElements.hasKey attrs q = false) :
    q ∉ attrs.map Prod.fst := by
  intro hq
  rw [List.mem_map] at hq
  obtain ⟨⟨k, v⟩, hm, hk⟩ := hq
  unfold GenericElements.hasKey at h
  have hfalse := List.any_eq_false.mp h (k, v) hm
  have hkq : k = q := hk
  subst hkq
  simp at hfalse

theorem dlookup_none_of_hasKey_false (attrs : Attrs) (q : String)
    (h : GenericElements.hasKey attrs q = false) : dlookup q attrs = none := by
  induction attrs with
  | nil => rfl
  | cons kv rest ih =>
    obtain ⟨k, v⟩ := kv
    rw [hasKey_cons, Bool.or_eq_false_iff] at h
    have hk : k ≠ q := by simpa using h.1
    rw [dlookup, if_neg hk]
    exact ih h.2

theorem dlookup_of_mem_nodup (attrs : Attrs) (q : String) (v : Value)
    (hm : (q, v) ∈ attrs) (hnd : (attrs.map Prod.fst).Nodup) :
    dlookup q attrs = some v := by
  induction attrs with
  | nil => simp at hm
  | cons kv rest ih =>
    obtain ⟨k, w⟩ := kv
    simp only [List.map_cons, List.nodup_cons] at hnd
    rcases List.mem_cons.mp hm with he | hm'
    · injection he with h1 h2
      subst h1
      subst h2
      rw [dlookup, if_pos rfl]
    · have hk : k ≠ q := by
        intro hkq
        subst hkq
        exact hnd.1 (List.mem_map_of_mem Prod.fst hm')
      rw [dlookup, if_neg hk]
      exact ih hm' hnd.2

theorem setStr_bind {β : Type} (v : Value) (f : String → Res β) (b : β)
    (h : (setStr v >>= f) = .ok b) : ∃ s, v = .vStr s ∧ f s = .ok b := by
  cases v with
  | vStr s => exact ⟨s, rfl, h⟩
  | vBool x =>
    replace h : (Except.error () : Res β) = .ok b := h
    cases h
  | vFloat x =>
    replace h : (Except.error () : Res β) = .ok b := h
    cases h
  | vDict x =>
    replace h : (Except.error () : Res β) = .ok b := h
    cases h

theorem setBool_bind {β : Type} (v : Value) (f : Bool → Res β) (b : β)
    (h : (setBool v >>= f) = .ok b) : ∃ x, v = .vBool x ∧ f x = .ok b := by
  cases v with
  | vBool x => exact ⟨x, rfl, h⟩
  | vStr s =>
    replace h : (Except.error () : Res β) = .ok b := h
    cases h
  | vFloat x =>
    replace h : (Except.error () : Res β) = .ok b := h
    cases h
  | vDict x =>
    replace h : (Except.error () : Res β) = .ok b := h
    cases h

/-- How a single `add_attribute` call can change `NodeData.id`: only via
the key `"id"` with a string value, which it then stores verbatim. -/
theorem nodeDataAddAttr_id_track (d d' : NodeData) (k : String) (v : Value)
    (h : NodeData.add_attribute d k v = .ok d') :
    d'.id = d.id ∨ (k = "id" ∧ ∃ s, v = .vStr s ∧ d'.id = s) := by
  unfold NodeData.add_attribute at h
  by_cases h1 : k = "id"
  · rw [if_pos h1] at h
    obtain ⟨s, hv, hf⟩ := setStr_bind v _ _ h
    replace hf : (Except.ok { d with id := s } : Res NodeData) = .ok d' := hf
    simp only [Except.ok.injEq] at hf
    subst hf
    exact Or.inr ⟨h1, s, hv, rfl⟩
  · rw [if_neg h1] at h
    by_cases h2 : k = "parent"
    · rw [if_pos h2] at h
      obtain ⟨s, hv, hf⟩ := setStr_bind v _ _ h
      replace hf : (Except.ok { d with parent := s } : Res NodeData) = .ok d' := hf
      simp only [Except.ok.injEq] at hf
      subst hf
      exact Or.inl rfl
    · rw [if_neg h2] at h
      by_cases h3 : k = "label"
      · rw [if_pos h3] at h
        obtain ⟨s, hv, hf⟩ := setStr_bind v _ _ h
        replace hf : (Except.ok { d with label := s } : Res NodeData) = .ok d' := hf
        simp only [Except.ok.injEq] at hf
        subst hf
        exact Or.inl rfl
      · rw [if_neg h3] at h
        replace h : (Except.ok d : Res NodeData) = .ok d' := h
        simp only [Except.ok.injEq] at h
        subst h
        exact Or.inl rfl

/-- How a single `add_attribute` call can change `EdgeData.source` and
`EdgeData.target`: only via their own key with a string value. -/
theorem edgeDataAddAttr_track (d d' : EdgeData) (k : String) (v : Value)
    (h : EdgeData.add_attribute d k v = .ok d') :
    (d'.source = d.source ∨ (k = "source" ∧ ∃ s, v = .vStr s ∧ d'.source = s)) ∧
    (d'.target = d.target ∨ (k = "target" ∧ ∃ s, v = .vStr s ∧ d'.target = s)) := by
  unfold EdgeData.add_attribute at h
  by_cases h1 : k = "id"
  · rw [if_pos h1] at h
    obtain ⟨s, hv, hf⟩ := setStr_bind v _ _ h
    replace hf : (Except.ok { d with id := s } : Res EdgeData) = .ok d' := hf
    simp only [Except.ok.injEq] at hf
    subst hf
    exact ⟨Or.inl rfl, Or.inl rfl⟩
  · rw [if_neg h1] at h
    by_cases h2 : k = "source"
    · rw [if_pos h2] at h
      obtain ⟨s, hv, hf⟩ := setStr_bind v _ _ h
      replace hf : (Except.ok { d with source := s } : Res EdgeData) = .ok d' := hf
      simp only [Except.ok.injEq] at hf
      subst hf
      exact ⟨Or.inr ⟨h2, s, hv, rfl⟩, Or.inl rfl⟩
    · rw [if_neg h2] at h
      by_cases h3 : k = "target"
      · rw [if_pos h3] at h
        obtain ⟨s, hv, hf⟩ := setStr_bind v _ _ h
        replace hf : (Except.ok { d with target := s } : Res EdgeData) = .ok d' := hf
        simp only [Except.ok.injEq] at hf
        subst hf
        exact ⟨Or.inl rfl, Or.inr ⟨h3, s, hv, rfl⟩⟩
      · rw [if_neg h3] at h
        by_cases h4 : k = "label"
        · rw [if_pos h4] at h
          obtain ⟨s, hv, hf⟩ := setStr_bind v _ _ h
          replace hf : (Except.ok { d with label := s } : Res EdgeData) = .ok d' := hf
          simp only [Except.ok.injEq] at hf
          subst hf
          exact ⟨Or.inl rfl, Or.inl rfl⟩
        · rw [if_neg h4] at h
          by_cases h5 : k = "source_label"
          · rw [if_pos h5] at h
            obtain ⟨s, hv, hf⟩ := setStr_bind v _ _ h
            replace hf :
                (Except.ok { d with source_label := s } : Res EdgeData) = .ok d' := hf
            simp only [Except.ok.injEq] at hf
            subst hf
            exact ⟨Or.inl rfl, Or.inl rfl⟩
          · rw [if_neg h5] at h
            by_cases h6 : k = "target_label"
            · rw [if_pos h6] at h
              obtain ⟨s, hv, hf⟩ := setStr_bind v _ _ h
              replace hf :
                  (Except.ok { d with target_label := s } : Res EdgeData) = .ok d' := hf
              simp only [Except.ok.injEq] at hf
              subst hf
              exact ⟨Or.inl rfl, Or.inl rfl⟩
            · rw [if_neg h6] at h
              replace h : (Except.ok d : Res EdgeData) = .ok d' := h
              simp only [Except.ok.injEq] at h
              subst h
              exact ⟨Or.inl rfl, Or.inl rfl⟩

/-- Lifting the id tracking to a whole `Node`: any key other than `"data"`
can change `data.id` only if it is `"id"` carrying a string. -/
theorem nodeAddAttr_id_track (n n1 : Node) (k : String) (v : Value)
    (hk : k ≠ "data") (h : Node.add_attribute n k v = .ok n1) :
    n1.data.id = n.data.id ∨ (k = "id" ∧ ∃ s, v = .vStr s ∧ n1.data.id = s) := by
  unfold Node.add_attribute at h
  by_cases h1 : k = "group"
  · rw [if_pos h1] at h
    obtain ⟨s, hv, hf⟩ := setStr_bind v _ _ h
    replace hf : (Except.ok n : Res Node) = .ok n1 := hf
    simp only [Except.ok.injEq] at hf
    subst hf
    exact Or.inl rfl
  · rw [if_neg h1] at h
    by_cases h2 : k = "classes"
    · rw [if_pos h2] at h
      obtain ⟨s, hv, hf⟩ := setStr_bind v _ _ h
      replace hf : (Except.ok { n with classes := s } : Res Node) = .ok n1 := hf
      simp only [Except.ok.injEq] at hf
      subst hf
      exact Or.inl rfl
    · rw [if_neg h2] at h
      by_cases h3 : k = "selected"
      · rw [if_pos h3] at h
        obtain ⟨x, hv, hf⟩ := setBool_bind v _ _ h
        replace hf : (Except.ok { n with selected := x } : Res Node) = .ok n1 := hf
        simp only [Except.ok.injEq] at hf
        subst hf
        exact Or.inl rfl
      · rw [if_neg h3] at h
        by_cases h4 : k = "selectable"
        · rw [if_pos h4] at h
          obtain ⟨x, hv, hf⟩ := setBool_bind v _ _ h
          replace hf : (Except.ok { n with selectable := x } : Res Node) = .ok n1 := hf
          simp only [Except.ok.injEq] at hf
          subst hf
          exact Or.inl rfl
        · rw [if_neg h4] at h
          by_cases h5 : k = "locked"
          · rw [if_pos h5] at h
            obtain ⟨x, hv, hf⟩ := setBool_bind v _ _ h
            replace hf : (Except.ok { n with locked := x } : Res Node) = .ok n1 := hf
            simp only [Except.ok.injEq] at hf
            subst hf
            exact Or.inl rfl
          · rw [if_neg h5] at h
            by_cases h6 : k = "grabbable"
            · rw [if_pos h6] at h
              obtain ⟨x, hv, hf⟩ := setBool_bind v _ _ h
              replace hf : (Except.ok { n with grabbable := x } : Res Node) = .ok n1 := hf
              simp only [Except.ok.injEq] at hf
              subst hf
              exact Or.inl rfl
            · rw [if_neg h6] at h
              by_cases h7 : k = "scratch"
              · rw [if_pos h7] at h
                cases v with
                | vDict entries =>
                  replace h : (Except.ok { n with scratch := dsetAll n.scratch entries } :
                      Res Node) = .ok n1 := h
                  simp only [Except.ok.injEq] at h
                  subst h
                  exact Or.inl rfl
                | vStr s =>
                  replace h : (Except.error () : Res Node) = .ok n1 := h
                  cases h
                | vBool x =>
                  replace h : (Except.error () : Res Node) = .ok n1 := h
                  cases h
                | vFloat q =>
                  replace h : (Except.error () : Res Node) = .ok n1 := h
                  cases h
              · rw [if_neg h7] at h
                by_cases h8 : k = "data"
                · exact absurd h8 hk
                · rw [if_neg h8] at h
                  by_cases h9 : k = "position"
                  · rw [if_pos h9] at h
                    cases v with
                    | vDict entries =>
                      replace h : (parsePosition entries >>= fun p =>
                          (Except.ok { n with position := p } : Res Node)) = .ok n1 := h
                      cases hp : parsePosition entries with
                      | error u =>
                        rw [hp] at h
                        replace h : (Except.error u : Res Node) = .ok n1 := h
                        cases h
                      | ok p =>
                        rw [hp, res_bind_ok] at h
                        replace h : (Except.ok { n with position := p } : Res Node) =
                            .ok n1 := h
                        simp only [Except.ok.injEq] at h
                        subst h
                        exact Or.inl rfl
                    | vStr s =>
                      replace h : (Except.error () : Res Node) = .ok n1 := h
                      cases h
                    | vBool x =>
                      replace h : (Except.error () : Res Node) = .ok n1 := h
                      cases h
                    | vFloat q =>
                      replace h : (Except.error () : Res Node) = .ok n1 := h
                      cases h
                  · rw [if_neg h9] at h
                    by_cases h10 : k = "pannable"
                    · rw [if_pos h10] at h
                      obtain ⟨x, hv, hf⟩ := setBool_bind v _ _ h
                      replace hf : (Except.ok { n with pannable := x } : Res Node) =
                          .ok n1 := hf
                      simp only [Except.ok.injEq] at hf
                      subst hf
                      exact Or.inl rfl
                    · rw [if_neg h10] at h
                      cases hd : NodeData.add_attribute n.data k v with
                      | error u =>
                        rw [hd] at h
                        replace h : (Except.error u : Res Node) = .ok n1 := h
                        cases h
                      | ok d1 =>
                        rw [hd, res_bind_ok] at h
                        cases hp : Position.add_attribute n.position k v with
                        | error u =>
                          rw [hp] at h
                          replace h : (Except.error u : Res Node) = .ok n1 := h
                          cases h
                        | ok p1 =>
                          rw [hp, res_bind_ok] at h
                          replace h : (Except.ok { n with data := d1, position := p1 } :
                              Res Node) = .ok n1 := h
                          simp only [Except.ok.injEq] at h
                          subst h
                          exact nodeDataAddAttr_id_track n.data d1 k v hd

/-- Lifting the source/target tracking to a whole `Edge`. -/
theorem edgeAddAttr_track (ed ed1 : Edge) (k : String) (v : Value)
    (hk : k ≠ "data") (h : Edge.add_attribute ed k v = .ok ed1) :
    (ed1.data.source = ed.data.source ∨
      (k = "source" ∧ ∃ s, v = .vStr s ∧ ed1.data.source = s)) ∧
    (ed1.data.target = ed.data.target ∨
      (k = "target" ∧ ∃ s, v = .vStr s ∧ ed1.data.target = s)) := by
  unfold Edge.add_attribute at h
  by_cases h1 : k = "group"
  · rw [if_pos h1] at h
    obtain ⟨s, hv, hf⟩ := setStr_bind v _ _ h
    replace hf : (Except.ok ed : Res Edge) = .ok ed1 := hf
    simp only [Except.ok.injEq] at hf
    subst hf
    exact ⟨Or.inl rfl, Or.inl rfl⟩
  · rw [if_neg h1] at h
    by_cases h2 : k = "classes"
    · rw [if_pos h2] at h
      obtain ⟨s, hv, hf⟩ := setStr_bind v _ _ h
      replace hf : (Except.ok { ed with classes := s } : Res Edge) = .ok ed1 := hf
      simp only [Except.ok.injEq] at hf
      subst hf
      exact ⟨Or.inl rfl, Or.inl rfl⟩
    · rw [if_neg h2] at h
      by_cases h3 : k = "selected"
      · rw [if_pos h3] at h
        obtain ⟨x, hv, hf⟩ := setBool_bind v _ _ h
        replace hf : (Except.ok { ed with selected := x } : Res Edge) = .ok ed1 := hf
        simp only [Except.ok.injEq] at hf
        subst hf
        exact ⟨Or.inl rfl, Or.inl rfl⟩
      · rw [if_neg h3] at h
        by_cases h4 : k = "selectable"
        · rw [if_pos h4] at h
          obtain ⟨x, hv, hf⟩ := setBool_bind v _ _ h
          replace hf : (Except.ok { ed with selectable := x } : Res Edge) = .ok ed1 := hf
          simp only [Except.ok.injEq] at hf
          subst hf
          exact ⟨Or.inl rfl, Or.inl rfl⟩
        · rw [if_neg h4] at h
          by_cases h5 : k = "locked"
          · rw [if_pos h5] at h
            obtain ⟨x, hv, hf⟩ := setBool_bind v _ _ h
            replace hf : (Except.ok { ed with locked := x } : Res Edge) = .ok ed1 := hf
            simp only [Except.ok.injEq] at hf
            subst hf
            exact ⟨Or.inl rfl, Or.inl rfl⟩
          · rw [if_neg h5] at h
            by_cases h6 : k = "grabbable"
            · rw [if_pos h6] at h
              obtain ⟨x, hv, hf⟩ := setBool_bind v _ _ h
              replace hf : (Except.ok { ed with grabbable := x } : Res Edge) =
                  .ok ed1 := hf
              simp only [Except.ok.injEq] at hf
              subst hf
              exact ⟨Or.inl rfl, Or.inl rfl⟩
            · rw [if_neg h6] at h
              by_cases h7 : k = "scratch"
              · rw [if_pos h7] at h
                cases v with
                | vDict entries =>
                  replace h : (Except.ok
                      { ed with scratch := dsetAll ed.scratch entries } :
                      Res Edge) = .ok ed1 := h
                  simp only [Except.ok.injEq] at h
                  subst h
                  exact ⟨Or.inl rfl, Or.inl rfl⟩
                | vStr s =>
                  replace h : (Except.error () : Res Edge) = .ok ed1 := h
                  cases h
                | vBool x =>
                  replace h : (Except.error () : Res Edge) = .ok ed1 := h
                  cases h
                | vFloat q =>
                  replace h : (Except.error () : Res Edge) = .ok ed1 := h
                  cases h
              · rw [if_neg h7] at h
                by_cases h8 : k = "data"
                · exact absurd h8 hk
                · rw [if_neg h8] at h
                  by_cases h9 : k = "pannable"
                  · rw [if_pos h9] at h
                    obtain ⟨x, hv, hf⟩ := setBool_bind v _ _ h
                    replace hf : (Except.ok { ed with pannable := x } : Res Edge) =
                        .ok ed1 := hf
                    simp only [Except.ok.injEq] at hf
                    subst hf
                    exact ⟨Or.inl rfl, Or.inl rfl⟩
                  · rw [if_neg h9] at h
                    cases hd : EdgeData.add_attribute ed.data k v with
                    | error u =>
                      rw [hd] at h
                      replace h : (Except.error u : Res Edge) = .ok ed1 := h
                      cases h
                    | ok d1 =>
                      rw [hd, res_bind_ok] at h
                      replace h : (Except.ok { ed with data := d1 } : Res Edge) =
                          .ok ed1 := h
                      simp only [Except.ok.injEq] at h
                      subst h
                      exact edgeDataAddAttr_track ed.data d1 k v hd

/-- One `Element.add` loop iteration keeps a Node a Node and can change
its `data.id` only via the key `"id"` with a string value. -/
theorem addStep_node_track (n : Node) (k : String) (v : Value) (e' : Elem)
    (hk : k ≠ "data") (h : Elem.addStep (.node n) k v = .ok e') :
    ∃ n1, e' = .node n1 ∧
      (n1.data.id = n.data.id ∨ (k = "id" ∧ ∃ s, v = .vStr s ∧ n1.data.id = s)) := by
  unfold Elem.addStep at h
  by_cases hc : k = "classes"
  · rw [if_pos hc] at h
    cases v with
    | vStr s =>
      replace h : (Except.ok (Elem.node
          { n with classes := addClassesStr n.classes s }) : Res Elem) = .ok e' := h
      simp only [Except.ok.injEq] at h
      subst h
      exact ⟨_, rfl, Or.inl rfl⟩
    | vBool x =>
      replace h : (Except.error () : Res Elem) = .ok e' := h
      cases h
    | vFloat q =>
      replace h : (Except.error () : Res Elem) = .ok e' := h
      cases h
    | vDict l =>
      replace h : (Except.error () : Res Elem) = .ok e' := h
      cases h
  · rw [if_neg hc] at h
    replace h : (Node.add_attribute n k v).map Elem.node = .ok e' := h
    cases hm : Node.add_attribute n k v with
    | error u =>
      rw [hm] at h
      replace h : (Except.error u : Res Elem) = .ok e' := h
      cases h
    | ok n1 =>
      rw [hm] at h
      replace h : (Except.ok (Elem.node n1) : Res Elem) = .ok e' := h
      simp only [Except.ok.injEq] at h
      subst h
      exact ⟨n1, rfl, nodeAddAttr_id_track n n1 k v hk hm⟩

/-- One `Element.add` loop iteration keeps an Edge an Edge and can change
`data.source`/`data.target` only via their own key with a string value. -/
theorem addStep_edge_track (ed : Edge) (k : String) (v : Value) (e' : Elem)
    (hk : k ≠ "data") (h : Elem.addStep (.edge ed) k v = .ok e') :
    ∃ ed1, e' = .edge ed1 ∧
      (ed1.data.source = ed.data.source ∨
        (k = "source" ∧ ∃ s, v = .vStr s ∧ ed1.data.source = s)) ∧
      (ed1.data.target = ed.data.target ∨
        (k = "target" ∧ ∃ s, v = .vStr s ∧ ed1.data.target = s)) := by
  unfold Elem.addStep at h
  by_cases hc : k = "classes"
  · rw [if_pos hc] at h
    cases v with
    | vStr s =>
      replace h : (Except.ok (Elem.edge
          { ed with classes := addClassesStr ed.classes s }) : Res Elem) = .ok e' := h
      simp only [Except.ok.injEq] at h
      subst h
      exact ⟨_, rfl, Or.inl rfl, Or.inl rfl⟩
    | vBool x =>
      replace h : (Except.error () : Res Elem) = .ok e' := h
      cases h
    | vFloat q =>
      replace h : (Except.error () : Res Elem) = .ok e' := h
      cases h
    | vDict l =>
      replace h : (Except.error () : Res Elem) = .ok e' := h
      cases h
  · rw [if_neg hc] at h
    replace h : (Edge.add_attribute ed k v).map Elem.edge = .ok e' := h
    cases hm : Edge.add_attribute ed k v with
    | error u =>
      rw [hm] at h
      replace h : (Except.error u : Res Elem) = .ok e' := h
      cases h
    | ok ed1 =>
      rw [hm] at h
      replace h : (Except.ok (Elem.edge ed1) : Res Elem) = .ok e' := h
      simp only [Except.ok.injEq] at h
      subst h
      obtain ⟨hs, ht⟩ := edgeAddAttr_track ed ed1 k v hk hm
      exact ⟨ed1, rfl, hs, ht⟩

/-- Merging attrs without a `"data"` key into a Node leaves a Node whose
id is the old one or comes from an `"id"` binding of the attrs (this holds
even if the merge raised part-way). -/
theorem Elem.add_node_track : ∀ (attrs : Attrs) (n : Node),
    GenericElements.hasKey attrs "data" = false →
    ∃ n', (Elem.add (.node n) attrs).1 = .node n' ∧
      (n'.data.id = n.data.id ∨ ∃ s, ("id", Value.vStr s) ∈ attrs ∧ n'.data.id = s) := by
  intro attrs
  induction attrs with
  | nil => intro n _; exact ⟨n, rfl, Or.inl rfl⟩
  | cons kv rest ih =>
    intro n hd
    obtain ⟨k, v⟩ := kv
    rw [hasKey_cons, Bool.or_eq_false_iff] at hd
    have hkd : k ≠ "data" := by simpa using hd.1
    have hunf : Elem.add (.node n) ((k, v) :: rest) =
        match Elem.addStep (.node n) k v with
        | .ok e1 => e1.add rest
        | .error _ => (.node n, true) := rfl
    cases hstep : Elem.addStep (.node n) k v with
    | error u =>
      refine ⟨n, ?_, Or.inl rfl⟩
      rw [hunf, hstep]
    | ok e1 =>
      obtain ⟨n1, he1, htr⟩ := addStep_node_track n k v e1 hkd hstep
      subst he1
      obtain ⟨n', hres, htr'⟩ := ih n1 hd.2
      refine ⟨n', ?_, ?_⟩
      · rw [hunf, hstep]
        exact hres
      · rcases htr' with h' | ⟨s, hs, hid⟩
        · rcases htr with h'' | ⟨hkid, s, hv, hids⟩
          · exact Or.inl (h'.trans h'')
          · subst hkid
            subst hv
            exact Or.inr ⟨s, List.mem_cons_self _ _, h'.trans hids⟩
        · exact Or.inr ⟨s, List.mem_cons_of_mem _ hs, hid⟩

/-- Merging attrs without a `"data"` key into an Edge leaves an Edge whose
source/target are the old ones or come from their own bindings. -/
theorem Elem.add_edge_track : ∀ (attrs : Attrs) (ed : Edge),
    GenericElements.hasKey attrs "data" = false →
    ∃ ed', (Elem.add (.edge ed) attrs).1 = .edge ed' ∧
      (ed'.data.source = ed.data.source ∨
        ∃ s, ("source", Value.vStr s) ∈ attrs ∧ ed'.data.source = s) ∧
      (ed'.data.target = ed.data.target ∨
        ∃ s, ("target", Value.vStr s) ∈ attrs ∧ ed'.data.target = s) := by
  intro attrs
  induction attrs with
  | nil => intro ed _; exact ⟨ed, rfl, Or.inl rfl, Or.inl rfl⟩
  | cons kv rest ih =>
    intro ed hd
    obtain ⟨k, v⟩ := kv
    rw [hasKey_cons, Bool.or_eq_false_iff] at hd
    have hkd : k ≠ "data" := by simpa using hd.1
    have hunf : Elem.add (.edge ed) ((k, v) :: rest) =
        match Elem.addStep (.edge ed) k v with
        | .ok e1 => e1.add rest
        | .error _ => (.edge ed, true) := rfl
    cases hstep : Elem.addStep (.edge ed) k v with
    | error u =>
      refine ⟨ed, ?_, Or.inl rfl, Or.inl rfl⟩
      rw [hunf, hstep]
    | ok e1 =>
      obtain ⟨ed1, he1, htrs, htrt⟩ := addStep_edge_track ed k v e1 hkd hstep
      subst he1
      obtain ⟨ed', hres, htrs', htrt'⟩ := ih ed1 hd.2
      refine ⟨ed', ?_, ?_, ?_⟩
      · rw [hunf, hstep]
        exact hres
      · rcases htrs' with h' | ⟨s, hs, hid⟩
        · rcases htrs with h'' | ⟨hks, s, hv, hset⟩
          · exact Or.inl (h'.trans h'')
          · subst hks
            subst hv
            exact Or.inr ⟨s, List.mem_cons_self _ _, h'.trans hset⟩
        · exact Or.inr ⟨s, List.mem_cons_of_mem _ hs, hid⟩
      · rcases htrt' with h' | ⟨s, hs, hid⟩
        · rcases htrt with h'' | ⟨hkt, s, hv, hset⟩
          · exact Or.inl (h'.trans h'')
          · subst hkt
            subst hv
            exact Or.inr ⟨s, List.mem_cons_self _ _, h'.trans hset⟩
        · exact Or.inr ⟨s, List.mem_cons_of_mem _ hs, hid⟩

/-- When merging attrs with distinct keys, no `"data"` key, and an `"id"`
binding into a Node raises no exception, the binding is a string and the
resulting Node carries it as its id. -/
theorem Elem.add_node_id_final : ∀ (attrs : Attrs) (n : Node) (v0 : Value),
    GenericElements.hasKey attrs "data" = false →
    (attrs.map Prod.fst).Nodup →
    ("id", v0) ∈ attrs →
    (Elem.add (.node n) attrs).2 = false →
    ∃ s n', v0 = .vStr s ∧ (Elem.add (.node n) attrs).1 = .node n' ∧
      n'.data.id = s := by
  intro attrs
  induction attrs with
  | nil => intro n v0 _ _ hmem _; simp at hmem
  | cons kv rest ih =>
    intro n v0 hd hnd hmem hflag
    obtain ⟨k, v⟩ := kv
    rw [hasKey_cons, Bool.or_eq_false_iff] at hd
    simp only [List.map_cons, List.nodup_cons] at hnd
    have hunf : Elem.add (.node n) ((k, v) :: rest) =
        match Elem.addStep (.node n) k v with
        | .ok e1 => e1.add rest
        | .error _ => (.node n, true) := rfl
    by_cases hk : k = "id"
    · subst hk
      have hv : v0 = v := by
        rcases List.mem_cons.mp hmem with he | hm'
        · rw [Prod.mk.injEq] at he
          exact he.2
        · exact absurd (List.mem_map_of_mem Prod.fst hm') hnd.1
      subst hv
      cases v0 with
      | vStr s0 =>
        have hstep : Elem.addStep (.node n) "id" (.vStr s0) =
            .ok (.node { n with data := { n.data with id := s0 } }) := rfl
        obtain ⟨n', hres, htr⟩ :=
          Elem.add_node_track rest { n with data := { n.data with id := s0 } } hd.2
        refine ⟨s0, n', rfl, ?_, ?_⟩
        · rw [hunf, hstep]
          exact hres
        · rcases htr with h' | ⟨s, hs, _⟩
          · exact h'
          · exact absurd (List.mem_map_of_mem Prod.fst hs) hnd.1
      | vBool b =>
        have hstep : Elem.addStep (.node n) "id" (.vBool b) = .error () := rfl
        rw [hunf, hstep] at hflag
        replace hflag : true = false := hflag
        cases hflag
      | vFloat q =>
        have hstep : Elem.addStep (.node n) "id" (.vFloat q) = .error () := rfl
        rw [hunf, hstep] at hflag
        replace hflag : true = false := hflag
        cases hflag
      | vDict l =>
        have hstep : Elem.addStep (.node n) "id" (.vDict l) = .error () := rfl
        rw [hunf, hstep] at hflag
        replace hflag : true = false := hflag
        cases hflag
    · cases hstep : Elem.addStep (.node n) k v with
      | error u =>
        rw [hunf, hstep] at hflag
        replace hflag : true = false := hflag
        cases hflag
      | ok e1 =>
        have hkd : k ≠ "data" := by simpa using hd.1
        obtain ⟨n1, he1, _⟩ := addStep_node_track n k v e1 hkd hstep
        subst he1
        rw [hunf, hstep] at hflag
        have hmem' : ("id", v0) ∈ rest := by
          rcases List.mem_cons.mp hmem with he | hm'
          · injection he with h1 h2
            exact absurd h1.symm hk
          · exact hm'
        obtain ⟨s, n', hv0, hres, hid'⟩ := ih n1 v0 hd.2 hnd.2 hmem' hflag
        refine ⟨s, n', hv0, ?_, hid'⟩
        rw [hunf, hstep]
        exact hres

/-- When merging attrs with distinct keys, no `"data"` key, and a
`"source"` binding into an Edge raises no exception, the binding is a
string and the resulting Edge carries it as its source. -/
theorem Elem.add_edge_src_final : ∀ (attrs : Attrs) (ed : Edge) (v0 : Value),
    GenericElements.hasKey attrs "data" = false →
    (attrs.map Prod.fst).Nodup →
    ("source", v0) ∈ attrs →
    (Elem.add (.edge ed) attrs).2 = false →
    ∃ s ed', v0 = .vStr s ∧ (Elem.add (.edge ed) attrs).1 = .edge ed' ∧
      ed'.data.source = s := by
  intro attrs
  induction attrs with
  | nil => intro ed v0 _ _ hmem _; simp at hmem
  | cons kv rest ih =>
    intro ed v0 hd hnd hmem hflag
    obtain ⟨k, v⟩ := kv
    rw [hasKey_cons, Bool.or_eq_false_iff] at hd
    simp only [List.map_cons, List.nodup_cons] at hnd
    have hunf : Elem.add (.edge ed) ((k, v) :: rest) =
        match Elem.addStep (.edge ed) k v with
        | .ok e1 => e1.add rest
        | .error _ => (.edge ed, true) := rfl
    by_cases hk : k = "source"
    · subst hk
      have hv : v0 = v := by
        rcases List.mem_cons.mp hmem with he | hm'
        · rw [Prod.mk.injEq] at he
          exact he.2
        · exact absurd (List.mem_map_of_mem Prod.fst hm') hnd.1
      subst hv
      cases v0 with
      | vStr s0 =>
        have hstep : Elem.addStep (.edge ed) "source" (.vStr s0) =
            .ok (.edge { ed with data := { ed.data with source := s0 } }) := rfl
        obtain ⟨ed', hres, htrs, _⟩ :=
          Elem.add_edge_track rest { ed with data := { ed.data with source := s0 } } hd.2
        refine ⟨s0, ed', rfl, ?_, ?_⟩
        · rw [hunf, hstep]
          exact hres
        · rcases htrs with h' | ⟨s, hs, _⟩
          · exact h'
          · exact absurd (List.mem_map_of_mem Prod.fst hs) hnd.1
      | vBool b =>
        have hstep : Elem.addStep (.edge ed) "source" (.vBool b) = .error () := rfl
        rw [hunf, hstep] at hflag
        replace hflag : true = false := hflag
        cases hflag
      | vFloat q =>
        have hstep : Elem.addStep (.edge ed) "source" (.vFloat q) = .error () := rfl
        rw [hunf, hstep] at hflag
        replace hflag : true = false := hflag
        cases hflag
      | vDict l =>
        have hstep : Elem.addStep (.edge ed) "source" (.vDict l) = .error () := rfl
        rw [hunf, hstep] at hflag
        replace hflag : true = false := hflag
        cases hflag
    · cases hstep : Elem.addStep (.edge ed) k v with
      | error u =>
        rw [hunf, hstep] at hflag
        replace hflag : true = false := hflag
        cases hflag
      | ok e1 =>
        have hkd : k ≠ "data" := by simpa using hd.1
        obtain ⟨ed1, he1, _, _⟩ := addStep_edge_track ed k v e1 hkd hstep
        subst he1
        rw [hunf, hstep] at hflag
        have hmem' : ("source", v0) ∈ rest := by
          rcases List.mem_cons.mp hmem with he | hm'
          · injection he with h1 h2
            exact absurd h1.symm hk
          · exact hm'
        obtain ⟨s, ed', hv0, hres, hs'⟩ := ih ed1 v0 hd.2 hnd.2 hmem' hflag
        refine ⟨s, ed', hv0, ?_, hs'⟩
        rw [hunf, hstep]
        exact hres

/-- The `"target"` analogue of the source lemma. -/
theorem Elem.add_edge_tgt_final : ∀ (attrs : Attrs) (ed : Edge) (v0 : Value),
    GenericElements.hasKey attrs "data" = false →
    (attrs.map Prod.fst).Nodup →
    ("target", v0) ∈ attrs →
    (Elem.add (.edge ed) attrs).2 = false →
    ∃ s ed', v0 = .vStr s ∧ (Elem.add (.edge ed) attrs).1 = .edge ed' ∧
      ed'.data.target = s := by
  intro attrs
  induction attrs with
  | nil => intro ed v0 _ _ hmem _; simp at hmem
  | cons kv rest ih =>
    intro ed v0 hd hnd hmem hflag
    obtain ⟨k, v⟩ := kv
    rw [hasKey_cons, Bool.or_eq_false_iff] at hd
    simp only [List.map_cons, List.nodup_cons] at hnd
    have hunf : Elem.add (.edge ed) ((k, v) :: rest) =
        match Elem.addStep (.edge ed) k v with
        | .ok e1 => e1.add rest
        | .error _ => (.edge ed, true) := rfl
    by_cases hk : k = "target"
    · subst hk
      have hv : v0 = v := by
        rcases List.mem_cons.mp hmem with he | hm'
        · rw [Prod.mk.injEq] at he
          exact he.2
        · exact absurd (List.mem_map_of_mem Prod.fst hm') hnd.1
      subst hv
      cases v0 with
      | vStr s0 =>
        have hstep : Elem.addStep (.edge ed) "target" (.vStr s0) =
            .ok (.edge { ed with data := { ed.data with target := s0 } }) := rfl
        obtain ⟨ed', hres, _, htrt⟩ :=
          Elem.add_edge_track rest { ed with data := { ed.data with target := s0 } } hd.2
        refine ⟨s0, ed', rfl, ?_, ?_⟩
        · rw [hunf, hstep]
          exact hres
        · rcases htrt with h' | ⟨s, hs, _⟩
          · exact h'
          · exact absurd (List.mem_map_of_mem Prod.fst hs) hnd.1
      | vBool b =>
        have hstep : Elem.addStep (.edge ed) "target" (.vBool b) = .error () := rfl
        rw [hunf, hstep] at hflag
        replace hflag : true = false := hflag
        cases hflag
      | vFloat q =>
        have hstep : Elem.addStep (.edge ed) "target" (.vFloat q) = .error () := rfl
        rw [hunf, hstep] at hflag
        replace hflag : true = false := hflag
        cases hflag
      | vDict l =>
        have hstep : Elem.addStep (.edge ed) "target" (.vDict l) = .error () := rfl
        rw [hunf, hstep] at hflag
        replace hflag : true = false := hflag
        cases hflag
    · cases hstep : Elem.addStep (.edge ed) k v with
      | error u =>
        rw [hunf, hstep] at hflag
        replace hflag : true = false := hflag
        cases hflag
      | ok e1 =>
        have hkd : k ≠ "data" := by simpa using hd.1
        obtain ⟨ed1, he1, _, _⟩ := addStep_edge_track ed k v e1 hkd hstep
        subst he1
        rw [hunf, hstep] at hflag
        have hmem' : ("target", v0) ∈ rest := by
          rcases List.mem_cons.mp hmem with he | hm'
          · injection he with h1 h2
            exact absurd h1.symm hk
          · exact hm'
        obtain ⟨s, ed', hv0, hres, ht'⟩ := ih ed1 v0 hd.2 hnd.2 hmem' hflag
        refine ⟨s, ed', hv0, ?_, ht'⟩
        rw [hunf, hstep]
        exact hres

/-- A resolution miss means each scan that ran returned nothing. -/
theorem getIdx_none_spec (els : List Elem) (attrs : Attrs)
    (h : GenericElements.getIdx els attrs = .ok none) :
    (GenericElements.hasKey attrs "id" = true →
      GenericElements.scanIdx "nodes" [("id", GenericElements.kwget attrs "id")] els 0 =
        .ok none) ∧
    ((GenericElements.hasKey attrs "source" &&
        GenericElements.hasKey attrs "target") = true →
      GenericElements.scanIdx "edges"
        [("source", GenericElements.kwget attrs "source"),
         ("target", GenericElements.kwget attrs "target")] els 0 = .ok none) := by
  unfold GenericElements.getIdx at h
  by_cases hid : GenericElements.hasKey attrs "id" = true
  · rw [if_pos hid] at h
    obtain ⟨o1, ho1⟩ :=
      scanIdx_total "nodes" [("id", GenericElements.kwget attrs "id")] els 0
        (id_proj_total _)
    rw [ho1] at h
    cases o1 with
    | some j =>
      replace h : (Except.ok (some j) : Res (Option Nat)) = .ok none := h
      simp at h
    | none =>
      replace h :
          (if (GenericElements.hasKey attrs "source" &&
              GenericElements.hasKey attrs "target") = true then
            GenericElements.scanIdx "edges"
              [("source", GenericElements.kwget attrs "source"),
               ("target", GenericElements.kwget attrs "target")] els 0
          else .ok none) = .ok none := h
      refine ⟨fun _ => ho1, fun hst => ?_⟩
      rw [if_pos hst] at h
      exact h
  · rw [if_neg hid] at h
    replace h :
        (if (GenericElements.hasKey attrs "source" &&
            GenericElements.hasKey attrs "target") = true then
          GenericElements.scanIdx "edges"
            [("source", GenericElements.kwget attrs "source"),
             ("target", GenericElements.kwget attrs "target")] els 0
        else .ok none) = .ok none := h
    refine ⟨fun hc => absurd hc hid, fun hst => ?_⟩
    rw [if_pos hst] at h
    exact h

/-- A filter returning the empty collection means every element failed the
match. -/
theorem filter_nil_all_false (els : List Elem) (attrs : Attrs)
    (h : GenericElements.filter els attrs = .ok []) :
    ∀ e ∈ els, e.is_match attrs = .ok false := by
  induction els with
  | nil => intro e he; simp at he
  | cons a rest ih =>
    rw [GenericElements.filter] at h
    cases hma : a.is_match attrs with
    | error u =>
      rw [hma] at h
      cases h
    | ok b =>
      rw [hma] at h
      cases hmr : GenericElements.filter rest attrs with
      | error u =>
        rw [hmr] at h
        cases h
      | ok r =>
        rw [hmr] at h
        replace h : (Except.ok (if b then a :: r else r) : Res (List Elem)) = .ok [] := h
        simp only [Except.ok.injEq] at h
        cases b with
        | true => simp at h
        | false =>
          simp only [if_neg (by simp : ¬(false = true))] at h
          intro e he
          rcases List.mem_cons.mp he with rfl | he'
          · exact hma
          · exact ih (h ▸ hmr) e he'

/-- Merging into a Node resolved by its id leaves its id unchanged (any
`"id"` binding of the attrs already equals it), so both uniqueness
projections survive the in-place update. -/
theorem merge_node_unique (els : List Elem) (t : Nat) (nn : Node) (attrs : Attrs)
    (hU : UniqueIds els)
    (hnd : (attrs.map Prod.fst).Nodup)
    (hdata : GenericElements.hasKey attrs "data" = false)
    (he : els[t]? = some (.node nn))
    (hkw : GenericElements.kwget attrs "id" = .vStr nn.data.id) :
    UniqueIds (els.set t (Elem.add (.node nn) attrs).1) := by
  obtain ⟨n', hres, htr⟩ := Elem.add_node_track attrs nn hdata
  rw [hres]
  have hid' : n'.data.id = nn.data.id := by
    rcases htr with h' | ⟨s, hs, hid2⟩
    · exact h'
    · have hdl := dlookup_of_mem_nodup attrs "id" (.vStr s) hs hnd
      have hkw2 : GenericElements.kwget attrs "id" = .vStr s := by
        rw [GenericElements.kwget, hdl]
        rfl
      rw [hkw, Value.vStr.injEq] at hkw2
      rw [hid2, ← hkw2]
  exact ⟨by rw [nodeIds_set_node els t nn n' he hid']; exact hU.1,
         by rw [edgePairs_set_node els t nn n' he]; exact hU.2⟩

/-- Merging into an Edge resolved by its (source, target) pair leaves the
pair unchanged, so both uniqueness projections survive. -/
theorem merge_edge_unique (els : List Elem) (t : Nat) (ed : Edge) (attrs : Attrs)
    (hU : UniqueIds els)
    (hnd : (attrs.map Prod.fst).Nodup)
    (hdata : GenericElements.hasKey attrs "data" = false)
    (he : els[t]? = some (.edge ed))
    (hkws : GenericElements.kwget attrs "source" = .vStr ed.data.source)
    (hkwt : GenericElements.kwget attrs "target" = .vStr ed.data.target) :
    UniqueIds (els.set t (Elem.add (.edge ed) attrs).1) := by
  obtain ⟨ed', hres, htrs, htrt⟩ := Elem.add_edge_track attrs ed hdata
  rw [hres]
  have hs' : ed'.data.source = ed.data.source := by
    rcases htrs with h' | ⟨s, hs, h2⟩
    · exact h'
    · have hdl := dlookup_of_mem_nodup attrs "source" (.vStr s) hs hnd
      have hkw2 : GenericElements.kwget attrs "source" = .vStr s := by
        rw [GenericElements.kwget, hdl]
        rfl
      rw [hkws, Value.vStr.injEq] at hkw2
      rw [h2, ← hkw2]
  have ht' : ed'.data.target = ed.data.target := by
    rcases htrt with h' | ⟨s, hs, h2⟩
    · exact h'
    · have hdl := dlookup_of_mem_nodup attrs "target" (.vStr s) hs hnd
      have hkw2 : GenericElements.kwget attrs "target" = .vStr s := by
        rw [GenericElements.kwget, hdl]
        rfl
      rw [hkwt, Value.vStr.injEq] at hkw2
      rw [h2, ← hkw2]
  exact ⟨by rw [nodeIds_set_edge els t ed ed' he]; exact hU.1,
         by rw [edgePairs_set_edge els t ed ed' he hs' ht']; exact hU.2⟩

/-- Appending a Node whose id is unused keeps the invariant. -/
theorem append_node_unique (els : List Elem) (n' : Node)
    (hU : UniqueIds els) (hno : n'.data.id ∉ nodeIds els) :
    UniqueIds (els ++ [.node n']) := by
  constructor
  · rw [nodeIds_append]
    have h1 : nodeIds [Elem.node n'] = [n'.data.id] := rfl
    rw [h1, List.nodup_append]
    refine ⟨hU.1, List.nodup_singleton _, ?_⟩
    intro a ha hb
    rw [List.mem_singleton] at hb
    subst hb
    exact hno ha
  · rw [edgePairs_append]
    have h2 : edgePairs [Elem.node n'] = [] := rfl
    rw [h2, List.append_nil]
    exact hU.2

/-- Appending an Edge whose (source, target) pair is unused keeps the
invariant. -/
theorem append_edge_unique (els : List Elem) (ed' : Edge)
    (hU : UniqueIds els)
    (hno : (ed'.data.source, ed'.data.target) ∉ edgePairs els) :
    UniqueIds (els ++ [.edge ed']) := by
  constructor
  · rw [nodeIds_append]
    have h1 : nodeIds [Elem.edge ed'] = [] := rfl
    rw [h1, List.append_nil]
    exact hU.1
  · rw [edgePairs_append]
    have h2 : edgePairs [Elem.edge ed'] = [(ed'.data.source, ed'.data.target)] := rfl
    rw [h2, List.nodup_append]
    refine ⟨hU.2, List.nodup_singleton _, ?_⟩
    intro a ha hb
    rw [List.mem_singleton] at hb
    subst hb
    exact hno ha

/-- When the duplicate-id filter comes back empty, no Node of the
collection carries the probed id. -/
theorem no_node_id_of_filter_nil (els : List Elem) (s0 : String)
    (hall : ∀ e ∈ els, Elem.is_match e [("id", Value.vStr s0)] = .ok false) :
    s0 ∉ nodeIds els := by
  intro hmem
  obtain ⟨N, hN, hNid⟩ := (mem_nodeIds els s0).mp hmem
  have hthis := hall (.node N) hN
  rw [node_match_id, Except.ok.injEq, veqStr_str] at hthis
  exact absurd hNid (by simpa using hthis)

/-- When the edge identity scan comes back empty, no Edge of the
collection carries the probed (source, target) pair. -/
theorem no_edge_pair_of_scan_none (els : List Elem) (vs vt : Value) (ss tt : String)
    (hvs : vs = .vStr ss) (hvt : vt = .vStr tt)
    (hscan : GenericElements.scanIdx "edges" [("source", vs), ("target", vt)] els 0 =
      .ok none) :
    (ss, tt) ∉ edgePairs els := by
  intro hmem
  obtain ⟨E0, hE0, hpair⟩ := (mem_edgePairs els (ss, tt)).mp hmem
  obtain ⟨u, hu⟩ := List.mem_iff_getElem?.mp hE0
  apply scanIdx_none_spec _ _ _ _ hscan u _ hu
  refine ⟨edge_match_group_edges E0, ?_⟩
  subst hvs
  subst hvt
  rw [edge_match_src_tgt]
  rw [Prod.mk.injEq] at hpair
  rw [veqStr_str, veqStr_str, hpair.1, hpair.2]
  simp

/-- One `add` call preserves the uniqueness invariant, provided the attrs
have pairwise-distinct keys and no `"data"` key, and the uuid the call
would draw is not an id already carried by a Node. -/
theorem add_preserves_unique (els : List Elem) (attrs : Attrs) (fresh : String)
    (hU : UniqueIds els)
    (hnd : (attrs.map Prod.fst).Nodup)
    (hdata : GenericElements.hasKey attrs "data" = false)
    (hfresh : fresh ∉ nodeIds els) :
    UniqueIds (GenericElements.add els attrs fresh).1 := by
  obtain ⟨o, ho⟩ := getIdx_total els attrs
  cases o with
  | some i =>
    rcases getIdx_some_cases els attrs i ho with ⟨hid, hscan⟩ | ⟨hst, hscan, _⟩
    · obtain ⟨t, e, he, hj, hhit, _⟩ := scanIdx_some_spec _ _ _ _ _ hscan
      have hit : i = t := by omega
      subst hit
      cases e with
      | edge ed =>
        exact absurd hhit.1 (by rw [edge_match_group_nodes]; simp)
      | node nn =>
        have hkw : GenericElements.kwget attrs "id" = .vStr nn.data.id := by
          have h2 := hhit.2
          rw [node_match_id, Except.ok.injEq] at h2
          exact (veqStr_true_iff _ _).mp h2
        obtain ⟨ms, hms⟩ := filter_total els [("id", GenericElements.kwget attrs "id")]
          (by
            intro kv hkv
            simp only [List.mem_singleton] at hkv
            subst hkv
            exact ⟨by simp, by simp⟩)
        simp only [GenericElements.add, ho, he]
        rw [if_pos hid]
        simp only [hms]
        by_cases hall : ms.all (fun x => x == Elem.node nn) = true
        · rw [if_pos hall]
          exact merge_node_unique els i nn attrs hU hnd hdata he hkw
        · rw [if_neg hall]
          exact hU
    · obtain ⟨t, e, he, hj, hhit, _⟩ := scanIdx_some_spec _ _ _ _ _ hscan
      have hit : i = t := by omega
      subst hit
      cases e with
      | node nn =>
        exact absurd hhit.1 (by rw [node_match_group_edges]; simp)
      | edge ed =>
        have h2 := hhit.2
        rw [edge_match_src_tgt, Except.ok.injEq, Bool.and_eq_true] at h2
        have hkws := (veqStr_true_iff _ _).mp h2.1
        have hkwt := (veqStr_true_iff _ _).mp h2.2
        simp only [GenericElements.add, ho, he]
        by_cases hid : GenericElements.hasKey attrs "id" = true
        · rw [if_pos hid]
          obtain ⟨ms, hms⟩ := filter_total els [("id", GenericElements.kwget attrs "id")]
            (by
              intro kv hkv
              simp only [List.mem_singleton] at hkv
              subst hkv
              exact ⟨by simp, by simp⟩)
          simp only [hms]
          by_cases hall : ms.all (fun x => x == Elem.edge ed) = true
          · rw [if_pos hall]
            exact merge_edge_unique els i ed attrs hU hnd hdata he hkws hkwt
          · rw [if_neg hall]
            exact hU
        · rw [if_neg hid]
          exact merge_edge_unique els i ed attrs hU hnd hdata he hkws hkwt
  | none =>
    have hnone := getIdx_none_spec els attrs ho
    simp only [GenericElements.add, ho]
    by_cases hid : GenericElements.hasKey attrs "id" = true
    · rw [if_pos hid]
      obtain ⟨ms, hms⟩ := filter_total els [("id", GenericElements.kwget attrs "id")]
        (by
          intro kv hkv
          simp only [List.mem_singleton] at hkv
          subst hkv
          exact ⟨by simp, by simp⟩)
      simp only [hms]
      by_cases hemp : ms.isEmpty = true
      · rw [if_pos hemp]
        have hms0 : ms = [] := by simpa using hemp
        subst hms0
        have hallF := filter_nil_all_false els _ hms
        obtain ⟨v0, hdl⟩ := dlookup_some_of_hasKey attrs "id" hid
        have hkwid : GenericElements.kwget attrs "id" = v0 := by
          rw [GenericElements.kwget, hdl]
          rfl
        have hmem := dlookup_mem attrs "id" v0 hdl
        by_cases hst : (GenericElements.hasKey attrs "source" &&
            GenericElements.hasKey attrs "target") = true
        · rw [if_pos hst]
          obtain ⟨e1, fl, hp⟩ : ∃ e1 fl, Elem.add (.edge {}) attrs = (e1, fl) :=
            ⟨_, _, rfl⟩
          cases fl with
          | true =>
            simp only [hp]
            exact hU
          | false =>
            simp only [hp]
            have hflag : (Elem.add (.edge ({} : Edge)) attrs).2 = false := by rw [hp]
            have hstc := hst
            rw [Bool.and_eq_true] at hstc
            obtain ⟨vs, hdls⟩ := dlookup_some_of_hasKey attrs "source" hstc.1
            obtain ⟨vt, hdlt⟩ := dlookup_some_of_hasKey attrs "target" hstc.2
            obtain ⟨ss, ed1, hvs, hres1, hs1⟩ := Elem.add_edge_src_final attrs {} vs
              hdata hnd (dlookup_mem _ _ _ hdls) hflag
            obtain ⟨tt, ed2, hvt, hres2, ht2⟩ := Elem.add_edge_tgt_final attrs {} vt
              hdata hnd (dlookup_mem _ _ _ hdlt) hflag
            rw [hp] at hres1 hres2
            replace hres1 : e1 = .edge ed1 := hres1
            replace hres2 : e1 = .edge ed2 := hres2
            subst hres1
            rw [Elem.edge.injEq] at hres2
            rw [← hres2] at ht2
            have hscans := hnone.2 hst
            have hkwss : GenericElements.kwget attrs "source" = vs := by
              rw [GenericElements.kwget, hdls]
              rfl
            have hkwtt : GenericElements.kwget attrs "target" = vt := by
              rw [GenericElements.kwget, hdlt]
              rfl
            rw [hkwss, hkwtt] at hscans
            have hnopair := no_edge_pair_of_scan_none els vs vt ss tt hvs hvt hscans
            apply append_edge_unique els ed1 hU
            rw [hs1, ht2]
            exact hnopair
        · rw [if_neg hst]
          obtain ⟨e1, fl, hp⟩ : ∃ e1 fl, Elem.add (.node {}) attrs = (e1, fl) :=
            ⟨_, _, rfl⟩
          cases fl with
          | true =>
            simp only [hp]
            exact hU
          | false =>
            simp only [hp]
            have hflag : (Elem.add (.node ({} : Node)) attrs).2 = false := by rw [hp]
            obtain ⟨s0, n', hv0, hres, hid'⟩ :=
              Elem.add_node_id_final attrs {} v0 hdata hnd hmem hflag
            rw [hp] at hres
            replace hres : e1 = .node n' := hres
            subst hres
            apply append_node_unique els n' hU
            rw [hid']
            apply no_node_id_of_filter_nil els s0
            intro x hx
            have hx2 := hallF x hx
            rw [hkwid, hv0] at hx2
            exact hx2
      · rw [if_neg hemp]
        exact hU
    · rw [if_neg hid]
      have hid0 : GenericElements.hasKey attrs "id" = false := by
        simpa using hid
      have hd' : GenericElements.hasKey (attrs ++ [("id", Value.vStr fresh)]) "data" =
          false := by
        rw [hasKey_append, hdata]
        rfl
      have hnd' : ((attrs ++ [("id", Value.vStr fresh)]).map Prod.fst).Nodup := by
        rw [List.map_append, List.nodup_append]
        refine ⟨hnd, List.nodup_singleton _, ?_⟩
        intro a ha hb
        have hb' : a = "id" := by simpa using hb
        subst hb'
        exact not_mem_keys_of_hasKey_false attrs "id" hid0 ha
      by_cases hst : (GenericElements.hasKey attrs "source" &&
          GenericElements.hasKey attrs "target") = true
      · rw [if_pos hst]
        obtain ⟨e1, fl, hp⟩ :
            ∃ e1 fl, Elem.add (.edge {}) (attrs ++ [("id", Value.vStr fresh)]) =
              (e1, fl) := ⟨_, _, rfl⟩
        cases fl with
        | true =>
          simp only [hp]
          exact hU
        | false =>
          simp only [hp]
          have hflag :
              (Elem.add (.edge ({} : Edge)) (attrs ++ [("id", Value.vStr fresh)])).2 =
                false := by rw [hp]
          have hstc := hst
          rw [Bool.and_eq_true] at hstc
          obtain ⟨vs, hdls⟩ := dlookup_some_of_hasKey attrs "source" hstc.1
          obtain ⟨vt, hdlt⟩ := dlookup_some_of_hasKey attrs "target" hstc.2
          obtain ⟨ss, ed1, hvs, hres1, hs1⟩ := Elem.add_edge_src_final _ {} vs hd' hnd'
            (List.mem_append_left _ (dlookup_mem _ _ _ hdls)) hflag
          obtain ⟨tt, ed2, hvt, hres2, ht2⟩ := Elem.add_edge_tgt_final _ {} vt hd' hnd'
            (List.mem_append_left _ (dlookup_mem _ _ _ hdlt)) hflag
          rw [hp] at hres1 hres2
          replace hres1 : e1 = .edge ed1 := hres1
          replace hres2 : e1 = .edge ed2 := hres2
          subst hres1
          rw [Elem.edge.injEq] at hres2
          rw [← hres2] at ht2
          have hscans := hnone.2 hst
          have hkwss : GenericElements.kwget attrs "source" = vs := by
            rw [GenericElements.kwget, hdls]
            rfl
          have hkwtt : GenericElements.kwget attrs "target" = vt := by
            rw [GenericElements.kwget, hdlt]
            rfl
          rw [hkwss, hkwtt] at hscans
          have hnopair := no_edge_pair_of_scan_none els vs vt ss tt hvs hvt hscans
          apply append_edge_unique els ed1 hU
          rw [hs1, ht2]
          exact hnopair
      · rw [if_neg hst]
        obtain ⟨e1, fl, hp⟩ :
            ∃ e1 fl, Elem.add (.node {}) (attrs ++ [("id", Value.vStr fresh)]) =
              (e1, fl) := ⟨_, _, rfl⟩
        cases fl with
        | true =>
          simp only [hp]
          exact hU
        | false =>
          simp only [hp]
          have hflag :
              (Elem.add (.node ({} : Node)) (attrs ++ [("id", Value.vStr fresh)])).2 =
                false := by rw [hp]
          have hmem' : ("id", Value.vStr fresh) ∈ attrs ++ [("id", Value.vStr fresh)] :=
            List.mem_append_right _ (List.mem_singleton.mpr rfl)
          obtain ⟨s0, n', hv0, hres, hid'⟩ :=
            Elem.add_node_id_final _ {} (Value.vStr fresh) hd' hnd' hmem' hflag
          rw [Value.vStr.injEq] at hv0
          rw [hp] at hres
          replace hres : e1 = .node n' := hres
          subst hres
          apply append_node_unique els n' hU
          rw [hid', ← hv0]
          exact hfresh

/-- Side conditions under which a sequence of `add` calls keeps the
identity projections duplicate-free: each call's attrs have
pairwise-distinct keys and no `"data"` key, and each call's uuid string is
not an id already carried by a Node of the state it is drawn in. -/
def SafeSteps : List Elem → List (Attrs × String) → Prop
  | _, [] => True
  | els, st :: rest =>
    (st.1.map Prod.fst).Nodup ∧ GenericElements.hasKey st.1 "data" = false ∧
      st.2 ∉ nodeIds els ∧ SafeSteps (GenericElements.add els st.1 st.2).1 rest

instance instDecidableSafeSteps : ∀ (els : List Elem) (steps : List (Attrs × String)),
    Decidable (SafeSteps els steps)
  | _, [] => .isTrue trivial
  | els, st :: rest =>
    haveI := instDecidableSafeSteps (GenericElements.add els st.1 st.2).1 rest
    decidable_of_iff
      ((st.1.map Prod.fst).Nodup ∧ GenericElements.hasKey st.1 "data" = false ∧
        st.2 ∉ nodeIds els ∧ SafeSteps (GenericElements.add els st.1 st.2).1 rest)
      Iff.rfl

theorem safeSteps_fold : ∀ (steps : List (Attrs × String)) (els : List Elem),
    UniqueIds els → SafeSteps els steps →
    UniqueIds (steps.foldl (fun acc st => (GenericElements.add acc st.1 st.2).1) els) := by
  intro steps
  induction steps with
  | nil => intro els hU _; exact hU
  | cons st rest ih =>
    intro els hU hs
    obtain ⟨h1, h2, h3, h4⟩ := hs
    exact ih _ (add_preserves_unique els st.1 st.2 hU h1 h2 h3) h4

/-- A maximal run of non-whitespace characters passes through the
splitter's accumulator untouched. -/
theorem wordsAux_run : ∀ (p : List Char), (∀ c ∈ p, c.isWhitespace = false) →
    ∀ (rest acc : List Char), wordsAux (p ++ rest) acc = wordsAux rest (p.reverse ++ acc) := by
  intro p
  induction p with
  | nil => intro _ rest acc; simp
  | cons c p' ih =>
    intro hp rest acc
    have hc : c.isWhitespace = false := hp c (List.mem_cons_self _ _)
    rw [List.cons_append, wordsAux, if_neg (by simp [hc])]
    rw [ih (fun x hx => hp x (List.mem_cons_of_mem _ hx)) rest (c :: acc)]
    congr 1
    simp

/-- Splitting the space-joined concatenation of non-empty all-visible
pieces recovers exactly the pieces. -/
theorem wordsAux_intercalate : ∀ (ps : List (List Char)),
    (∀ p ∈ ps, p ≠ [] ∧ ∀ c ∈ p, c.isWhitespace = false) →
    wordsAux (List.intercalate [' '] ps) [] = ps := by
  intro ps
  induction ps with
  | nil => intro _; rfl
  | cons p ps' ih =>
    intro h
    obtain ⟨hpne, hpw⟩ := h p (List.mem_cons_self _ _)
    have hre : p.reverse.isEmpty = false := by
      simp [List.isEmpty_iff, hpne]
    cases ps' with
    | nil =>
      have h1 : List.intercalate [' '] [p] = p := by
        simp [List.intercalate]
      rw [h1]
      have h3 := wordsAux_run p hpw [] []
      rw [List.append_nil] at h3
      rw [h3, List.append_nil, wordsAux, if_neg (by simp [hre])]
      simp
    | cons q ps'' =>
      have h2 : List.intercalate [' '] (p :: q :: ps'') =
          p ++ ' ' :: List.intercalate [' '] (q :: ps'') := by
        simp [List.intercalate, List.intersperse]
      rw [h2]
      have h3 := wordsAux_run p hpw (' ' :: List.intercalate [' '] (q :: ps'')) []
      rw [h3, List.append_nil, wordsAux, if_pos (by decide), if_neg (by simp [hre])]
      rw [List.reverse_reverse]
      congr 1
      exact ih (fun x hx => h x (List.mem_cons_of_mem _ hx))

/-- Every token the splitter produces is non-empty and all-visible. -/
theorem wordsAux_wf : ∀ (cs acc : List Char), (∀ c ∈ acc, c.isWhitespace = false) →
    ∀ p ∈ wordsAux cs acc, p ≠ [] ∧ ∀ c ∈ p, c.isWhitespace = false := by
  intro cs
  induction cs with
  | nil =>
    intro acc hacc p hp
    rw [wordsAux] at hp
    by_cases he : acc.isEmpty = true
    · rw [if_pos he] at hp
      simp at hp
    · rw [if_neg he] at hp
      rw [List.mem_singleton] at hp
      subst hp
      refine ⟨by simpa [List.isEmpty_iff] using he, ?_⟩
      intro c hc
      exact hacc c (by simpa using hc)
  | cons c cs' ih =>
    intro acc hacc p hp
    rw [wordsAux] at hp
    by_cases hw : c.isWhitespace = true
    · rw [if_pos hw] at hp
      by_cases he : acc.isEmpty = true
      · rw [if_pos he] at hp
        exact ih [] (by simp) p hp
      · rw [if_neg he] at hp
        rcases List.mem_cons.mp hp with rfl | hp'
        · refine ⟨by simpa [List.isEmpty_iff] using he, ?_⟩
          intro x hx
          exact hacc x (by simpa using hx)
        · exact ih [] (by simp) p hp'
    · rw [if_neg hw] at hp
      refine ih (c :: acc) ?_ p hp
      intro x hx
      rcases List.mem_cons.mp hx with rfl | hx'
      · simpa using hw
      · exact hacc x hx'

theorem pySplit_wf (s : String) (t : String) (ht : t ∈ pySplit s) :
    t.data ≠ [] ∧ ∀ c ∈ t.data, c.isWhitespace = false := by
  rw [pySplit, List.mem_map] at ht
  obtain ⟨p, hp, hmk⟩ := ht
  obtain ⟨hne, hw⟩ := wordsAux_wf s.data [] (by simp) p hp
  subst hmk
  exact ⟨by simpa using hne, by simpa using hw⟩

/-- Splitting a space-join of well-formed tokens recovers the tokens. -/
theorem pySplit_joinSpace (ts : List String)
    (h : ∀ t ∈ ts, t.data ≠ [] ∧ ∀ c ∈ t.data, c.isWhitespace = false) :
    pySplit (joinSpace ts) = ts := by
  have hw : ∀ p ∈ ts.map String.data, p ≠ [] ∧ ∀ c ∈ p, c.isWhitespace = false := by
    intro p hp
    rw [List.mem_map] at hp
    obtain ⟨t, ht, rfl⟩ := hp
    exact h t ht
  rw [pySplit, joinSpace]
  rw [show (String.mk (List.intercalate [' '] (ts.map String.data))).data =
      List.intercalate [' '] (ts.map String.data) from rfl]
  rw [wordsAux_intercalate (ts.map String.data) hw, List.map_map]
  have hid : (String.mk ∘ String.data) = id := by
    funext x
    cases x
    rfl
  rw [hid, List.map_id]

theorem dedupAppend_sub : ∀ (new base : List String) (t : String),
    t ∈ base → t ∈ dedupAppend base new := by
  intro new
  induction new with
  | nil => intro base t ht; exact ht
  | cons x new' ih =>
    intro base t ht
    have he : dedupAppend base (x :: new') =
        dedupAppend (if base.contains x then base else base ++ [x]) new' := rfl
    rw [he]
    apply ih
    by_cases hc : base.contains x = true
    · rw [if_pos hc]
      exact ht
    · rw [if_neg hc]
      exact List.mem_append_left _ ht

theorem mem_dedupAppend_right : ∀ (new base : List String) (t : String),
    t ∈ new → t ∈ dedupAppend base new := by
  intro new
  induction new with
  | nil => intro base t ht; simp at ht
  | cons x new' ih =>
    intro base t ht
    have he : dedupAppend base (x :: new') =
        dedupAppend (if base.contains x then base else base ++ [x]) new' := rfl
    rw [he]
    rcases List.mem_cons.mp ht with rfl | ht'
    · apply dedupAppend_sub
      by_cases hc : base.contains t = true
      · rw [if_pos hc]
        simpa using hc
      · rw [if_neg hc]
        exact List.mem_append_right _ (List.mem_singleton.mpr rfl)
    · exact ih _ t ht'

theorem mem_dedupAppend : ∀ (new base : List String) (t : String),
    t ∈ dedupAppend base new → t ∈ base ∨ t ∈ new := by
  intro new
  induction new with
  | nil => intro base t ht; exact Or.inl ht
  | cons x new' ih =>
    intro base t ht
    have he : dedupAppend base (x :: new') =
        dedupAppend (if base.contains x then base else base ++ [x]) new' := rfl
    rw [he] at ht
    rcases ih _ t ht with hb | hn
    · by_cases hc : base.contains x = true
      · rw [if_pos hc] at hb
        exact Or.inl hb
      · rw [if_neg hc] at hb
        rcases List.mem_append.mp hb with hb' | hb'
        · exact Or.inl hb'
        · rw [List.mem_singleton] at hb'
          subst hb'
          exact Or.inr (List.mem_cons_self _ _)
    · exact Or.inr (List.mem_cons_of_mem _ hn)

theorem dedupAppend_absorb : ∀ (new base : List String),
    (∀ t ∈ new, t ∈ base) → dedupAppend base new = base := by
  intro new
  induction new with
  | nil => intro base _; rfl
  | cons x new' ih =>
    intro base h
    have he : dedupAppend base (x :: new') =
        dedupAppend (if base.contains x then base else base ++ [x]) new' := rfl
    rw [he]
    have hc : base.contains x = true := by
      simpa using h x (List.mem_cons_self _ _)
    rw [if_pos hc]
    exact ih base (fun t ht => h t (List.mem_cons_of_mem _ ht))

/-- `_add_classes` is idempotent: re-adding the same classes string
changes nothing (all its tokens are already present). -/
theorem addClassesStr_idem (c s : String) :
    addClassesStr (addClassesStr c s) s = addClassesStr c s := by
  have hts : ∀ t ∈ dedupAppend (pySplit c) (pySplit s),
      t.data ≠ [] ∧ ∀ ch ∈ t.data, ch.isWhitespace = false := by
    intro t ht
    rcases mem_dedupAppend _ _ _ ht with hb | hn
    · exact pySplit_wf c t hb
    · exact pySplit_wf s t hn
  show addClassesStr (joinSpace (dedupAppend (pySplit c) (pySplit s))) s =
    addClassesStr c s
  rw [addClassesStr, pySplit_joinSpace _ hts,
    dedupAppend_absorb (pySplit s) _ (fun t ht => mem_dedupAppend_right _ _ t ht)]
  rfl

theorem dlookup_dset1 : ∀ (X : List (String × Value)) (k : String) (v : Value)
    (q : String),
    dlookup q (dset1 X (k, v)) = if q = k then some v else dlookup q X := by
  intro X
  induction X with
  | nil =>
    intro k v q
    show dlookup q [(k, v)] = if q = k then some v else none
    rw [dlookup]
    by_cases h : q = k
    · rw [if_pos h.symm, if_pos h]
    · rw [if_neg (fun hh => h hh.symm), if_neg h]
      rfl
  | cons kv' X' ih =>
    intro k v q
    obtain ⟨k', v'⟩ := kv'
    by_cases h1 : k' = k
    · have he : dset1 ((k', v') :: X') (k, v) = (k', v) :: X' := by
        rw [dset1, if_pos h1]
      rw [he]
      subst h1
      rw [dlookup, dlookup]
      by_cases h2 : k' = q
      · rw [if_pos h2, if_pos h2.symm]
      · rw [if_neg h2, if_neg (fun hh => h2 hh.symm), if_neg h2]
    · have he : dset1 ((k', v') :: X') (k, v) = (k', v') :: dset1 X' (k, v) := by
        rw [dset1, if_neg h1]
      rw [he, dlookup, dlookup, ih k v q]
      by_cases h2 : k' = q
      · rw [if_pos h2]
        have hqk : ¬ q = k := fun hh => h1 (h2.trans hh)
        rw [if_neg hqk, if_pos h2]
      · rw [if_neg h2, if_neg h2]

/-- Re-assigning a dict key the value it already holds is a no-op. -/
theorem dset1_self : ∀ (X : List (String × Value)) (k : String) (v : Value),
    dlookup k X = some v → dset1 X (k, v) = X := by
  intro X
  induction X with
  | nil => intro k v h; cases h
  | cons kv' X' ih =>
    intro k v h
    obtain ⟨k', v'⟩ := kv'
    rw [dlookup] at h
    rw [dset1]
    by_cases h1 : k' = k
    · rw [if_pos h1] at h ⊢
      simp only [Option.some.injEq] at h
      rw [h]
    · rw [if_neg h1] at h ⊢
      rw [ih k v h]

theorem dlookup_dsetAll_not_mem : ∀ (en Z : List (String × Value)) (q : String),
    q ∉ en.map Prod.fst → dlookup q (dsetAll Z en) = dlookup q Z := by
  intro en
  induction en with
  | nil => intro Z q _; rfl
  | cons kv en' ih =>
    intro Z q hq
    obtain ⟨k, v⟩ := kv
    simp only [List.map_cons, List.mem_cons] at hq
    push_neg at hq
    have he : dsetAll Z ((k, v) :: en') = dsetAll (dset1 Z (k, v)) en' := rfl
    rw [he, ih _ q hq.2, dlookup_dset1, if_neg hq.1]

/-- With pairwise-distinct keys, each written binding is what a lookup of
the result finds. -/
theorem dlookup_dsetAll_mem : ∀ (en Z : List (String × Value)) (k : String)
    (v : Value), (en.map Prod.fst).Nodup → (k, v) ∈ en →
    dlookup k (dsetAll Z en) = some v := by
  intro en
  induction en with
  | nil => intro Z k v _ hm; simp at hm
  | cons kv en' ih =>
    intro Z k v hnd hm
    obtain ⟨k', v'⟩ := kv
    simp only [List.map_cons, List.nodup_cons] at hnd
    have he : dsetAll Z ((k', v') :: en') = dsetAll (dset1 Z (k', v')) en' := rfl
    rw [he]
    rcases List.mem_cons.mp hm with hh | hm'
    · rw [Prod.mk.injEq] at hh
      obtain ⟨h1, h2⟩ := hh
      subst h1
      subst h2
      rw [dlookup_dsetAll_not_mem en' _ k hnd.1, dlookup_dset1, if_pos rfl]
    · exact ih _ k v hnd.2 hm'

theorem dsetAll_id : ∀ (en Y : List (String × Value)),
    (∀ kv ∈ en, dlookup kv.1 Y = some kv.2) → dsetAll Y en = Y := by
  intro en
  induction en with
  | nil => intro Y _; rfl
  | cons kv en' ih =>
    intro Y h
    obtain ⟨k, v⟩ := kv
    have he : dsetAll Y ((k, v) :: en') = dsetAll (dset1 Y (k, v)) en' := rfl
    rw [he, dset1_self Y k v (h (k, v) (List.mem_cons_self _ _))]
    exact ih Y (fun x hx => h x (List.mem_cons_of_mem _ hx))

/-- Merging the same distinct-keyed dict twice equals merging it once. -/
theorem dsetAll_idem (sc en : List (String × Value))
    (hnd : (en.map Prod.fst).Nodup) :
    dsetAll (dsetAll sc en) en = dsetAll sc en :=
  dsetAll_id en _ (fun kv hkv => dlookup_dsetAll_mem en sc kv.1 kv.2 hnd hkv)

/-- What holding the already-merged value of one attrs pair means for a `Node`: the field the key addresses equals (or, for `classes`/`scratch`, absorbs) the value. A payload of `False` marks a pair whose merge necessarily raises. -/
def NodeFieldEq (k : String) (v : Value) (n : Node) : Prop :=
  if k = "group" then
    (∃ s, v = Value.vStr s)
  else if k = "classes" then
    (match v with
    | Value.vStr s => n.classes = addClassesStr n.classes s
    | _ => False)
  else if k = "selected" then
    (match v with
    | Value.vBool b => n.selected = b
    | _ => False)
  else if k = "selectable" then
    (match v with
    | Value.vBool b => n.selectable = b
    | _ => False)
  else if k = "locked" then
    (match v with
    | Value.vBool b => n.locked = b
    | _ => False)
  else if k = "grabbable" then
    (match v with
    | Value.vBool b => n.grabbable = b
    | _ => False)
  else if k = "scratch" then
    (match v with
    | Value.vDict en => n.scratch = dsetAll n.scratch en
    | _ => False)
  else if k = "data" then
    (match v with
    | Value.vDict en => parseNodeData en = Except.ok n.data
    | _ => False)
  else if k = "position" then
    (match v with
    | Value.vDict en => parsePosition en = Except.ok n.position
    | _ => False)
  else if k = "pannable" then
    (match v with
    | Value.vBool b => n.pannable = b
    | _ => False)
  else if k = "id" then
    (match v with
    | Value.vStr s => n.data.id = s
    | _ => False)
  else if k = "parent" then
    (match v with
    | Value.vStr s => n.data.parent = s
    | _ => False)
  else if k = "label" then
    (match v with
    | Value.vStr s => n.data.label = s
    | _ => False)
  else if k = "x" then
    (match v with
    | Value.vFloat q => n.position.x = q
    | _ => False)
  else if k = "y" then
    (match v with
    | Value.vFloat q => n.position.y = q
    | _ => False)
  else True

/-- The `Edge` analogue of `NodeFieldEq` (no `position` sub-record). -/
def EdgeFieldEq (k : String) (v : Value) (e : Edge) : Prop :=
  if k = "group" then
    (∃ s, v = Value.vStr s)
  else if k = "classes" then
    (match v with
    | Value.vStr s => e.classes = addClassesStr e.classes s
    | _ => False)
  else if k = "selected" then
    (match v with
    | Value.vBool b => e.selected = b
    | _ => False)
  else if k = "selectable" then
    (match v with
    | Value.vBool b => e.selectable = b
    | _ => False)
  else if k = "locked" then
    (match v with
    | Value.vBool b => e.locked = b
    | _ => False)
  else if k = "grabbable" then
    (match v with
    | Value.vBool b => e.grabbable = b
    | _ => False)
  else if k = "scratch" then
    (match v with
    | Value.vDict en => e.scratch = dsetAll e.scratch en
    | _ => False)
  else if k = "data" then
    (match v with
    | Value.vDict en => parseEdgeData en = Except.ok e.data
    | _ => False)
  else if k = "pannable" then
    (match v with
    | Value.vBool b => e.pannable = b
    | _ => False)
  else if k = "id" then
    (match v with
    | Value.vStr s => e.data.id = s
    | _ => False)
  else if k = "source" then
    (match v with
    | Value.vStr s => e.data.source = s
    | _ => False)
  else if k = "target" then
    (match v with
    | Value.vStr s => e.data.target = s
    | _ => False)
  else if k = "label" then
    (match v with
    | Value.vStr s => e.data.label = s
    | _ => False)
  else if k = "source_label" then
    (match v with
    | Value.vStr s => e.data.source_label = s
    | _ => False)
  else if k = "target_label" then
    (match v with
    | Value.vStr s => e.data.target_label = s
    | _ => False)
  else True


theorem addAttr_node_ok (n n1 : Node) (k : String) (v : Value)
    (hc : k ≠ "classes") (h : Elem.addStep (.node n) k v = .ok (.node n1)) :
    Node.add_attribute n k v = .ok n1 := by
  unfold Elem.addStep at h
  rw [if_neg hc] at h
  replace h : (Node.add_attribute n k v).map Elem.node = .ok (.node n1) := h
  cases hm : Node.add_attribute n k v with
  | error u =>
    rw [hm] at h
    replace h : (Except.error u : Res Elem) = .ok (.node n1) := h
    cases h
  | ok n2 =>
    rw [hm] at h
    replace h : (Except.ok (Elem.node n2) : Res Elem) = .ok (.node n1) := h
    simp only [Except.ok.injEq, Elem.node.injEq] at h
    rw [← h]

theorem addAttr_edge_ok (ed ed1 : Edge) (k : String) (v : Value)
    (hc : k ≠ "classes") (h : Elem.addStep (.edge ed) k v = .ok (.edge ed1)) :
    Edge.add_attribute ed k v = .ok ed1 := by
  unfold Elem.addStep at h
  rw [if_neg hc] at h
  replace h : (Edge.add_attribute ed k v).map Elem.edge = .ok (.edge ed1) := h
  cases hm : Edge.add_attribute ed k v with
  | error u =>
    rw [hm] at h
    replace h : (Except.error u : Res Elem) = .ok (.edge ed1) := h
    cases h
  | ok ed2 =>
    rw [hm] at h
    replace h : (Except.ok (Elem.edge ed2) : Res Elem) = .ok (.edge ed1) := h
    simp only [Except.ok.injEq, Elem.edge.injEq] at h
    rw [← h]

theorem addStep_node_of_addAttr (n n1 : Node) (k : String) (v : Value)
    (hc : k ≠ "classes") (hm : Node.add_attribute n k v = .ok n1) :
    Elem.addStep (.node n) k v = .ok (.node n1) := by
  unfold Elem.addStep
  rw [if_neg hc]
  show (Node.add_attribute n k v).map Elem.node = .ok (.node n1)
  rw [hm]
  rfl

theorem addStep_edge_of_addAttr (ed ed1 : Edge) (k : String) (v : Value)
    (hc : k ≠ "classes") (hm : Edge.add_attribute ed k v = .ok ed1) :
    Elem.addStep (.edge ed) k v = .ok (.edge ed1) := by
  unfold Elem.addStep
  rw [if_neg hc]
  show (Edge.add_attribute ed k v).map Elem.edge = .ok (.edge ed1)
  rw [hm]
  rfl

theorem setFloat_bind {β : Type} (v : Value) (f : Rat → Res β) (b : β)
    (h : (setFloat v >>= f) = .ok b) : ∃ q, v = .vFloat q ∧ f q = .ok b := by
  cases v with
  | vFloat q => exact ⟨q, rfl, h⟩
  | vStr s =>
    replace h : (Except.error () : Res β) = .ok b := h
    cases h
  | vBool x =>
    replace h : (Except.error () : Res β) = .ok b := h
    cases h
  | vDict x =>
    replace h : (Except.error () : Res β) = .ok b := h
    cases h

/-- After a successful merge of one pair into a Node, the field the
key addresses satisfies its field equation. -/
theorem nodeAddAttr_fieldEq (n n1 : Node) (k : String) (v : Value)
    (hc : k ≠ "classes")
    (hscr : k = "scratch" → ∀ en, v = .vDict en → (en.map Prod.fst).Nodup)
    (h : Node.add_attribute n k v = .ok n1) : NodeFieldEq k v n1 := by
  unfold Node.add_attribute at h
  by_cases h1 : k = "group"
  · rw [if_pos h1] at h
    subst h1
    obtain ⟨s, hv, hf⟩ := setStr_bind v _ _ h
    subst hv
    exact ⟨s, rfl⟩
  · rw [if_neg h1] at h
    by_cases h2 : k = "classes"
    · exact absurd h2 hc
    · rw [if_neg h2] at h
      by_cases h3 : k = "selected"
      · rw [if_pos h3] at h
        subst h3
        obtain ⟨b, hv, hf⟩ := setBool_bind v _ _ h
        subst hv
        replace hf : (Except.ok { n with selected := b } : Res Node) = .ok n1 := hf
        simp only [Except.ok.injEq] at hf
        subst hf
        rfl
      · rw [if_neg h3] at h
        by_cases h4 : k = "selectable"
        · rw [if_pos h4] at h
          subst h4
          obtain ⟨b, hv, hf⟩ := setBool_bind v _ _ h
          subst hv
          replace hf : (Except.ok { n with selectable := b } : Res Node) = .ok n1 := hf
          simp only [Except.ok.injEq] at hf
          subst hf
          rfl
        · rw [if_neg h4] at h
          by_cases h5 : k = "locked"
          · rw [if_pos h5] at h
            subst h5
            obtain ⟨b, hv, hf⟩ := setBool_bind v _ _ h
            subst hv
            replace hf : (Except.ok { n with locked := b } : Res Node) = .ok n1 := hf
            simp only [Except.ok.injEq] at hf
            subst hf
            rfl
          · rw [if_neg h5] at h
            by_cases h6 : k = "grabbable"
            · rw [if_pos h6] at h
              subst h6
              obtain ⟨b, hv, hf⟩ := setBool_bind v _ _ h
              subst hv
              replace hf : (Except.ok { n with grabbable := b } : Res Node) = .ok n1 := hf
              simp only [Except.ok.injEq] at hf
              subst hf
              rfl
            · rw [if_neg h6] at h
              by_cases h7 : k = "scratch"
              · rw [if_pos h7] at h
                subst h7
                cases v with
                | vDict en =>
                  replace h : (Except.ok { n with scratch := dsetAll n.scratch en } : Res Node) = .ok n1 := h
                  simp only [Except.ok.injEq] at h
                  subst h
                  show dsetAll n.scratch en = dsetAll (dsetAll n.scratch en) en
                  exact (dsetAll_idem n.scratch en (hscr rfl en rfl)).symm
                | vStr s =>
                  replace h : (Except.error () : Res Node) = .ok n1 := h
                  cases h
                | vBool b =>
                  replace h : (Except.error () : Res Node) = .ok n1 := h
                  cases h
                | vFloat q =>
                  replace h : (Except.error () : Res Node) = .ok n1 := h
                  cases h
              · rw [if_neg h7] at h
                by_cases h8 : k = "data"
                · rw [if_pos h8] at h
                  subst h8
                  cases v with
                  | vDict en =>
                    replace h : (parseNodeData en >>= fun w => (Except.ok { n with data := w } : Res Node)) = .ok n1 := h
                    cases hd : parseNodeData en with
                    | error u =>
                      rw [hd] at h
                      replace h : (Except.error u : Res Node) = .ok n1 := h
                      cases h
                    | ok w =>
                      rw [hd, res_bind_ok] at h
                      replace h : (Except.ok { n with data := w } : Res Node) = .ok n1 := h
                      simp only [Except.ok.injEq] at h
                      subst h
                      show parseNodeData en = Except.ok w
                      exact hd
                  | vStr s =>
                    replace h : (Except.error () : Res Node) = .ok n1 := h
                    cases h
                  | vBool b =>
                    replace h : (Except.error () : Res Node) = .ok n1 := h
                    cases h
                  | vFloat q =>
                    replace h : (Except.error () : Res Node) = .ok n1 := h
                    cases h
                · rw [if_neg h8] at h
                  by_cases h9 : k = "position"
                  · rw [if_pos h9] at h
                    subst h9
                    cases v with
                    | vDict en =>
                      replace h : (parsePosition en >>= fun w => (Except.ok { n with position := w } : Res Node)) = .ok n1 := h
                      cases hd : parsePosition en with
                      | error u =>
                        rw [hd] at h
                        replace h : (Except.error u : Res Node) = .ok n1 := h
                        cases h
                      | ok w =>
                        rw [hd, res_bind_ok] at h
                        replace h : (Except.ok { n with position := w } : Res Node) = .ok n1 := h
                        simp only [Except.ok.injEq] at h
                        subst h
                        show parsePosition en = Except.ok w
                        exact hd
                    | vStr s =>
                      replace h : (Except.error () : Res Node) = .ok n1 := h
                      cases h
                    | vBool b =>
                      replace h : (Except.error () : Res Node) = .ok n1 := h
                      cases h
                    | vFloat q =>
                      replace h : (Except.error () : Res Node) = .ok n1 := h
                      cases h
                  · rw [if_neg h9] at h
                    by_cases h10 : k = "pannable"
                    · rw [if_pos h10] at h
                      subst h10
                      obtain ⟨b, hv, hf⟩ := setBool_bind v _ _ h
                      subst hv
                      replace hf : (Except.ok { n with pannable := b } : Res Node) = .ok n1 := hf
                      simp only [Except.ok.injEq] at hf
                      subst hf
                      rfl
                    · rw [if_neg h10] at h
                      cases hd : NodeData.add_attribute n.data k v with
                      | error u =>
                        rw [hd] at h
                        replace h : (Except.error u : Res Node) = .ok n1 := h
                        cases h
                      | ok d1 =>
                        rw [hd, res_bind_ok] at h
                        cases hp : Position.add_attribute n.position k v with
                        | error u =>
                          rw [hp] at h
                          replace h : (Except.error u : Res Node) = .ok n1 := h
                          cases h
                        | ok p1 =>
                          rw [hp, res_bind_ok] at h
                          replace h : (Except.ok { n with data := d1, position := p1 } : Res Node) = .ok n1 := h
                          simp only [Except.ok.injEq] at h
                          subst h
                          by_cases h11 : k = "id"
                          · subst h11
                            unfold NodeData.add_attribute at hd
                            rw [if_pos rfl] at hd
                            obtain ⟨s, hv, hf⟩ := setStr_bind v _ _ hd
                            subst hv
                            replace hf : (Except.ok { n.data with id := s } : Res NodeData) = .ok d1 := hf
                            simp only [Except.ok.injEq] at hf
                            subst hf
                            rfl
                          ·
                            by_cases h12 : k = "parent"
                            · subst h12
                              unfold NodeData.add_attribute at hd
                              rw [if_neg (by decide : ¬("parent" = "id")), if_pos rfl] at hd
                              obtain ⟨s, hv, hf⟩ := setStr_bind v _ _ hd
                              subst hv
                              replace hf : (Except.ok { n.data with parent := s } : Res NodeData) = .ok d1 := hf
                              simp only [Except.ok.injEq] at hf
                              subst hf
                              rfl
                            ·
                              by_cases h13 : k = "label"
                              · subst h13
                                unfold NodeData.add_attribute at hd
                                rw [if_neg (by decide : ¬("label" = "id")), if_neg (by decide : ¬("label" = "parent")), if_pos rfl] at hd
                                obtain ⟨s, hv, hf⟩ := setStr_bind v _ _ hd
                                subst hv
                                replace hf : (Except.ok { n.data with label := s } : Res NodeData) = .ok d1 := hf
                                simp only [Except.ok.injEq] at hf
                                subst hf
                                rfl
                              ·
                                by_cases h14 : k = "x"
                                · subst h14
                                  replace hd : (Except.ok n.data : Res NodeData) = .ok d1 := hd
                                  simp only [Except.ok.injEq] at hd
                                  subst hd
                                  unfold Position.add_attribute at hp
                                  rw [if_pos rfl] at hp
                                  obtain ⟨q, hv, hf⟩ := setFloat_bind v _ _ hp
                                  subst hv
                                  replace hf : (Except.ok { n.position with x := q } : Res Position) = .ok p1 := hf
                                  simp only [Except.ok.injEq] at hf
                                  subst hf
                                  rfl
                                ·
                                  by_cases h15 : k = "y"
                                  · subst h15
                                    replace hd : (Except.ok n.data : Res NodeData) = .ok d1 := hd
                                    simp only [Except.ok.injEq] at hd
                                    subst hd
                                    unfold Position.add_attribute at hp
                                    rw [if_neg (by decide : ¬("y" = "x")), if_pos rfl] at hp
                                    obtain ⟨q, hv, hf⟩ := setFloat_bind v _ _ hp
                                    subst hv
                                    replace hf : (Except.ok { n.position with y := q } : Res Position) = .ok p1 := hf
                                    simp only [Except.ok.injEq] at hf
                                    subst hf
                                    rfl
                                  ·
                                    simp only [NodeFieldEq, if_neg h1, if_neg h2, if_neg h3, if_neg h4, if_neg h5, if_neg h6, if_neg h7, if_neg h8, if_neg h9, if_neg h10, if_neg h11, if_neg h12, if_neg h13, if_neg h14, if_neg h15]

/-- After a successful merge of one pair into an Edge, the field the
key addresses satisfies its field equation. -/
theorem edgeAddAttr_fieldEq (e e1 : Edge) (k : String) (v : Value)
    (hc : k ≠ "classes")
    (hscr : k = "scratch" → ∀ en, v = .vDict en → (en.map Prod.fst).Nodup)
    (h : Edge.add_attribute e k v = .ok e1) : EdgeFieldEq k v e1 := by
  unfold Edge.add_attribute at h
  by_cases h1 : k = "group"
  · rw [if_pos h1] at h
    subst h1
    obtain ⟨s, hv, hf⟩ := setStr_bind v _ _ h
    subst hv
    exact ⟨s, rfl⟩
  · rw [if_neg h1] at h
    by_cases h2 : k = "classes"
    · exact absurd h2 hc
    · rw [if_neg h2] at h
      by_cases h3 : k = "selected"
      · rw [if_pos h3] at h
        subst h3
        obtain ⟨b, hv, hf⟩ := setBool_bind v _ _ h
        subst hv
        replace hf : (Except.ok { e with selected := b } : Res Edge) = .ok e1 := hf
        simp only [Except.ok.injEq] at hf
        subst hf
        rfl
      · rw [if_neg h3] at h
        by_cases h4 : k = "selectable"
        · rw [if_pos h4] at h
          subst h4
          obtain ⟨b, hv, hf⟩ := setBool_bind v _ _ h
          subst hv
          replace hf : (Except.ok { e with selectable := b } : Res Edge) = .ok e1 := hf
          simp only [Except.ok.injEq] at hf
          subst hf
          rfl
        · rw [if_neg h4] at h
          by_cases h5 : k = "locked"
          · rw [if_pos h5] at h
            subst h5
            obtain ⟨b, hv, hf⟩ := setBool_bind v _ _ h
            subst hv
            replace hf : (Except.ok { e with locked := b } : Res Edge) = .ok e1 := hf
            simp only [Except.ok.injEq] at hf
            subst hf
            rfl
          · rw [if_neg h5] at h
            by_cases h6 : k = "grabbable"
            · rw [if_pos h6] at h
              subst h6
              obtain ⟨b, hv, hf⟩ := setBool_bind v _ _ h
              subst hv
              replace hf : (Except.ok { e with grabbable := b } : Res Edge) = .ok e1 := hf
              simp only [Except.ok.injEq] at hf
              subst hf
              rfl
            · rw [if_neg h6] at h
              by_cases h7 : k = "scratch"
              · rw [if_pos h7] at h
                subst h7
                cases v with
                | vDict en =>
                  replace h : (Except.ok { e with scratch := dsetAll e.scratch en } : Res Edge) = .ok e1 := h
                  simp only [Except.ok.injEq] at h
                  subst h
                  show dsetAll e.scratch en = dsetAll (dsetAll e.scratch en) en
                  exact (dsetAll_idem e.scratch en (hscr rfl en rfl)).symm
                | vStr s =>
                  replace h : (Except.error () : Res Edge) = .ok e1 := h
                  cases h
                | vBool b =>
                  replace h : (Except.error () : Res Edge) = .ok e1 := h
                  cases h
                | vFloat q =>
                  replace h : (Except.error () : Res Edge) = .ok e1 := h
                  cases h
              · rw [if_neg h7] at h
                by_cases h8 : k = "data"
                · rw [if_pos h8] at h
                  subst h8
                  cases v with
                  | vDict en =>
                    replace h : (parseEdgeData en >>= fun w => (Except.ok { e with data := w } : Res Edge)) = .ok e1 := h
                    cases hd : parseEdgeData en with
                    | error u =>
                      rw [hd] at h
                      replace h : (Except.error u : Res Edge) = .ok e1 := h
                      cases h
                    | ok w =>
                      rw [hd, res_bind_ok] at h
                      replace h : (Except.ok { e with data := w } : Res Edge) = .ok e1 := h
                      simp only [Except.ok.injEq] at h
                      subst h
                      show parseEdgeData en = Except.ok w
                      exact hd
                  | vStr s =>
                    replace h : (Except.error () : Res Edge) = .ok e1 := h
                    cases h
                  | vBool b =>
                    replace h : (Except.error () : Res Edge) = .ok e1 := h
                    cases h
                  | vFloat q =>
                    replace h : (Except.error () : Res Edge) = .ok e1 := h
                    cases h
                · rw [if_neg h8] at h
                  by_cases h9 : k = "pannable"
                  · rw [if_pos h9] at h
                    subst h9
                    obtain ⟨b, hv, hf⟩ := setBool_bind v _ _ h
                    subst hv
                    replace hf : (Except.ok { e with pannable := b } : Res Edge) = .ok e1 := hf
                    simp only [Except.ok.injEq] at hf
                    subst hf
                    rfl
                  · rw [if_neg h9] at h
                    cases hd : EdgeData.add_attribute e.data k v with
                    | error u =>
                      rw [hd] at h
                      replace h : (Except.error u : Res Edge) = .ok e1 := h
                      cases h
                    | ok d1 =>
                      rw [hd, res_bind_ok] at h
                      replace h : (Except.ok { e with data := d1 } : Res Edge) = .ok e1 := h
                      simp only [Except.ok.injEq] at h
                      subst h
                      by_cases h10 : k = "id"
                      · subst h10
                        unfold EdgeData.add_attribute at hd
                        rw [if_pos rfl] at hd
                        obtain ⟨s, hv, hf⟩ := setStr_bind v _ _ hd
                        subst hv
                        replace hf : (Except.ok { e.data with id := s } : Res EdgeData) = .ok d1 := hf
                        simp only [Except.ok.injEq] at hf
                        subst hf
                        rfl
                      ·
                        by_cases h11 : k = "source"
                        · subst h11
                          unfold EdgeData.add_attribute at hd
                          rw [if_neg (by decide : ¬("source" = "id")), if_pos rfl] at hd
                          obtain ⟨s, hv, hf⟩ := setStr_bind v _ _ hd
                          subst hv
                          replace hf : (Except.ok { e.data with source := s } : Res EdgeData) = .ok d1 := hf
                          simp only [Except.ok.injEq] at hf
                          subst hf
                          rfl
                        ·
                          by_cases h12 : k = "target"
                          · subst h12
                            unfold EdgeData.add_attribute at hd
                            rw [if_neg (by decide : ¬("target" = "id")), if_neg (by decide : ¬("target" = "source")), if_pos rfl] at hd
                            obtain ⟨s, hv, hf⟩ := setStr_bind v _ _ hd
                            subst hv
                            replace hf : (Except.ok { e.data with target := s } : Res EdgeData) = .ok d1 := hf
                            simp only [Except.ok.injEq] at hf
                            subst hf
                            rfl
                          ·
                            by_cases h13 : k = "label"
                            · subst h13
                              unfold EdgeData.add_attribute at hd
                              rw [if_neg (by decide : ¬("label" = "id")), if_neg (by decide : ¬("label" = "source")), if_neg (by decide : ¬("label" = "target")), if_pos rfl] at hd
                              obtain ⟨s, hv, hf⟩ := setStr_bind v _ _ hd
                              subst hv
                              replace hf : (Except.ok { e.data with label := s } : Res EdgeData) = .ok d1 := hf
                              simp only [Except.ok.injEq] at hf
                              subst hf
                              rfl
                            ·
                              by_cases h14 : k = "source_label"
                              · subst h14
                                unfold EdgeData.add_attribute at hd
                                rw [if_neg (by decide : ¬("source_label" = "id")), if_neg (by decide : ¬("source_label" = "source")), if_neg (by decide : ¬("source_label" = "target")), if_neg (by decide : ¬("source_label" = "label")), if_pos rfl] at hd
                                obtain ⟨s, hv, hf⟩ := setStr_bind v _ _ hd
                                subst hv
                                replace hf : (Except.ok { e.data with source_label := s } : Res EdgeData) = .ok d1 := hf
                                simp only [Except.ok.injEq] at hf
                                subst hf
                                rfl
                              ·
                                by_cases h15 : k = "target_label"
                                · subst h15
                                  unfold EdgeData.add_attribute at hd
                                  rw [if_neg (by decide : ¬("target_label" = "id")), if_neg (by decide : ¬("target_label" = "source")), if_neg (by decide : ¬("target_label" = "target")), if_neg (by decide : ¬("target_label" = "label")), if_neg (by decide : ¬("target_label" = "source_label")), if_pos rfl] at hd
                                  obtain ⟨s, hv, hf⟩ := setStr_bind v _ _ hd
                                  subst hv
                                  replace hf : (Except.ok { e.data with target_label := s } : Res EdgeData) = .ok d1 := hf
                                  simp only [Except.ok.injEq] at hf
                                  subst hf
                                  rfl
                                ·
                                  simp only [EdgeFieldEq, if_neg h1, if_neg h2, if_neg h3, if_neg h4, if_neg h5, if_neg h6, if_neg h7, if_neg h8, if_neg h9, if_neg h10, if_neg h11, if_neg h12, if_neg h13, if_neg h14, if_neg h15]

/-- Which Node fields one `add_attribute` call can touch: only the
field its key addresses (via `data`/`position` for their keys). -/
theorem nodeAddAttr_frame (n n1 : Node) (k2 : String) (v2 : Value)
    (h : Node.add_attribute n k2 v2 = .ok n1) :
    (k2 ≠ "classes" → n1.classes = n.classes) ∧
    (k2 ≠ "selected" → n1.selected = n.selected) ∧
    (k2 ≠ "selectable" → n1.selectable = n.selectable) ∧
    (k2 ≠ "locked" → n1.locked = n.locked) ∧
    (k2 ≠ "grabbable" → n1.grabbable = n.grabbable) ∧
    (k2 ≠ "pannable" → n1.pannable = n.pannable) ∧
    (k2 ≠ "scratch" → n1.scratch = n.scratch) ∧
    (k2 ≠ "data" → k2 ≠ "id" → n1.data.id = n.data.id) ∧
    (k2 ≠ "data" → k2 ≠ "parent" → n1.data.parent = n.data.parent) ∧
    (k2 ≠ "data" → k2 ≠ "label" → n1.data.label = n.data.label) ∧
    (k2 ≠ "position" → k2 ≠ "x" → n1.position.x = n.position.x) ∧
    (k2 ≠ "position" → k2 ≠ "y" → n1.position.y = n.position.y) := by
  unfold Node.add_attribute at h
  by_cases h1 : k2 = "group"
  · rw [if_pos h1] at h
    subst h1
    obtain ⟨s, hv, hf⟩ := setStr_bind v2 _ _ h
    replace hf : (Except.ok n : Res Node) = .ok n1 := hf
    simp only [Except.ok.injEq] at hf
    subst hf
    exact ⟨fun _ => rfl, fun _ => rfl, fun _ => rfl, fun _ => rfl, fun _ => rfl, fun _ => rfl, fun _ => rfl, fun _ _ => rfl, fun _ _ => rfl, fun _ _ => rfl, fun _ _ => rfl, fun _ _ => rfl⟩
  · rw [if_neg h1] at h
    by_cases h2 : k2 = "classes"
    · rw [if_pos h2] at h
      subst h2
      obtain ⟨s, hv, hf⟩ := setStr_bind v2 _ _ h
      replace hf : (Except.ok { n with classes := s } : Res Node) = .ok n1 := hf
      simp only [Except.ok.injEq] at hf
      subst hf
      exact ⟨fun hne => absurd rfl hne, fun _ => rfl, fun _ => rfl, fun _ => rfl, fun _ => rfl, fun _ => rfl, fun _ => rfl, fun _ _ => rfl, fun _ _ => rfl, fun _ _ => rfl, fun _ _ => rfl, fun _ _ => rfl⟩
    · rw [if_neg h2] at h
      by_cases h3 : k2 = "selected"
      · rw [if_pos h3] at h
        subst h3
        obtain ⟨b, hv, hf⟩ := setBool_bind v2 _ _ h
        replace hf : (Except.ok { n with selected := b } : Res Node) = .ok n1 := hf
        simp only [Except.ok.injEq] at hf
        subst hf
        exact ⟨fun _ => rfl, fun hne => absurd rfl hne, fun _ => rfl, fun _ => rfl, fun _ => rfl, fun _ => rfl, fun _ => rfl, fun _ _ => rfl, fun _ _ => rfl, fun _ _ => rfl, fun _ _ => rfl, fun _ _ => rfl⟩
      · rw [if_neg h3] at h
        by_cases h4 : k2 = "selectable"
        · rw [if_pos h4] at h
          subst h4
          obtain ⟨b, hv, hf⟩ := setBool_bind v2 _ _ h
          replace hf : (Except.ok { n with selectable := b } : Res Node) = .ok n1 := hf
          simp only [Except.ok.injEq] at hf
          subst hf
          exact ⟨fun _ => rfl, fun _ => rfl, fun hne => absurd rfl hne, fun _ => rfl, fun _ => rfl, fun _ => rfl, fun _ => rfl, fun _ _ => rfl, fun _ _ => rfl, fun _ _ => rfl, fun _ _ => rfl, fun _ _ => rfl⟩
        · rw [if_neg h4] at h
          by_cases h5 : k2 = "locked"
          · rw [if_pos h5] at h
            subst h5
            obtain ⟨b, hv, hf⟩ := setBool_bind v2 _ _ h
            replace hf : (Except.ok { n with locked := b } : Res Node) = .ok n1 := hf
            simp only [Except.ok.injEq] at hf
            subst hf
            exact ⟨fun _ => rfl, fun _ => rfl, fun _ => rfl, fun hne => absurd rfl hne, fun _ => rfl, fun _ => rfl, fun _ => rfl, fun _ _ => rfl, fun _ _ => rfl, fun _ _ => rfl, fun _ _ => rfl, fun _ _ => rfl⟩
          · rw [if_neg h5] at h
            by_cases h6 : k2 = "grabbable"
            · rw [if_pos h6] at h
              subst h6
              obtain ⟨b, hv, hf⟩ := setBool_bind v2 _ _ h
              replace hf : (Except.ok { n with grabbable := b } : Res Node) = .ok n1 := hf
              simp only [Except.ok.injEq] at hf
              subst hf
              exact ⟨fun _ => rfl, fun _ => rfl, fun _ => rfl, fun _ => rfl, fun hne => absurd rfl hne, fun _ => rfl, fun _ => rfl, fun _ _ => rfl, fun _ _ => rfl, fun _ _ => rfl, fun _ _ => rfl, fun _ _ => rfl⟩
            · rw [if_neg h6] at h
              by_cases h7 : k2 = "scratch"
              · rw [if_pos h7] at h
                subst h7
                cases v2 with
                | vDict en =>
                  replace h : (Except.ok { n with scratch := dsetAll n.scratch en } : Res Node) = .ok n1 := h
                  simp only [Except.ok.injEq] at h
                  subst h
                  exact ⟨fun _ => rfl, fun _ => rfl, fun _ => rfl, fun _ => rfl, fun _ => rfl, fun _ => rfl, fun hne => absurd rfl hne, fun _ _ => rfl, fun _ _ => rfl, fun _ _ => rfl, fun _ _ => rfl, fun _ _ => rfl⟩
                | vStr s =>
                  replace h : (Except.error () : Res Node) = .ok n1 := h
                  cases h
                | vBool b =>
                  replace h : (Except.error () : Res Node) = .ok n1 := h
                  cases h
                | vFloat q =>
                  replace h : (Except.error () : Res Node) = .ok n1 := h
                  cases h
              · rw [if_neg h7] at h
                by_cases h8 : k2 = "data"
                · rw [if_pos h8] at h
                  subst h8
                  cases v2 with
                  | vDict en =>
                    replace h : (parseNodeData en >>= fun w => (Except.ok { n with data := w } : Res Node)) = .ok n1 := h
                    cases hd : parseNodeData en with
                    | error u =>
                      rw [hd] at h
                      replace h : (Except.error u : Res Node) = .ok n1 := h
                      cases h
                    | ok w =>
                      rw [hd, res_bind_ok] at h
                      replace h : (Except.ok { n with data := w } : Res Node) = .ok n1 := h
                      simp only [Except.ok.injEq] at h
                      subst h
                      exact ⟨fun _ => rfl, fun _ => rfl, fun _ => rfl, fun _ => rfl, fun _ => rfl, fun _ => rfl, fun _ => rfl, fun hdne _ => absurd rfl hdne, fun hdne _ => absurd rfl hdne, fun hdne _ => absurd rfl hdne, fun _ _ => rfl, fun _ _ => rfl⟩
                  | vStr s =>
                    replace h : (Except.error () : Res Node) = .ok n1 := h
                    cases h
                  | vBool b =>
                    replace h : (Except.error () : Res Node) = .ok n1 := h
                    cases h
                  | vFloat q =>
                    replace h : (Except.error () : Res Node) = .ok n1 := h
                    cases h
                · rw [if_neg h8] at h
                  by_cases h9 : k2 = "position"
                  · rw [if_pos h9] at h
                    subst h9
                    cases v2 with
                    | vDict en =>
                      replace h : (parsePosition en >>= fun w => (Except.ok { n with position := w } : Res Node)) = .ok n1 := h
                      cases hd : parsePosition en with
                      | error u =>
                        rw [hd] at h
                        replace h : (Except.error u : Res Node) = .ok n1 := h
                        cases h
                      | ok w =>
                        rw [hd, res_bind_ok] at h
                        replace h : (Except.ok { n with position := w } : Res Node) = .ok n1 := h
                        simp only [Except.ok.injEq] at h
                        subst h
                        exact ⟨fun _ => rfl, fun _ => rfl, fun _ => rfl, fun _ => rfl, fun _ => rfl, fun _ => rfl, fun _ => rfl, fun _ _ => rfl, fun _ _ => rfl, fun _ _ => rfl, fun hdne _ => absurd rfl hdne, fun hdne _ => absurd rfl hdne⟩
                    | vStr s =>
                      replace h : (Except.error () : Res Node) = .ok n1 := h
                      cases h
                    | vBool b =>
                      replace h : (Except.error () : Res Node) = .ok n1 := h
                      cases h
                    | vFloat q =>
                      replace h : (Except.error () : Res Node) = .ok n1 := h
                      cases h
                  · rw [if_neg h9] at h
                    by_cases h10 : k2 = "pannable"
                    · rw [if_pos h10] at h
                      subst h10
                      obtain ⟨b, hv, hf⟩ := setBool_bind v2 _ _ h
                      replace hf : (Except.ok { n with pannable := b } : Res Node) = .ok n1 := hf
                      simp only [Except.ok.injEq] at hf
                      subst hf
                      exact ⟨fun _ => rfl, fun _ => rfl, fun _ => rfl, fun _ => rfl, fun _ => rfl, fun hne => absurd rfl hne, fun _ => rfl, fun _ _ => rfl, fun _ _ => rfl, fun _ _ => rfl, fun _ _ => rfl, fun _ _ => rfl⟩
                    · rw [if_neg h10] at h
                      cases hd : NodeData.add_attribute n.data k2 v2 with
                      | error u =>
                        rw [hd] at h
                        replace h : (Except.error u : Res Node) = .ok n1 := h
                        cases h
                      | ok d1 =>
                        rw [hd, res_bind_ok] at h
                        cases hp : Position.add_attribute n.position k2 v2 with
                        | error u =>
                          rw [hp] at h
                          replace h : (Except.error u : Res Node) = .ok n1 := h
                          cases h
                        | ok p1 =>
                          rw [hp, res_bind_ok] at h
                          replace h : (Except.ok { n with data := d1, position := p1 } : Res Node) = .ok n1 := h
                          simp only [Except.ok.injEq] at h
                          subst h
                          by_cases h11 : k2 = "id"
                          · subst h11
                            replace hp : (Except.ok n.position : Res Position) = .ok p1 := hp
                            simp only [Except.ok.injEq] at hp
                            subst hp
                            unfold NodeData.add_attribute at hd
                            rw [if_pos rfl] at hd
                            obtain ⟨s, hv, hf⟩ := setStr_bind v2 _ _ hd
                            replace hf : (Except.ok { n.data with id := s } : Res NodeData) = .ok d1 := hf
                            simp only [Except.ok.injEq] at hf
                            subst hf
                            exact ⟨fun _ => rfl, fun _ => rfl, fun _ => rfl, fun _ => rfl, fun _ => rfl, fun _ => rfl, fun _ => rfl, fun _ hne => absurd rfl hne, fun _ _ => rfl, fun _ _ => rfl, fun _ _ => rfl, fun _ _ => rfl⟩
                          ·
                            by_cases h12 : k2 = "parent"
                            · subst h12
                              replace hp : (Except.ok n.position : Res Position) = .ok p1 := hp
                              simp only [Except.ok.injEq] at hp
                              subst hp
                              unfold NodeData.add_attribute at hd
                              rw [if_neg (by decide : ¬("parent" = "id")), if_pos rfl] at hd
                              obtain ⟨s, hv, hf⟩ := setStr_bind v2 _ _ hd
                              replace hf : (Except.ok { n.data with parent := s } : Res NodeData) = .ok d1 := hf
                              simp only [Except.ok.injEq] at hf
                              subst hf
                              exact ⟨fun _ => rfl, fun _ => rfl, fun _ => rfl, fun _ => rfl, fun _ => rfl, fun _ => rfl, fun _ => rfl, fun _ _ => rfl, fun _ hne => absurd rfl hne, fun _ _ => rfl, fun _ _ => rfl, fun _ _ => rfl⟩
                            ·
                              by_cases h13 : k2 = "label"
                              · subst h13
                                replace hp : (Except.ok n.position : Res Position) = .ok p1 := hp
                                simp only [Except.ok.injEq] at hp
                                subst hp
                                unfold NodeData.add_attribute at hd
                                rw [if_neg (by decide : ¬("label" = "id")), if_neg (by decide : ¬("label" = "parent")), if_pos rfl] at hd
                                obtain ⟨s, hv, hf⟩ := setStr_bind v2 _ _ hd
                                replace hf : (Except.ok { n.data with label := s } : Res NodeData) = .ok d1 := hf
                                simp only [Except.ok.injEq] at hf
                                subst hf
                                exact ⟨fun _ => rfl, fun _ => rfl, fun _ => rfl, fun _ => rfl, fun _ => rfl, fun _ => rfl, fun _ => rfl, fun _ _ => rfl, fun _ _ => rfl, fun _ hne => absurd rfl hne, fun _ _ => rfl, fun _ _ => rfl⟩
                              ·
                                by_cases h14 : k2 = "x"
                                · subst h14
                                  replace hd : (Except.ok n.data : Res NodeData) = .ok d1 := hd
                                  simp only [Except.ok.injEq] at hd
                                  subst hd
                                  unfold Position.add_attribute at hp
                                  rw [if_pos rfl] at hp
                                  obtain ⟨q, hv, hf⟩ := setFloat_bind v2 _ _ hp
                                  replace hf : (Except.ok { n.position with x := q } : Res Position) = .ok p1 := hf
                                  simp only [Except.ok.injEq] at hf
                                  subst hf
                                  exact ⟨fun _ => rfl, fun _ => rfl, fun _ => rfl, fun _ => rfl, fun _ => rfl, fun _ => rfl, fun _ => rfl, fun _ _ => rfl, fun _ _ => rfl, fun _ _ => rfl, fun _ hne => absurd rfl hne, fun _ _ => rfl⟩
                                ·
                                  by_cases h15 : k2 = "y"
                                  · subst h15
                                    replace hd : (Except.ok n.data : Res NodeData) = .ok d1 := hd
                                    simp only [Except.ok.injEq] at hd
                                    subst hd
                                    unfold Position.add_attribute at hp
                                    rw [if_neg (by decide : ¬("y" = "x")), if_pos rfl] at hp
                                    obtain ⟨q, hv, hf⟩ := setFloat_bind v2 _ _ hp
                                    replace hf : (Except.ok { n.position with y := q } : Res Position) = .ok p1 := hf
                                    simp only [Except.ok.injEq] at hf
                                    subst hf
                                    exact ⟨fun _ => rfl, fun _ => rfl, fun _ => rfl, fun _ => rfl, fun _ => rfl, fun _ => rfl, fun _ => rfl, fun _ _ => rfl, fun _ _ => rfl, fun _ _ => rfl, fun _ _ => rfl, fun _ hne => absurd rfl hne⟩
                                  ·
                                    unfold NodeData.add_attribute at hd
                                    rw [if_neg h11, if_neg h12, if_neg h13] at hd
                                    replace hd : (Except.ok n.data : Res NodeData) = .ok d1 := hd
                                    simp only [Except.ok.injEq] at hd
                                    subst hd
                                    unfold Position.add_attribute at hp
                                    rw [if_neg h14, if_neg h15] at hp
                                    replace hp : (Except.ok n.position : Res Position) = .ok p1 := hp
                                    simp only [Except.ok.injEq] at hp
                                    subst hp
                                    exact ⟨fun _ => rfl, fun _ => rfl, fun _ => rfl, fun _ => rfl, fun _ => rfl, fun _ => rfl, fun _ => rfl, fun _ _ => rfl, fun _ _ => rfl, fun _ _ => rfl, fun _ _ => rfl, fun _ _ => rfl⟩

/-- Which Edge fields one `add_attribute` call can touch. -/
theorem edgeAddAttr_frame (e e1 : Edge) (k2 : String) (v2 : Value)
    (h : Edge.add_attribute e k2 v2 = .ok e1) :
    (k2 ≠ "classes" → e1.classes = e.classes) ∧
    (k2 ≠ "selected" → e1.selected = e.selected) ∧
    (k2 ≠ "selectable" → e1.selectable = e.selectable) ∧
    (k2 ≠ "locked" → e1.locked = e.locked) ∧
    (k2 ≠ "grabbable" → e1.grabbable = e.grabbable) ∧
    (k2 ≠ "pannable" → e1.pannable = e.pannable) ∧
    (k2 ≠ "scratch" → e1.scratch = e.scratch) ∧
    (k2 ≠ "data" → k2 ≠ "id" → e1.data.id = e.data.id) ∧
    (k2 ≠ "data" → k2 ≠ "source" → e1.data.source = e.data.source) ∧
    (k2 ≠ "data" → k2 ≠ "target" → e1.data.target = e.data.target) ∧
    (k2 ≠ "data" → k2 ≠ "label" → e1.data.label = e.data.label) ∧
    (k2 ≠ "data" → k2 ≠ "source_label" → e1.data.source_label = e.data.source_label) ∧
    (k2 ≠ "data" → k2 ≠ "target_label" → e1.data.target_label = e.data.target_label) := by
  unfold Edge.add_attribute at h
  by_cases h1 : k2 = "group"
  · rw [if_pos h1] at h
    subst h1
    obtain ⟨s, hv, hf⟩ := setStr_bind v2 _ _ h
    replace hf : (Except.ok e : Res Edge) = .ok e1 := hf
    simp only [Except.ok.injEq] at hf
    subst hf
    exact ⟨fun _ => rfl, fun _ => rfl, fun _ => rfl, fun _ => rfl, fun _ => rfl, fun _ => rfl, fun _ => rfl, fun _ _ => rfl, fun _ _ => rfl, fun _ _ => rfl, fun _ _ => rfl, fun _ _ => rfl, fun _ _ => rfl⟩
  · rw [if_neg h1] at h
    by_cases h2 : k2 = "classes"
    · rw [if_pos h2] at h
      subst h2
      obtain ⟨s, hv, hf⟩ := setStr_bind v2 _ _ h
      replace hf : (Except.ok { e with classes := s } : Res Edge) = .ok e1 := hf
      simp only [Except.ok.injEq] at hf
      subst hf
      exact ⟨fun hne => absurd rfl hne, fun _ => rfl, fun _ => rfl, fun _ => rfl, fun _ => rfl, fun _ => rfl, fun _ => rfl, fun _ _ => rfl, fun _ _ => rfl, fun _ _ => rfl, fun _ _ => rfl, fun _ _ => rfl, fun _ _ => rfl⟩
    · rw [if_neg h2] at h
      by_cases h3 : k2 = "selected"
      · rw [if_pos h3] at h
        subst h3
        obtain ⟨b, hv, hf⟩ := setBool_bind v2 _ _ h
        replace hf : (Except.ok { e with selected := b } : Res Edge) = .ok e1 := hf
        simp only [Except.ok.injEq] at hf
        subst hf
        exact ⟨fun _ => rfl, fun hne => absurd rfl hne, fun _ => rfl, fun _ => rfl, fun _ => rfl, fun _ => rfl, fun _ => rfl, fun _ _ => rfl, fun _ _ => rfl, fun _ _ => rfl, fun _ _ => rfl, fun _ _ => rfl, fun _ _ => rfl⟩
      · rw [if_neg h3] at h
        by_cases h4 : k2 = "selectable"
        · rw [if_pos h4] at h
          subst h4
          obtain ⟨b, hv, hf⟩ := setBool_bind v2 _ _ h
          replace hf : (Except.ok { e with selectable := b } : Res Edge) = .ok e1 := hf
          simp only [Except.ok.injEq] at hf
          subst hf
          exact ⟨fun _ => rfl, fun _ => rfl, fun hne => absurd rfl hne, fun _ => rfl, fun _ => rfl, fun _ => rfl, fun _ => rfl, fun _ _ => rfl, fun _ _ => rfl, fun _ _ => rfl, fun _ _ => rfl, fun _ _ => rfl, fun _ _ => rfl⟩
        · rw [if_neg h4] at h
          by_cases h5 : k2 = "locked"
          · rw [if_pos h5] at h
            subst h5
            obtain ⟨b, hv, hf⟩ := setBool_bind v2 _ _ h
            replace hf : (Except.ok { e with locked := b } : Res Edge) = .ok e1 := hf
            simp only [Except.ok.injEq] at hf
            subst hf
            exact ⟨fun _ => rfl, fun _ => rfl, fun _ => rfl, fun hne => absurd rfl hne, fun _ => rfl, fun _ => rfl, fun _ => rfl, fun _ _ => rfl, fun _ _ => rfl, fun _ _ => rfl, fun _ _ => rfl, fun _ _ => rfl, fun _ _ => rfl⟩
          · rw [if_neg h5] at h
            by_cases h6 : k2 = "grabbable"
            · rw [if_pos h6] at h
              subst h6
              obtain ⟨b, hv, hf⟩ := setBool_bind v2 _ _ h
              replace hf : (Except.ok { e with grabbable := b } : Res Edge) = .ok e1 := hf
              simp only [Except.ok.injEq] at hf
              subst hf
              exact ⟨fun _ => rfl, fun _ => rfl, fun _ => rfl, fun _ => rfl, fun hne => absurd rfl hne, fun _ => rfl, fun _ => rfl, fun _ _ => rfl, fun _ _ => rfl, fun _ _ => rfl, fun _ _ => rfl, fun _ _ => rfl, fun _ _ => rfl⟩
            · rw [if_neg h6] at h
              by_cases h7 : k2 = "scratch"
              · rw [if_pos h7] at h
                subst h7
                cases v2 with
                | vDict en =>
                  replace h : (Except.ok { e with scratch := dsetAll e.scratch en } : Res Edge) = .ok e1 := h
                  simp only [Except.ok.injEq] at h
                  subst h
                  exact ⟨fun _ => rfl, fun _ => rfl, fun _ => rfl, fun _ => rfl, fun _ => rfl, fun _ => rfl, fun hne => absurd rfl hne, fun _ _ => rfl, fun _ _ => rfl, fun _ _ => rfl, fun _ _ => rfl, fun _ _ => rfl, fun _ _ => rfl⟩
                | vStr s =>
                  replace h : (Except.error () : Res Edge) = .ok e1 := h
                  cases h
                | vBool b =>
                  replace h : (Except.error () : Res Edge) = .ok e1 := h
                  cases h
                | vFloat q =>
                  replace h : (Except.error () : Res Edge) = .ok e1 := h
                  cases h
              · rw [if_neg h7] at h
                by_cases h8 : k2 = "data"
                · rw [if_pos h8] at h
                  subst h8
                  cases v2 with
                  | vDict en =>
                    replace h : (parseEdgeData en >>= fun w => (Except.ok { e with data := w } : Res Edge)) = .ok e1 := h
                    cases hd : parseEdgeData en with
                    | error u =>
                      rw [hd] at h
                      replace h : (Except.error u : Res Edge) = .ok e1 := h
                      cases h
                    | ok w =>
                      rw [hd, res_bind_ok] at h
                      replace h : (Except.ok { e with data := w } : Res Edge) = .ok e1 := h
                      simp only [Except.ok.injEq] at h
                      subst h
                      exact ⟨fun _ => rfl, fun _ => rfl, fun _ => rfl, fun _ => rfl, fun _ => rfl, fun _ => rfl, fun _ => rfl, fun hdne _ => absurd rfl hdne, fun hdne _ => absurd rfl hdne, fun hdne _ => absurd rfl hdne, fun hdne _ => absurd rfl hdne, fun hdne _ => absurd rfl hdne, fun hdne _ => absurd rfl hdne⟩
                  | vStr s =>
                    replace h : (Except.error () : Res Edge) = .ok e1 := h
                    cases h
                  | vBool b =>
                    replace h : (Except.error () : Res Edge) = .ok e1 := h
                    cases h
                  | vFloat q =>
                    replace h : (Except.error () : Res Edge) = .ok e1 := h
                    cases h
                · rw [if_neg h8] at h
                  by_cases h9 : k2 = "pannable"
                  · rw [if_pos h9] at h
                    subst h9
                    obtain ⟨b, hv, hf⟩ := setBool_bind v2 _ _ h
                    replace hf : (Except.ok { e with pannable := b } : Res Edge) = .ok e1 := hf
                    simp only [Except.ok.injEq] at hf
                    subst hf
                    exact ⟨fun _ => rfl, fun _ => rfl, fun _ => rfl, fun _ => rfl, fun _ => rfl, fun hne => absurd rfl hne, fun _ => rfl, fun _ _ => rfl, fun _ _ => rfl, fun _ _ => rfl, fun _ _ => rfl, fun _ _ => rfl, fun _ _ => rfl⟩
                  · rw [if_neg h9] at h
                    cases hd : EdgeData.add_attribute e.data k2 v2 with
                    | error u =>
                      rw [hd] at h
                      replace h : (Except.error u : Res Edge) = .ok e1 := h
                      cases h
                    | ok d1 =>
                      rw [hd, res_bind_ok] at h
                      replace h : (Except.ok { e with data := d1 } : Res Edge) = .ok e1 := h
                      simp only [Except.ok.injEq] at h
                      subst h
                      by_cases h10 : k2 = "id"
                      · subst h10
                        unfold EdgeData.add_attribute at hd
                        rw [if_pos rfl] at hd
                        obtain ⟨s, hv, hf⟩ := setStr_bind v2 _ _ hd
                        replace hf : (Except.ok { e.data with id := s } : Res EdgeData) = .ok d1 := hf
                        simp only [Except.ok.injEq] at hf
                        subst hf
                        exact ⟨fun _ => rfl, fun _ => rfl, fun _ => rfl, fun _ => rfl, fun _ => rfl, fun _ => rfl, fun _ => rfl, fun _ hne => absurd rfl hne, fun _ _ => rfl, fun _ _ => rfl, fun _ _ => rfl, fun _ _ => rfl, fun _ _ => rfl⟩
                      ·
                        by_cases h11 : k2 = "source"
                        · subst h11
                          unfold EdgeData.add_attribute at hd
                          rw [if_neg (by decide : ¬("source" = "id")), if_pos rfl] at hd
                          obtain ⟨s, hv, hf⟩ := setStr_bind v2 _ _ hd
                          replace hf : (Except.ok { e.data with source := s } : Res EdgeData) = .ok d1 := hf
                          simp only [Except.ok.injEq] at hf
                          subst hf
                          exact ⟨fun _ => rfl, fun _ => rfl, fun _ => rfl, fun _ => rfl, fun _ => rfl, fun _ => rfl, fun _ => rfl, fun _ _ => rfl, fun _ hne => absurd rfl hne, fun _ _ => rfl, fun _ _ => rfl, fun _ _ => rfl, fun _ _ => rfl⟩
                        ·
                          by_cases h12 : k2 = "target"
                          · subst h12
                            unfold EdgeData.add_attribute at hd
                            rw [if_neg (by decide : ¬("target" = "id")), if_neg (by decide : ¬("target" = "source")), if_pos rfl] at hd
                            obtain ⟨s, hv, hf⟩ := setStr_bind v2 _ _ hd
                            replace hf : (Except.ok { e.data with target := s } : Res EdgeData) = .ok d1 := hf
                            simp only [Except.ok.injEq] at hf
                            subst hf
                            exact ⟨fun _ => rfl, fun _ => rfl, fun _ => rfl, fun _ => rfl, fun _ => rfl, fun _ => rfl, fun _ => rfl, fun _ _ => rfl, fun _ _ => rfl, fun _ hne => absurd rfl hne, fun _ _ => rfl, fun _ _ => rfl, fun _ _ => rfl⟩
                          ·
                            by_cases h13 : k2 = "label"
                            · subst h13
                              unfold EdgeData.add_attribute at hd
                              rw [if_neg (by decide : ¬("label" = "id")), if_neg (by decide : ¬("label" = "source")), if_neg (by decide : ¬("label" = "target")), if_pos rfl] at hd
                              obtain ⟨s, hv, hf⟩ := setStr_bind v2 _ _ hd
                              replace hf : (Except.ok { e.data with label := s } : Res EdgeData) = .ok d1 := hf
                              simp only [Except.ok.injEq] at hf
                              subst hf
                              exact ⟨fun _ => rfl, fun _ => rfl, fun _ => rfl, fun _ => rfl, fun _ => rfl, fun _ => rfl, fun _ => rfl, fun _ _ => rfl, fun _ _ => rfl, fun _ _ => rfl, fun _ hne => absurd rfl hne, fun _ _ => rfl, fun _ _ => rfl⟩
                            ·
                              by_cases h14 : k2 = "source_label"
                              · subst h14
                                unfold EdgeData.add_attribute at hd
                                rw [if_neg (by decide : ¬("source_label" = "id")), if_neg (by decide : ¬("source_label" = "source")), if_neg (by decide : ¬("source_label" = "target")), if_neg (by decide : ¬("source_label" = "label")), if_pos rfl] at hd
                                obtain ⟨s, hv, hf⟩ := setStr_bind v2 _ _ hd
                                replace hf : (Except.ok { e.data with source_label := s } : Res EdgeData) = .ok d1 := hf
                                simp only [Except.ok.injEq] at hf
                                subst hf
                                exact ⟨fun _ => rfl, fun _ => rfl, fun _ => rfl, fun _ => rfl, fun _ => rfl, fun _ => rfl, fun _ => rfl, fun _ _ => rfl, fun _ _ => rfl, fun _ _ => rfl, fun _ _ => rfl, fun _ hne => absurd rfl hne, fun _ _ => rfl⟩
                              ·
                                by_cases h15 : k2 = "target_label"
                                · subst h15
                                  unfold EdgeData.add_attribute at hd
                                  rw [if_neg (by decide : ¬("target_label" = "id")), if_neg (by decide : ¬("target_label" = "source")), if_neg (by decide : ¬("target_label" = "target")), if_neg (by decide : ¬("target_label" = "label")), if_neg (by decide : ¬("target_label" = "source_label")), if_pos rfl] at hd
                                  obtain ⟨s, hv, hf⟩ := setStr_bind v2 _ _ hd
                                  replace hf : (Except.ok { e.data with target_label := s } : Res EdgeData) = .ok d1 := hf
                                  simp only [Except.ok.injEq] at hf
                                  subst hf
                                  exact ⟨fun _ => rfl, fun _ => rfl, fun _ => rfl, fun _ => rfl, fun _ => rfl, fun _ => rfl, fun _ => rfl, fun _ _ => rfl, fun _ _ => rfl, fun _ _ => rfl, fun _ _ => rfl, fun _ _ => rfl, fun _ hne => absurd rfl hne⟩
                                ·
                                  unfold EdgeData.add_attribute at hd
                                  rw [if_neg h10, if_neg h11, if_neg h12, if_neg h13, if_neg h14, if_neg h15] at hd
                                  replace hd : (Except.ok e.data : Res EdgeData) = .ok d1 := hd
                                  simp only [Except.ok.injEq] at hd
                                  subst hd
                                  exact ⟨fun _ => rfl, fun _ => rfl, fun _ => rfl, fun _ => rfl, fun _ => rfl, fun _ => rfl, fun _ => rfl, fun _ _ => rfl, fun _ _ => rfl, fun _ _ => rfl, fun _ _ => rfl, fun _ _ => rfl, fun _ _ => rfl⟩

/-- Step-level field frame for a Node (adds the `_add_classes` route to
the record-level frame). -/
theorem addStep_node_frame (n n1 : Node) (k2 : String) (v2 : Value)
    (h : Elem.addStep (.node n) k2 v2 = .ok (.node n1)) :
    (k2 ≠ "classes" → n1.classes = n.classes) ∧
    (k2 ≠ "selected" → n1.selected = n.selected) ∧
    (k2 ≠ "selectable" → n1.selectable = n.selectable) ∧
    (k2 ≠ "locked" → n1.locked = n.locked) ∧
    (k2 ≠ "grabbable" → n1.grabbable = n.grabbable) ∧
    (k2 ≠ "pannable" → n1.pannable = n.pannable) ∧
    (k2 ≠ "scratch" → n1.scratch = n.scratch) ∧
    (k2 ≠ "data" → k2 ≠ "id" → n1.data.id = n.data.id) ∧
    (k2 ≠ "data" → k2 ≠ "parent" → n1.data.parent = n.data.parent) ∧
    (k2 ≠ "data" → k2 ≠ "label" → n1.data.label = n.data.label) ∧
    (k2 ≠ "position" → k2 ≠ "x" → n1.position.x = n.position.x) ∧
    (k2 ≠ "position" → k2 ≠ "y" → n1.position.y = n.position.y) := by
  by_cases hc : k2 = "classes"
  · subst hc
    unfold Elem.addStep at h
    rw [if_pos rfl] at h
    cases v2 with
    | vStr s =>
      replace h : (Except.ok (Elem.node
          { n with classes := addClassesStr n.classes s }) : Res Elem) =
          .ok (.node n1) := h
      simp only [Except.ok.injEq, Elem.node.injEq] at h
      subst h
      exact ⟨fun hne => absurd rfl hne, fun _ => rfl, fun _ => rfl, fun _ => rfl,
        fun _ => rfl, fun _ => rfl, fun _ => rfl, fun _ _ => rfl, fun _ _ => rfl,
        fun _ _ => rfl, fun _ _ => rfl, fun _ _ => rfl⟩
    | vBool b =>
      replace h : (Except.error () : Res Elem) = .ok (.node n1) := h
      cases h
    | vFloat q =>
      replace h : (Except.error () : Res Elem) = .ok (.node n1) := h
      cases h
    | vDict l =>
      replace h : (Except.error () : Res Elem) = .ok (.node n1) := h
      cases h
  · exact nodeAddAttr_frame n n1 k2 v2 (addAttr_node_ok n n1 k2 v2 hc h)

/-- Step-level field frame for an Edge. -/
theorem addStep_edge_frame (e e1 : Edge) (k2 : String) (v2 : Value)
    (h : Elem.addStep (.edge e) k2 v2 = .ok (.edge e1)) :
    (k2 ≠ "classes" → e1.classes = e.classes) ∧
    (k2 ≠ "selected" → e1.selected = e.selected) ∧
    (k2 ≠ "selectable" → e1.selectable = e.selectable) ∧
    (k2 ≠ "locked" → e1.locked = e.locked) ∧
    (k2 ≠ "grabbable" → e1.grabbable = e.grabbable) ∧
    (k2 ≠ "pannable" → e1.pannable = e.pannable) ∧
    (k2 ≠ "scratch" → e1.scratch = e.scratch) ∧
    (k2 ≠ "data" → k2 ≠ "id" → e1.data.id = e.data.id) ∧
    (k2 ≠ "data" → k2 ≠ "source" → e1.data.source = e.data.source) ∧
    (k2 ≠ "data" → k2 ≠ "target" → e1.data.target = e.data.target) ∧
    (k2 ≠ "data" → k2 ≠ "label" → e1.data.label = e.data.label) ∧
    (k2 ≠ "data" → k2 ≠ "source_label" → e1.data.source_label = e.data.source_label) ∧
    (k2 ≠ "data" → k2 ≠ "target_label" → e1.data.target_label = e.data.target_label) := by
  by_cases hc : k2 = "classes"
  · subst hc
    unfold Elem.addStep at h
    rw [if_pos rfl] at h
    cases v2 with
    | vStr s =>
      replace h : (Except.ok (Elem.edge
          { e with classes := addClassesStr e.classes s }) : Res Elem) =
          .ok (.edge e1) := h
      simp only [Except.ok.injEq, Elem.edge.injEq] at h
      subst h
      exact ⟨fun hne => absurd rfl hne, fun _ => rfl, fun _ => rfl, fun _ => rfl,
        fun _ => rfl, fun _ => rfl, fun _ => rfl, fun _ _ => rfl, fun _ _ => rfl,
        fun _ _ => rfl, fun _ _ => rfl, fun _ _ => rfl, fun _ _ => rfl⟩
    | vBool b =>
      replace h : (Except.error () : Res Elem) = .ok (.edge e1) := h
      cases h
    | vFloat q =>
      replace h : (Except.error () : Res Elem) = .ok (.edge e1) := h
      cases h
    | vDict l =>
      replace h : (Except.error () : Res Elem) = .ok (.edge e1) := h
      cases h
  · exact edgeAddAttr_frame e e1 k2 v2 (addAttr_edge_ok e e1 k2 v2 hc h)

/-- A step whose key is different (and is not `data`/`position`) keeps a
Node field equation true. -/
theorem nodeFieldEq_step_frame (n n1 : Node) (k k2 : String) (v v2 : Value)
    (hne : k2 ≠ k) (hkd : k ≠ "data") (hkp : k ≠ "position")
    (hd2 : k2 ≠ "data") (hp2 : k2 ≠ "position")
    (h : Elem.addStep (.node n) k2 v2 = .ok (.node n1))
    (hf : NodeFieldEq k v n) : NodeFieldEq k v n1 := by
  obtain ⟨f1, f2, f3, f4, f5, f6, f7, f8, f9, f10, f11, f12⟩ :=
    addStep_node_frame n n1 k2 v2 h
  by_cases g1 : k = "group"
  · subst g1
    replace hf : ∃ s, v = Value.vStr s := hf
    exact hf
  ·
    by_cases g2 : k = "classes"
    · subst g2
      cases v with
      | vStr s =>
        replace hf : n.classes = addClassesStr n.classes s := hf
        show n1.classes = addClassesStr n1.classes s
        rw [f1 hne]
        exact hf
      | vBool b =>
        replace hf : False := hf
        exact hf.elim
      | vFloat q =>
        replace hf : False := hf
        exact hf.elim
      | vDict l =>
        replace hf : False := hf
        exact hf.elim
    ·
      by_cases g3 : k = "selected"
      · subst g3
        cases v with
        | vBool b =>
          replace hf : n.selected = b := hf
          show n1.selected = b
          rw [f2 hne]
          exact hf
        | vStr s =>
          replace hf : False := hf
          exact hf.elim
        | vFloat q =>
          replace hf : False := hf
          exact hf.elim
        | vDict l =>
          replace hf : False := hf
          exact hf.elim
      ·
        by_cases g4 : k = "selectable"
        · subst g4
          cases v with
          | vBool b =>
            replace hf : n.selectable = b := hf
            show n1.selectable = b
            rw [f3 hne]
            exact hf
          | vStr s =>
            replace hf : False := hf
            exact hf.elim
          | vFloat q =>
            replace hf : False := hf
            exact hf.elim
          | vDict l =>
            replace hf : False := hf
            exact hf.elim
        ·
          by_cases g5 : k = "locked"
          · subst g5
            cases v with
            | vBool b =>
              replace hf : n.locked = b := hf
              show n1.locked = b
              rw [f4 hne]
              exact hf
            | vStr s =>
              replace hf : False := hf
              exact hf.elim
            | vFloat q =>
              replace hf : False := hf
              exact hf.elim
            | vDict l =>
              replace hf : False := hf
              exact hf.elim
          ·
            by_cases g6 : k = "grabbable"
            · subst g6
              cases v with
              | vBool b =>
                replace hf : n.grabbable = b := hf
                show n1.grabbable = b
                rw [f5 hne]
                exact hf
              | vStr s =>
                replace hf : False := hf
                exact hf.elim
              | vFloat q =>
                replace hf : False := hf
                exact hf.elim
              | vDict l =>
                replace hf : False := hf
                exact hf.elim
            ·
              by_cases g7 : k = "scratch"
              · subst g7
                cases v with
                | vDict en =>
                  replace hf : n.scratch = dsetAll n.scratch en := hf
                  show n1.scratch = dsetAll n1.scratch en
                  rw [f7 hne]
                  exact hf
                | vStr s =>
                  replace hf : False := hf
                  exact hf.elim
                | vBool b =>
                  replace hf : False := hf
                  exact hf.elim
                | vFloat q =>
                  replace hf : False := hf
                  exact hf.elim
              ·
                by_cases g8 : k = "data"
                · exact absurd g8 hkd
                ·
                  by_cases g9 : k = "position"
                  · exact absurd g9 hkp
                  ·
                    by_cases g10 : k = "pannable"
                    · subst g10
                      cases v with
                      | vBool b =>
                        replace hf : n.pannable = b := hf
                        show n1.pannable = b
                        rw [f6 hne]
                        exact hf
                      | vStr s =>
                        replace hf : False := hf
                        exact hf.elim
                      | vFloat q =>
                        replace hf : False := hf
                        exact hf.elim
                      | vDict l =>
                        replace hf : False := hf
                        exact hf.elim
                    ·
                      by_cases g11 : k = "id"
                      · subst g11
                        cases v with
                        | vStr s =>
                          replace hf : n.data.id = s := hf
                          show n1.data.id = s
                          rw [f8 hd2 hne]
                          exact hf
                        | vBool b =>
                          replace hf : False := hf
                          exact hf.elim
                        | vFloat q =>
                          replace hf : False := hf
                          exact hf.elim
                        | vDict l =>
                          replace hf : False := hf
                          exact hf.elim
                      ·
                        by_cases g12 : k = "parent"
                        · subst g12
                          cases v with
                          | vStr s =>
                            replace hf : n.data.parent = s := hf
                            show n1.data.parent = s
                            rw [f9 hd2 hne]
                            exact hf
                          | vBool b =>
                            replace hf : False := hf
                            exact hf.elim
                          | vFloat q =>
                            replace hf : False := hf
                            exact hf.elim
                          | vDict l =>
                            replace hf : False := hf
                            exact hf.elim
                        ·
                          by_cases g13 : k = "label"
                          · subst g13
                            cases v with
                            | vStr s =>
                              replace hf : n.data.label = s := hf
                              show n1.data.label = s
                              rw [f10 hd2 hne]
                              exact hf
                            | vBool b =>
                              replace hf : False := hf
                              exact hf.elim
                            | vFloat q =>
                              replace hf : False := hf
                              exact hf.elim
                            | vDict l =>
                              replace hf : False := hf
                              exact hf.elim
                          ·
                            by_cases g14 : k = "x"
                            · subst g14
                              cases v with
                              | vFloat q =>
                                replace hf : n.position.x = q := hf
                                show n1.position.x = q
                                rw [f11 hp2 hne]
                                exact hf
                              | vStr s =>
                                replace hf : False := hf
                                exact hf.elim
                              | vBool b =>
                                replace hf : False := hf
                                exact hf.elim
                              | vDict l =>
                                replace hf : False := hf
                                exact hf.elim
                            ·
                              by_cases g15 : k = "y"
                              · subst g15
                                cases v with
                                | vFloat q =>
                                  replace hf : n.position.y = q := hf
                                  show n1.position.y = q
                                  rw [f12 hp2 hne]
                                  exact hf
                                | vStr s =>
                                  replace hf : False := hf
                                  exact hf.elim
                                | vBool b =>
                                  replace hf : False := hf
                                  exact hf.elim
                                | vDict l =>
                                  replace hf : False := hf
                                  exact hf.elim
                              ·
                                simp only [NodeFieldEq, if_neg g1, if_neg g2, if_neg g3, if_neg g4, if_neg g5, if_neg g6, if_neg g7, if_neg g8, if_neg g9, if_neg g10, if_neg g11, if_neg g12, if_neg g13, if_neg g14, if_neg g15]

/-- The Edge analogue of `nodeFieldEq_step_frame`. -/
theorem edgeFieldEq_step_frame (e e1 : Edge) (k k2 : String) (v v2 : Value)
    (hne : k2 ≠ k) (hkd : k ≠ "data")
    (hd2 : k2 ≠ "data")
    (h : Elem.addStep (.edge e) k2 v2 = .ok (.edge e1))
    (hf : EdgeFieldEq k v e) : EdgeFieldEq k v e1 := by
  obtain ⟨f1, f2, f3, f4, f5, f6, f7, f8, f9, f10, f11, f12, f13⟩ :=
    addStep_edge_frame e e1 k2 v2 h
  by_cases g1 : k = "group"
  · subst g1
    replace hf : ∃ s, v = Value.vStr s := hf
    exact hf
  ·
    by_cases g2 : k = "classes"
    · subst g2
      cases v with
      | vStr s =>
        replace hf : e.classes = addClassesStr e.classes s := hf
        show e1.classes = addClassesStr e1.classes s
        rw [f1 hne]
        exact hf
      | vBool b =>
        replace hf : False := hf
        exact hf.elim
      | vFloat q =>
        replace hf : False := hf
        exact hf.elim
      | vDict l =>
        replace hf : False := hf
        exact hf.elim
    ·
      by_cases g3 : k = "selected"
      · subst g3
        cases v with
        | vBool b =>
          replace hf : e.selected = b := hf
          show e1.selected = b
          rw [f2 hne]
          exact hf
        | vStr s =>
          replace hf : False := hf
          exact hf.elim
        | vFloat q =>
          replace hf : False := hf
          exact hf.elim
        | vDict l =>
          replace hf : False := hf
          exact hf.elim
      ·
        by_cases g4 : k = "selectable"
        · subst g4
          cases v with
          | vBool b =>
            replace hf : e.selectable = b := hf
            show e1.selectable = b
            rw [f3 hne]
            exact hf
          | vStr s =>
            replace hf : False := hf
            exact hf.elim
          | vFloat q =>
            replace hf : False := hf
            exact hf.elim
          | vDict l =>
            replace hf : False := hf
            exact hf.elim
        ·
          by_cases g5 : k = "locked"
          · subst g5
            cases v with
            | vBool b =>
              replace hf : e.locked = b := hf
              show e1.locked = b
              rw [f4 hne]
              exact hf
            | vStr s =>
              replace hf : False := hf
              exact hf.elim
            | vFloat q =>
              replace hf : False := hf
              exact hf.elim
            | vDict l =>
              replace hf : False := hf
              exact hf.elim
          ·
            by_cases g6 : k = "grabbable"
            · subst g6
              cases v with
              | vBool b =>
                replace hf : e.grabbable = b := hf
                show e1.grabbable = b
                rw [f5 hne]
                exact hf
              | vStr s =>
                replace hf : False := hf
                exact hf.elim
              | vFloat q =>
                replace hf : False := hf
                exact hf.elim
              | vDict l =>
                replace hf : False := hf
                exact hf.elim
            ·
              by_cases g7 : k = "scratch"
              · subst g7
                cases v with
                | vDict en =>
                  replace hf : e.scratch = dsetAll e.scratch en := hf
                  show e1.scratch = dsetAll e1.scratch en
                  rw [f7 hne]
                  exact hf
                | vStr s =>
                  replace hf : False := hf
                  exact hf.elim
                | vBool b =>
                  replace hf : False := hf
                  exact hf.elim
                | vFloat q =>
                  replace hf : False := hf
                  exact hf.elim
              ·
                by_cases g8 : k = "data"
                · exact absurd g8 hkd
                ·
                  by_cases g9 : k = "pannable"
                  · subst g9
                    cases v with
                    | vBool b =>
                      replace hf : e.pannable = b := hf
                      show e1.pannable = b
                      rw [f6 hne]
                      exact hf
                    | vStr s =>
                      replace hf : False := hf
                      exact hf.elim
                    | vFloat q =>
                      replace hf : False := hf
                      exact hf.elim
                    | vDict l =>
                      replace hf : False := hf
                      exact hf.elim
                  ·
                    by_cases g10 : k = "id"
                    · subst g10
                      cases v with
                      | vStr s =>
                        replace hf : e.data.id = s := hf
                        show e1.data.id = s
                        rw [f8 hd2 hne]
                        exact hf
                      | vBool b =>
                        replace hf : False := hf
                        exact hf.elim
                      | vFloat q =>
                        replace hf : False := hf
                        exact hf.elim
                      | vDict l =>
                        replace hf : False := hf
                        exact hf.elim
                    ·
                      by_cases g11 : k = "source"
                      · subst g11
                        cases v with
                        | vStr s =>
                          replace hf : e.data.source = s := hf
                          show e1.data.source = s
                          rw [f9 hd2 hne]
                          exact hf
                        | vBool b =>
                          replace hf : False := hf
                          exact hf.elim
                        | vFloat q =>
                          replace hf : False := hf
                          exact hf.elim
                        | vDict l =>
                          replace hf : False := hf
                          exact hf.elim
                      ·
                        by_cases g12 : k = "target"
                        · subst g12
                          cases v with
                          | vStr s =>
                            replace hf : e.data.target = s := hf
                            show e1.data.target = s
                            rw [f10 hd2 hne]
                            exact hf
                          | vBool b =>
                            replace hf : False := hf
                            exact hf.elim
                          | vFloat q =>
                            replace hf : False := hf
                            exact hf.elim
                          | vDict l =>
                            replace hf : False := hf
                            exact hf.elim
                        ·
                          by_cases g13 : k = "label"
                          · subst g13
                            cases v with
                            | vStr s =>
                              replace hf : e.data.label = s := hf
                              show e1.data.label = s
                              rw [f11 hd2 hne]
                              exact hf
                            | vBool b =>
                              replace hf : False := hf
                              exact hf.elim
                            | vFloat q =>
                              replace hf : False := hf
                              exact hf.elim
                            | vDict l =>
                              replace hf : False := hf
                              exact hf.elim
                          ·
                            by_cases g14 : k = "source_label"
                            · subst g14
                              cases v with
                              | vStr s =>
                                replace hf : e.data.source_label = s := hf
                                show e1.data.source_label = s
                                rw [f12 hd2 hne]
                                exact hf
                              | vBool b =>
                                replace hf : False := hf
                                exact hf.elim
                              | vFloat q =>
                                replace hf : False := hf
                                exact hf.elim
                              | vDict l =>
                                replace hf : False := hf
                                exact hf.elim
                            ·
                              by_cases g15 : k = "target_label"
                              · subst g15
                                cases v with
                                | vStr s =>
                                  replace hf : e.data.target_label = s := hf
                                  show e1.data.target_label = s
                                  rw [f13 hd2 hne]
                                  exact hf
                                | vBool b =>
                                  replace hf : False := hf
                                  exact hf.elim
                                | vFloat q =>
                                  replace hf : False := hf
                                  exact hf.elim
                                | vDict l =>
                                  replace hf : False := hf
                                  exact hf.elim
                              ·
                                simp only [EdgeFieldEq, if_neg g1, if_neg g2, if_neg g3, if_neg g4, if_neg g5, if_neg g6, if_neg g7, if_neg g8, if_neg g9, if_neg g10, if_neg g11, if_neg g12, if_neg g13, if_neg g14, if_neg g15]

/-- A Node already satisfying a pair's field equation absorbs the pair:
re-merging it succeeds and changes nothing. -/
theorem nodeAddAttr_fix (n : Node) (k : String) (v : Value)
    (hc : k ≠ "classes") (hf : NodeFieldEq k v n) :
    Node.add_attribute n k v = .ok n := by
  by_cases g1 : k = "group"
  · subst g1
    replace hf : ∃ s, v = Value.vStr s := hf
    obtain ⟨s, rfl⟩ := hf
    rfl
  ·
    by_cases g2 : k = "classes"
    · exact absurd g2 hc
    ·
      by_cases g3 : k = "selected"
      · subst g3
        cases v with
        | vBool b =>
          replace hf : n.selected = b := hf
          have he : Node.add_attribute n "selected" (.vBool b) = .ok { n with selected := b } := rfl
          rw [he, ← hf]
        | vStr s =>
          replace hf : False := hf
          exact hf.elim
        | vFloat q =>
          replace hf : False := hf
          exact hf.elim
        | vDict l =>
          replace hf : False := hf
          exact hf.elim
      ·
        by_cases g4 : k = "selectable"
        · subst g4
          cases v with
          | vBool b =>
            replace hf : n.selectable = b := hf
            have he : Node.add_attribute n "selectable" (.vBool b) = .ok { n with selectable := b } := rfl
            rw [he, ← hf]
          | vStr s =>
            replace hf : False := hf
            exact hf.elim
          | vFloat q =>
            replace hf : False := hf
            exact hf.elim
          | vDict l =>
            replace hf : False := hf
            exact hf.elim
        ·
          by_cases g5 : k = "locked"
          · subst g5
            cases v with
            | vBool b =>
              replace hf : n.locked = b := hf
              have he : Node.add_attribute n "locked" (.vBool b) = .ok { n with locked := b } := rfl
              rw [he, ← hf]
            | vStr s =>
              replace hf : False := hf
              exact hf.elim
            | vFloat q =>
              replace hf : False := hf
              exact hf.elim
            | vDict l =>
              replace hf : False := hf
              exact hf.elim
          ·
            by_cases g6 : k = "grabbable"
            · subst g6
              cases v with
              | vBool b =>
                replace hf : n.grabbable = b := hf
                have he : Node.add_attribute n "grabbable" (.vBool b) = .ok { n with grabbable := b } := rfl
                rw [he, ← hf]
              | vStr s =>
                replace hf : False := hf
                exact hf.elim
              | vFloat q =>
                replace hf : False := hf
                exact hf.elim
              | vDict l =>
                replace hf : False := hf
                exact hf.elim
            ·
              by_cases g7 : k = "scratch"
              · subst g7
                cases v with
                | vDict en =>
                  replace hf : n.scratch = dsetAll n.scratch en := hf
                  have he : Node.add_attribute n "scratch" (.vDict en) = .ok { n with scratch := dsetAll n.scratch en } := rfl
                  rw [he, ← hf]
                | vStr s =>
                  replace hf : False := hf
                  exact hf.elim
                | vBool b =>
                  replace hf : False := hf
                  exact hf.elim
                | vFloat q =>
                  replace hf : False := hf
                  exact hf.elim
              ·
                by_cases g8 : k = "data"
                · subst g8
                  cases v with
                  | vDict en =>
                    replace hf : parseNodeData en = Except.ok n.data := hf
                    have he : Node.add_attribute n "data" (.vDict en) =
                        (parseNodeData en >>= fun w => .ok { n with data := w }) := rfl
                    rw [he, hf, res_bind_ok]
                  | vStr s =>
                    replace hf : False := hf
                    exact hf.elim
                  | vBool b =>
                    replace hf : False := hf
                    exact hf.elim
                  | vFloat q =>
                    replace hf : False := hf
                    exact hf.elim
                ·
                  by_cases g9 : k = "position"
                  · subst g9
                    cases v with
                    | vDict en =>
                      replace hf : parsePosition en = Except.ok n.position := hf
                      have he : Node.add_attribute n "position" (.vDict en) =
                          (parsePosition en >>= fun w => .ok { n with position := w }) := rfl
                      rw [he, hf, res_bind_ok]
                    | vStr s =>
                      replace hf : False := hf
                      exact hf.elim
                    | vBool b =>
                      replace hf : False := hf
                      exact hf.elim
                    | vFloat q =>
                      replace hf : False := hf
                      exact hf.elim
                  ·
                    by_cases g10 : k = "pannable"
                    · subst g10
                      cases v with
                      | vBool b =>
                        replace hf : n.pannable = b := hf
                        have he : Node.add_attribute n "pannable" (.vBool b) = .ok { n with pannable := b } := rfl
                        rw [he, ← hf]
                      | vStr s =>
                        replace hf : False := hf
                        exact hf.elim
                      | vFloat q =>
                        replace hf : False := hf
                        exact hf.elim
                      | vDict l =>
                        replace hf : False := hf
                        exact hf.elim
                    ·
                      by_cases g11 : k = "id"
                      · subst g11
                        cases v with
                        | vStr s =>
                          replace hf : n.data.id = s := hf
                          have he : Node.add_attribute n "id" (.vStr s) = .ok { n with data := { n.data with id := s } } := rfl
                          rw [he, ← hf]
                        | vBool b =>
                          replace hf : False := hf
                          exact hf.elim
                        | vFloat q =>
                          replace hf : False := hf
                          exact hf.elim
                        | vDict l =>
                          replace hf : False := hf
                          exact hf.elim
                      ·
                        by_cases g12 : k = "parent"
                        · subst g12
                          cases v with
                          | vStr s =>
                            replace hf : n.data.parent = s := hf
                            have he : Node.add_attribute n "parent" (.vStr s) = .ok { n with data := { n.data with parent := s } } := rfl
                            rw [he, ← hf]
                          | vBool b =>
                            replace hf : False := hf
                            exact hf.elim
                          | vFloat q =>
                            replace hf : False := hf
                            exact hf.elim
                          | vDict l =>
                            replace hf : False := hf
                            exact hf.elim
                        ·
                          by_cases g13 : k = "label"
                          · subst g13
                            cases v with
                            | vStr s =>
                              replace hf : n.data.label = s := hf
                              have he : Node.add_attribute n "label" (.vStr s) = .ok { n with data := { n.data with label := s } } := rfl
                              rw [he, ← hf]
                            | vBool b =>
                              replace hf : False := hf
                              exact hf.elim
                            | vFloat q =>
                              replace hf : False := hf
                              exact hf.elim
                            | vDict l =>
                              replace hf : False := hf
                              exact hf.elim
                          ·
                            by_cases g14 : k = "x"
                            · subst g14
                              cases v with
                              | vFloat q =>
                                replace hf : n.position.x = q := hf
                                have he : Node.add_attribute n "x" (.vFloat q) = .ok { n with position := { n.position with x := q } } := rfl
                                rw [he, ← hf]
                              | vStr s =>
                                replace hf : False := hf
                                exact hf.elim
                              | vBool b =>
                                replace hf : False := hf
                                exact hf.elim
                              | vDict l =>
                                replace hf : False := hf
                                exact hf.elim
                            ·
                              by_cases g15 : k = "y"
                              · subst g15
                                cases v with
                                | vFloat q =>
                                  replace hf : n.position.y = q := hf
                                  have he : Node.add_attribute n "y" (.vFloat q) = .ok { n with position := { n.position with y := q } } := rfl
                                  rw [he, ← hf]
                                | vStr s =>
                                  replace hf : False := hf
                                  exact hf.elim
                                | vBool b =>
                                  replace hf : False := hf
                                  exact hf.elim
                                | vDict l =>
                                  replace hf : False := hf
                                  exact hf.elim
                              ·
                                have hdd : NodeData.add_attribute n.data k v = .ok n.data := by
                                  unfold NodeData.add_attribute
                                  rw [if_neg g11, if_neg g12, if_neg g13]
                                have hpp : Position.add_attribute n.position k v = .ok n.position := by
                                  unfold Position.add_attribute
                                  rw [if_neg g14, if_neg g15]
                                unfold Node.add_attribute
                                rw [if_neg g1, if_neg g2, if_neg g3, if_neg g4, if_neg g5, if_neg g6,
                                  if_neg g7, if_neg g8, if_neg g9, if_neg g10, hdd, res_bind_ok, hpp, res_bind_ok]

/-- The Edge analogue of `nodeAddAttr_fix`. -/
theorem edgeAddAttr_fix (e : Edge) (k : String) (v : Value)
    (hc : k ≠ "classes") (hf : EdgeFieldEq k v e) :
    Edge.add_attribute e k v = .ok e := by
  by_cases g1 : k = "group"
  · subst g1
    replace hf : ∃ s, v = Value.vStr s := hf
    obtain ⟨s, rfl⟩ := hf
    rfl
  ·
    by_cases g2 : k = "classes"
    · exact absurd g2 hc
    ·
      by_cases g3 : k = "selected"
      · subst g3
        cases v with
        | vBool b =>
          replace hf : e.selected = b := hf
          have he : Edge.add_attribute e "selected" (.vBool b) = .ok { e with selected := b } := rfl
          rw [he, ← hf]
        | vStr s =>
          replace hf : False := hf
          exact hf.elim
        | vFloat q =>
          replace hf : False := hf
          exact hf.elim
        | vDict l =>
          replace hf : False := hf
          exact hf.elim
      ·
        by_cases g4 : k = "selectable"
        · subst g4
          cases v with
          | vBool b =>
            replace hf : e.selectable = b := hf
            have he : Edge.add_attribute e "selectable" (.vBool b) = .ok { e with selectable := b } := rfl
            rw [he, ← hf]
          | vStr s =>
            replace hf : False := hf
            exact hf.elim
          | vFloat q =>
            replace hf : False := hf
            exact hf.elim
          | vDict l =>
            replace hf : False := hf
            exact hf.elim
        ·
          by_cases g5 : k = "locked"
          · subst g5
            cases v with
            | vBool b =>
              replace hf : e.locked = b := hf
              have he : Edge.add_attribute e "locked" (.vBool b) = .ok { e with locked := b } := rfl
              rw [he, ← hf]
            | vStr s =>
              replace hf : False := hf
              exact hf.elim
            | vFloat q =>
              replace hf : False := hf
              exact hf.elim
            | vDict l =>
              replace hf : False := hf
              exact hf.elim
          ·
            by_cases g6 : k = "grabbable"
            · subst g6
              cases v with
              | vBool b =>
                replace hf : e.grabbable = b := hf
                have he : Edge.add_attribute e "grabbable" (.vBool b) = .ok { e with grabbable := b } := rfl
                rw [he, ← hf]
              | vStr s =>
                replace hf : False := hf
                exact hf.elim
              | vFloat q =>
                replace hf : False := hf
                exact hf.elim
              | vDict l =>
                replace hf : False := hf
                exact hf.elim
            ·
              by_cases g7 : k = "scratch"
              · subst g7
                cases v with
                | vDict en =>
                  replace hf : e.scratch = dsetAll e.scratch en := hf
                  have he : Edge.add_attribute e "scratch" (.vDict en) = .ok { e with scratch := dsetAll e.scratch en } := rfl
                  rw [he, ← hf]
                | vStr s =>
                  replace hf : False := hf
                  exact hf.elim
                | vBool b =>
                  replace hf : False := hf
                  exact hf.elim
                | vFloat q =>
                  replace hf : False := hf
                  exact hf.elim
              ·
                by_cases g8 : k = "data"
                · subst g8
                  cases v with
                  | vDict en =>
                    replace hf : parseEdgeData en = Except.ok e.data := hf
                    have he : Edge.add_attribute e "data" (.vDict en) =
                        (parseEdgeData en >>= fun w => .ok { e with data := w }) := rfl
                    rw [he, hf, res_bind_ok]
                  | vStr s =>
                    replace hf : False := hf
                    exact hf.elim
                  | vBool b =>
                    replace hf : False := hf
                    exact hf.elim
                  | vFloat q =>
                    replace hf : False := hf
                    exact hf.elim
                ·
                  by_cases g9 : k = "pannable"
                  · subst g9
                    cases v with
                    | vBool b =>
                      replace hf : e.pannable = b := hf
                      have he : Edge.add_attribute e "pannable" (.vBool b) = .ok { e with pannable := b } := rfl
                      rw [he, ← hf]
                    | vStr s =>
                      replace hf : False := hf
                      exact hf.elim
                    | vFloat q =>
                      replace hf : False := hf
                      exact hf.elim
                    | vDict l =>
                      replace hf : False := hf
                      exact hf.elim
                  ·
                    by_cases g10 : k = "id"
                    · subst g10
                      cases v with
                      | vStr s =>
                        replace hf : e.data.id = s := hf
                        have he : Edge.add_attribute e "id" (.vStr s) = .ok { e with data := { e.data with id := s } } := rfl
                        rw [he, ← hf]
                      | vBool b =>
                        replace hf : False := hf
                        exact hf.elim
                      | vFloat q =>
                        replace hf : False := hf
                        exact hf.elim
                      | vDict l =>
                        replace hf : False := hf
                        exact hf.elim
                    ·
                      by_cases g11 : k = "source"
                      · subst g11
                        cases v with
                        | vStr s =>
                          replace hf : e.data.source = s := hf
                          have he : Edge.add_attribute e "source" (.vStr s) = .ok { e with data := { e.data with source := s } } := rfl
                          rw [he, ← hf]
                        | vBool b =>
                          replace hf : False := hf
                          exact hf.elim
                        | vFloat q =>
                          replace hf : False := hf
                          exact hf.elim
                        | vDict l =>
                          replace hf : False := hf
                          exact hf.elim
                      ·
                        by_cases g12 : k = "target"
                        · subst g12
                          cases v with
                          | vStr s =>
                            replace hf : e.data.target = s := hf
                            have he : Edge.add_attribute e "target" (.vStr s) = .ok { e with data := { e.data with target := s } } := rfl
                            rw [he, ← hf]
                          | vBool b =>
                            replace hf : False := hf
                            exact hf.elim
                          | vFloat q =>
                            replace hf : False := hf
                            exact hf.elim
                          | vDict l =>
                            replace hf : False := hf
                            exact hf.elim
                        ·
                          by_cases g13 : k = "label"
                          · subst g13
                            cases v with
                            | vStr s =>
                              replace hf : e.data.label = s := hf
                              have he : Edge.add_attribute e "label" (.vStr s) = .ok { e with data := { e.data with label := s } } := rfl
                              rw [he, ← hf]
                            | vBool b =>
                              replace hf : False := hf
                              exact hf.elim
                            | vFloat q =>
                              replace hf : False := hf
                              exact hf.elim
                            | vDict l =>
                              replace hf : False := hf
                              exact hf.elim
                          ·
                            by_cases g14 : k = "source_label"
                            · subst g14
                              cases v with
                              | vStr s =>
                                replace hf : e.data.source_label = s := hf
                                have he : Edge.add_attribute e "source_label" (.vStr s) = .ok { e with data := { e.data with source_label := s } } := rfl
                                rw [he, ← hf]
                              | vBool b =>
                                replace hf : False := hf
                                exact hf.elim
                              | vFloat q =>
                                replace hf : False := hf
                                exact hf.elim
                              | vDict l =>
                                replace hf : False := hf
                                exact hf.elim
                            ·
                              by_cases g15 : k = "target_label"
                              · subst g15
                                cases v with
                                | vStr s =>
                                  replace hf : e.data.target_label = s := hf
                                  have he : Edge.add_attribute e "target_label" (.vStr s) = .ok { e with data := { e.data with target_label := s } } := rfl
                                  rw [he, ← hf]
                                | vBool b =>
                                  replace hf : False := hf
                                  exact hf.elim
                                | vFloat q =>
                                  replace hf : False := hf
                                  exact hf.elim
                                | vDict l =>
                                  replace hf : False := hf
                                  exact hf.elim
                              ·
                                have hdd : EdgeData.add_attribute e.data k v = .ok e.data := by
                                  unfold EdgeData.add_attribute
                                  rw [if_neg g10, if_neg g11, if_neg g12, if_neg g13, if_neg g14, if_neg g15]
                                unfold Edge.add_attribute
                                rw [if_neg g1, if_neg g2, if_neg g3, if_neg g4, if_neg g5, if_neg g6,
                                  if_neg g7, if_neg g8, if_neg g9, hdd, res_bind_ok]

/-- The scratch values of the attrs are dicts with pairwise-distinct keys
(Python dict literals always are). -/
def ScrOk (attrs : Attrs) : Prop :=
  ∀ en, ("scratch", Value.vDict en) ∈ attrs → (en.map Prod.fst).Nodup

def scrCheck (kv : String × Value) : Bool :=
  if kv.1 = "scratch" then
    match kv.2 with
    | Value.vDict en => decide ((en.map Prod.fst).Nodup)
    | _ => true
  else true

instance (attrs : Attrs) : Decidable (ScrOk attrs) :=
  decidable_of_iff (attrs.all scrCheck = true)
    (by
      rw [List.all_eq_true]
      constructor
      · intro h en hm
        have h2 := h _ hm
        replace h2 : decide ((en.map Prod.fst).Nodup) = true := h2
        exact of_decide_eq_true h2
      · intro h kv hkv
        obtain ⟨k0, v0⟩ := kv
        by_cases hk : k0 = "scratch"
        · subst hk
          cases v0 with
          | vDict en => exact decide_eq_true (h en hkv)
          | vStr s => rfl
          | vBool b => rfl
          | vFloat q => rfl
        · simp only [scrCheck]
          rw [if_neg hk])

theorem addStep_node_fieldEq (n n1 : Node) (k : String) (v : Value)
    (hscr : k = "scratch" → ∀ en, v = .vDict en → (en.map Prod.fst).Nodup)
    (h : Elem.addStep (.node n) k v = .ok (.node n1)) : NodeFieldEq k v n1 := by
  by_cases hc : k = "classes"
  · subst hc
    unfold Elem.addStep at h
    rw [if_pos rfl] at h
    cases v with
    | vStr s =>
      replace h : (Except.ok (Elem.node
          { n with classes := addClassesStr n.classes s }) : Res Elem) =
          .ok (.node n1) := h
      simp only [Except.ok.injEq, Elem.node.injEq] at h
      subst h
      show addClassesStr n.classes s =
        addClassesStr (addClassesStr n.classes s) s
      exact (addClassesStr_idem n.classes s).symm
    | vBool b =>
      replace h : (Except.error () : Res Elem) = .ok (.node n1) := h
      cases h
    | vFloat q =>
      replace h : (Except.error () : Res Elem) = .ok (.node n1) := h
      cases h
    | vDict l =>
      replace h : (Except.error () : Res Elem) = .ok (.node n1) := h
      cases h
  · exact nodeAddAttr_fieldEq n n1 k v hc hscr (addAttr_node_ok n n1 k v hc h)

theorem addStep_edge_fieldEq (e e1 : Edge) (k : String) (v : Value)
    (hscr : k = "scratch" → ∀ en, v = .vDict en → (en.map Prod.fst).Nodup)
    (h : Elem.addStep (.edge e) k v = .ok (.edge e1)) : EdgeFieldEq k v e1 := by
  by_cases hc : k = "classes"
  · subst hc
    unfold Elem.addStep at h
    rw [if_pos rfl] at h
    cases v with
    | vStr s =>
      replace h : (Except.ok (Elem.edge
          { e with classes := addClassesStr e.classes s }) : Res Elem) =
          .ok (.edge e1) := h
      simp only [Except.ok.injEq, Elem.edge.injEq] at h
      subst h
      show addClassesStr e.classes s =
        addClassesStr (addClassesStr e.classes s) s
      exact (addClassesStr_idem e.classes s).symm
    | vBool b =>
      replace h : (Except.error () : Res Elem) = .ok (.edge e1) := h
      cases h
    | vFloat q =>
      replace h : (Except.error () : Res Elem) = .ok (.edge e1) := h
      cases h
    | vDict l =>
      replace h : (Except.error () : Res Elem) = .ok (.edge e1) := h
      cases h
  · exact edgeAddAttr_fieldEq e e1 k v hc hscr (addAttr_edge_ok e e1 k v hc h)

theorem addStep_node_fix (n : Node) (k : String) (v : Value)
    (hf : NodeFieldEq k v n) : Elem.addStep (.node n) k v = .ok (.node n) := by
  by_cases hc : k = "classes"
  · subst hc
    cases v with
    | vStr s =>
      replace hf : n.classes = addClassesStr n.classes s := hf
      have he : Elem.addStep (.node n) "classes" (.vStr s) =
          .ok (.node { n with classes := addClassesStr n.classes s }) := rfl
      rw [he, ← hf]
    | vBool b =>
      replace hf : False := hf
      exact hf.elim
    | vFloat q =>
      replace hf : False := hf
      exact hf.elim
    | vDict l =>
      replace hf : False := hf
      exact hf.elim
  · exact addStep_node_of_addAttr n n k v hc (nodeAddAttr_fix n k v hc hf)

theorem addStep_edge_fix (e : Edge) (k : String) (v : Value)
    (hf : EdgeFieldEq k v e) : Elem.addStep (.edge e) k v = .ok (.edge e) := by
  by_cases hc : k = "classes"
  · subst hc
    cases v with
    | vStr s =>
      replace hf : e.classes = addClassesStr e.classes s := hf
      have he : Elem.addStep (.edge e) "classes" (.vStr s) =
          .ok (.edge { e with classes := addClassesStr e.classes s }) := rfl
      rw [he, ← hf]
    | vBool b =>
      replace hf : False := hf
      exact hf.elim
    | vFloat q =>
      replace hf : False := hf
      exact hf.elim
    | vDict l =>
      replace hf : False := hf
      exact hf.elim
  · exact addStep_edge_of_addAttr e e k v hc (edgeAddAttr_fix e k v hc hf)

theorem hasKey_false_of_not_mem (attrs : Attrs) (q : String)
    (h : q ∉ attrs.map Prod.fst) : GenericElements.hasKey attrs q = false := by
  unfold GenericElements.hasKey
  rw [List.any_eq_false]
  intro kv hkv
  by_cases hq : kv.1 = q
  · exact absurd (hq ▸ List.mem_map_of_mem Prod.fst hkv) h
  · simpa using hq

/-- A field equation survives merging pairs with other keys (none of them
`data`/`position`), even if the merge raises part-way. -/
theorem nodeFieldEq_fold : ∀ (rest : Attrs) (y : Node) (k : String) (v : Value),
    GenericElements.hasKey rest k = false →
    GenericElements.hasKey rest "data" = false →
    GenericElements.hasKey rest "position" = false →
    k ≠ "data" → k ≠ "position" →
    NodeFieldEq k v y →
    ∃ y', (Elem.add (.node y) rest).1 = .node y' ∧ NodeFieldEq k v y' := by
  intro rest
  induction rest with
  | nil => intro y k v _ _ _ _ _ hf; exact ⟨y, rfl, hf⟩
  | cons kv rest' ih =>
    intro y k v hk hd hp hkd hkp hf
    obtain ⟨k2, v2⟩ := kv
    rw [hasKey_cons, Bool.or_eq_false_iff] at hk hd hp
    have hne : k2 ≠ k := by simpa using hk.1
    have hd2 : k2 ≠ "data" := by simpa using hd.1
    have hp2 : k2 ≠ "position" := by simpa using hp.1
    have hunf : Elem.add (.node y) ((k2, v2) :: rest') =
        match Elem.addStep (.node y) k2 v2 with
        | .ok e1 => e1.add rest'
        | .error _ => (.node y, true) := rfl
    cases hstep : Elem.addStep (.node y) k2 v2 with
    | error u =>
      refine ⟨y, ?_, hf⟩
      rw [hunf, hstep]
    | ok e1 =>
      obtain ⟨y1, he1, _⟩ := addStep_node_track y k2 v2 e1 hd2 hstep
      subst he1
      have hf1 := nodeFieldEq_step_frame y y1 k k2 v v2 hne hkd hkp hd2 hp2 hstep hf
      obtain ⟨y', hres, hf'⟩ := ih y1 k v hk.2 hd.2 hp.2 hkd hkp hf1
      refine ⟨y', ?_, hf'⟩
      rw [hunf, hstep]
      exact hres

/-- The Edge analogue of `nodeFieldEq_fold`. -/
theorem edgeFieldEq_fold : ∀ (rest : Attrs) (y : Edge) (k : String) (v : Value),
    GenericElements.hasKey rest k = false →
    GenericElements.hasKey rest "data" = false →
    k ≠ "data" →
    EdgeFieldEq k v y →
    ∃ y', (Elem.add (.edge y) rest).1 = .edge y' ∧ EdgeFieldEq k v y' := by
  intro rest
  induction rest with
  | nil => intro y k v _ _ _ hf; exact ⟨y, rfl, hf⟩
  | cons kv rest' ih =>
    intro y k v hk hd hkd hf
    obtain ⟨k2, v2⟩ := kv
    rw [hasKey_cons, Bool.or_eq_false_iff] at hk hd
    have hne : k2 ≠ k := by simpa using hk.1
    have hd2 : k2 ≠ "data" := by simpa using hd.1
    have hunf : Elem.add (.edge y) ((k2, v2) :: rest') =
        match Elem.addStep (.edge y) k2 v2 with
        | .ok e1 => e1.add rest'
        | .error _ => (.edge y, true) := rfl
    cases hstep : Elem.addStep (.edge y) k2 v2 with
    | error u =>
      refine ⟨y, ?_, hf⟩
      rw [hunf, hstep]
    | ok e1 =>
      obtain ⟨y1, he1, _⟩ := addStep_edge_track y k2 v2 e1 hd2 hstep
      subst he1
      have hf1 := edgeFieldEq_step_frame y y1 k k2 v v2 hne hkd hd2 hstep hf
      obtain ⟨y', hres, hf'⟩ := ih y1 k v hk.2 hd.2 hkd hf1
      refine ⟨y', ?_, hf'⟩
      rw [hunf, hstep]
      exact hres

/-! ### Raising is a function of the attrs pair alone -/

/-- Whether merging the pair `(k, v)` into a `Node` raises, as a function
of the pair alone: every raise point of the merge (a pydantic validation
of the value, or `.split()`/`.items()` on a value of the wrong kind)
inspects only the value, never the current state. -/
def stepRaisesN (k : String) (v : Value) : Bool :=
  if k = "classes" then (match v with | Value.vStr _ => false | _ => true)
  else if k = "group" then (match v with | Value.vStr _ => false | _ => true)
  else if k = "selected" then (match v with | Value.vBool _ => false | _ => true)
  else if k = "selectable" then (match v with | Value.vBool _ => false | _ => true)
  else if k = "locked" then (match v with | Value.vBool _ => false | _ => true)
  else if k = "grabbable" then (match v with | Value.vBool _ => false | _ => true)
  else if k = "scratch" then (match v with | Value.vDict _ => false | _ => true)
  else if k = "data" then
    (match v with
    | Value.vDict en => (match parseNodeData en with | .ok _ => false | .error _ => true)
    | _ => true)
  else if k = "position" then
    (match v with
    | Value.vDict en => (match parsePosition en with | .ok _ => false | .error _ => true)
    | _ => true)
  else if k = "pannable" then (match v with | Value.vBool _ => false | _ => true)
  else if k = "id" then (match v with | Value.vStr _ => false | _ => true)
  else if k = "parent" then (match v with | Value.vStr _ => false | _ => true)
  else if k = "label" then (match v with | Value.vStr _ => false | _ => true)
  else if k = "x" then (match v with | Value.vFloat _ => false | _ => true)
  else if k = "y" then (match v with | Value.vFloat _ => false | _ => true)
  else false

/-- The maximal prefix of the attrs whose merges into a `Node` all
succeed: exactly the pairs a (possibly raising) merge loop applies. -/
def takeOkN (attrs : Attrs) : Attrs :=
  attrs.takeWhile (fun kv => !stepRaisesN kv.1 kv.2)

theorem takeOkN_cons_ok (k : String) (v : Value) (rest : Attrs)
    (h : stepRaisesN k v = false) :
    takeOkN ((k, v) :: rest) = (k, v) :: takeOkN rest := by
  have he : takeOkN ((k, v) :: rest) =
      (match !stepRaisesN k v with
      | true => (k, v) :: takeOkN rest
      | false => []) := rfl
  rw [he, h]
  rfl

theorem takeOkN_cons_err (k : String) (v : Value) (rest : Attrs)
    (h : stepRaisesN k v = true) : takeOkN ((k, v) :: rest) = [] := by
  have he : takeOkN ((k, v) :: rest) =
      (match !stepRaisesN k v with
      | true => (k, v) :: takeOkN rest
      | false => []) := rfl
  rw [he, h]
  rfl

theorem mem_takeOkN : ∀ (attrs : Attrs) (kv : String × Value),
    kv ∈ takeOkN attrs → kv ∈ attrs ∧ stepRaisesN kv.1 kv.2 = false := by
  intro attrs
  induction attrs with
  | nil => intro kv h; exact absurd h (List.not_mem_nil _)
  | cons hd rest ih =>
    intro kv h
    obtain ⟨k, v⟩ := hd
    cases hb : stepRaisesN k v with
    | true =>
      rw [takeOkN_cons_err k v rest hb] at h
      exact absurd h (List.not_mem_nil _)
    | false =>
      rw [takeOkN_cons_ok k v rest hb] at h
      rcases List.mem_cons.mp h with he | ht
      · subst he
        exact ⟨List.mem_cons_self _ _, hb⟩
      · obtain ⟨h1, h2⟩ := ih kv ht
        exact ⟨List.mem_cons_of_mem _ h1, h2⟩

theorem hasKey_takeOkN (attrs : Attrs) (q : String)
    (h : GenericElements.hasKey attrs q = false) :
    GenericElements.hasKey (takeOkN attrs) q = false := by
  unfold GenericElements.hasKey at h ⊢
  rw [List.any_eq_false] at h ⊢
  intro kv hkv
  exact h kv (mem_takeOkN attrs kv hkv).1

/-! ### Per-pair write equations of the `Node` merge -/

theorem addStepN_classes (n : Node) (s : String) :
    Elem.addStep (.node n) "classes" (.vStr s) =
      .ok (.node { n with classes := addClassesStr n.classes s }) := rfl

theorem addStepN_selected (n : Node) (b : Bool) :
    Elem.addStep (.node n) "selected" (.vBool b) =
      .ok (.node { n with selected := b }) := rfl

theorem addStepN_selectable (n : Node) (b : Bool) :
    Elem.addStep (.node n) "selectable" (.vBool b) =
      .ok (.node { n with selectable := b }) := rfl

theorem addStepN_locked (n : Node) (b : Bool) :
    Elem.addStep (.node n) "locked" (.vBool b) =
      .ok (.node { n with locked := b }) := rfl

theorem addStepN_grabbable (n : Node) (b : Bool) :
    Elem.addStep (.node n) "grabbable" (.vBool b) =
      .ok (.node { n with grabbable := b }) := rfl

theorem addStepN_pannable (n : Node) (b : Bool) :
    Elem.addStep (.node n) "pannable" (.vBool b) =
      .ok (.node { n with pannable := b }) := rfl

theorem addStepN_scratch (n : Node) (en : List (String × Value)) :
    Elem.addStep (.node n) "scratch" (.vDict en) =
      .ok (.node { n with scratch := dsetAll n.scratch en }) := rfl

theorem addStepN_id (n : Node) (s : String) :
    Elem.addStep (.node n) "id" (.vStr s) =
      .ok (.node { n with data := { n.data with id := s } }) := rfl

theorem addStepN_parent (n : Node) (s : String) :
    Elem.addStep (.node n) "parent" (.vStr s) =
      .ok (.node { n with data := { n.data with parent := s } }) := rfl

theorem addStepN_label (n : Node) (s : String) :
    Elem.addStep (.node n) "label" (.vStr s) =
      .ok (.node { n with data := { n.data with label := s } }) := rfl

theorem addStepN_x (n : Node) (q : Rat) :
    Elem.addStep (.node n) "x" (.vFloat q) =
      .ok (.node { n with position := { n.position with x := q } }) := rfl

theorem addStepN_y (n : Node) (q : Rat) :
    Elem.addStep (.node n) "y" (.vFloat q) =
      .ok (.node { n with position := { n.position with y := q } }) := rfl

theorem addStepN_data (n : Node) (en : List (String × Value)) (d : NodeData)
    (hpe : parseNodeData en = .ok d) :
    Elem.addStep (.node n) "data" (.vDict en) = .ok (.node { n with data := d }) := by
  have he : Elem.addStep (.node n) "data" (.vDict en) =
      ((parseNodeData en).bind fun d0 =>
        (Except.ok { n with data := d0 } : Res Node)).map Elem.node := rfl
  rw [he, hpe]
  rfl

theorem addStepN_position (n : Node) (en : List (String × Value)) (p : Position)
    (hpe : parsePosition en = .ok p) :
    Elem.addStep (.node n) "position" (.vDict en) =
      .ok (.node { n with position := p }) := by
  have he : Elem.addStep (.node n) "position" (.vDict en) =
      ((parsePosition en).bind fun p0 =>
        (Except.ok { n with position := p0 } : Res Node)).map Elem.node := rfl
  rw [he, hpe]
  rfl

/-! ### The merge raises exactly when `stepRaisesN` says so -/

theorem addStep_node_err (n : Node) (k : String) (v : Value)
    (h : stepRaisesN k v = true) : Elem.addStep (.node n) k v = .error () := by
  by_cases h1 : k = "classes"
  · subst h1
    cases v with
    | vStr s => exact Bool.noConfusion h
    | vBool b => rfl
    | vFloat q => rfl
    | vDict d => rfl
  by_cases h2 : k = "group"
  · subst h2
    cases v with
    | vStr s => exact Bool.noConfusion h
    | vBool b => rfl
    | vFloat q => rfl
    | vDict d => rfl
  by_cases h3 : k = "selected"
  · subst h3
    cases v with
    | vBool b => exact Bool.noConfusion h
    | vStr s => rfl
    | vFloat q => rfl
    | vDict d => rfl
  by_cases h4 : k = "selectable"
  · subst h4
    cases v with
    | vBool b => exact Bool.noConfusion h
    | vStr s => rfl
    | vFloat q => rfl
    | vDict d => rfl
  by_cases h5 : k = "locked"
  · subst h5
    cases v with
    | vBool b => exact Bool.noConfusion h
    | vStr s => rfl
    | vFloat q => rfl
    | vDict d => rfl
  by_cases h6 : k = "grabbable"
  · subst h6
    cases v with
    | vBool b => exact Bool.noConfusion h
    | vStr s => rfl
    | vFloat q => rfl
    | vDict d => rfl
  by_cases h7 : k = "scratch"
  · subst h7
    cases v with
    | vDict d => exact Bool.noConfusion h
    | vStr s => rfl
    | vBool b => rfl
    | vFloat q => rfl
  by_cases h8 : k = "data"
  · subst h8
    cases v with
    | vDict en =>
      cases hpe : parseNodeData en with
      | ok d =>
        have hb : stepRaisesN "data" (Value.vDict en) =
            (match parseNodeData en with | .ok _ => false | .error _ => true) := rfl
        rw [hb, hpe] at h
        exact Bool.noConfusion h
      | error u =>
        cases u
        have he : Elem.addStep (.node n) "data" (.vDict en) =
            ((parseNodeData en).bind fun d0 =>
              (Except.ok { n with data := d0 } : Res Node)).map Elem.node := rfl
        rw [he, hpe]
        rfl
    | vStr s => rfl
    | vBool b => rfl
    | vFloat q => rfl
  by_cases h9 : k = "position"
  · subst h9
    cases v with
    | vDict en =>
      cases hpe : parsePosition en with
      | ok p =>
        have hb : stepRaisesN "position" (Value.vDict en) =
            (match parsePosition en with | .ok _ => false | .error _ => true) := rfl
        rw [hb, hpe] at h
        exact Bool.noConfusion h
      | error u =>
        cases u
        have he : Elem.addStep (.node n) "position" (.vDict en) =
            ((parsePosition en).bind fun p0 =>
              (Except.ok { n with position := p0 } : Res Node)).map Elem.node := rfl
        rw [he, hpe]
        rfl
    | vStr s => rfl
    | vBool b => rfl
    | vFloat q => rfl
  by_cases h10 : k = "pannable"
  · subst h10
    cases v with
    | vBool b => exact Bool.noConfusion h
    | vStr s => rfl
    | vFloat q => rfl
    | vDict d => rfl
  by_cases h11 : k = "id"
  · subst h11
    cases v with
    | vStr s => exact Bool.noConfusion h
    | vBool b => rfl
    | vFloat q => rfl
    | vDict d => rfl
  by_cases h12 : k = "parent"
  · subst h12
    cases v with
    | vStr s => exact Bool.noConfusion h
    | vBool b => rfl
    | vFloat q => rfl
    | vDict d => rfl
  by_cases h13 : k = "label"
  · subst h13
    cases v with
    | vStr s => exact Bool.noConfusion h
    | vBool b => rfl
    | vFloat q => rfl
    | vDict d => rfl
  by_cases h14 : k = "x"
  · subst h14
    cases v with
    | vFloat q => exact Bool.noConfusion h
    | vStr s => rfl
    | vBool b => rfl
    | vDict d => rfl
  by_cases h15 : k = "y"
  · subst h15
    cases v with
    | vFloat q => exact Bool.noConfusion h
    | vStr s => rfl
    | vBool b => rfl
    | vDict d => rfl
  have hb : stepRaisesN k v = false := by
    unfold stepRaisesN
    rw [if_neg h1, if_neg h2, if_neg h3, if_neg h4, if_neg h5, if_neg h6, if_neg h7,
      if_neg h8, if_neg h9, if_neg h10, if_neg h11, if_neg h12, if_neg h13,
      if_neg h14, if_neg h15]
  rw [hb] at h
  exact Bool.noConfusion h

theorem addStep_node_ok_ex (n : Node) (k : String) (v : Value)
    (h : stepRaisesN k v = false) :
    ∃ n1, Elem.addStep (.node n) k v = .ok (.node n1) := by
  by_cases h1 : k = "classes"
  · subst h1
    cases v with
    | vStr s => exact ⟨_, addStepN_classes n s⟩
    | vBool b => exact Bool.noConfusion h
    | vFloat q => exact Bool.noConfusion h
    | vDict d => exact Bool.noConfusion h
  by_cases h2 : k = "group"
  · subst h2
    cases v with
    | vStr s => exact ⟨n, rfl⟩
    | vBool b => exact Bool.noConfusion h
    | vFloat q => exact Bool.noConfusion h
    | vDict d => exact Bool.noConfusion h
  by_cases h3 : k = "selected"
  · subst h3
    cases v with
    | vBool b => exact ⟨_, addStepN_selected n b⟩
    | vStr s => exact Bool.noConfusion h
    | vFloat q => exact Bool.noConfusion h
    | vDict d => exact Bool.noConfusion h
  by_cases h4 : k = "selectable"
  · subst h4
    cases v with
    | vBool b => exact ⟨_, addStepN_selectable n b⟩
    | vStr s => exact Bool.noConfusion h
    | vFloat q => exact Bool.noConfusion h
    | vDict d => exact Bool.noConfusion h
  by_cases h5 : k = "locked"
  · subst h5
    cases v with
    | vBool b => exact ⟨_, addStepN_locked n b⟩
    | vStr s => exact Bool.noConfusion h
    | vFloat q => exact Bool.noConfusion h
    | vDict d => exact Bool.noConfusion h
  by_cases h6 : k = "grabbable"
  · subst h6
    cases v with
    | vBool b => exact ⟨_, addStepN_grabbable n b⟩
    | vStr s => exact Bool.noConfusion h
    | vFloat q => exact Bool.noConfusion h
    | vDict d => exact Bool.noConfusion h
  by_cases h7 : k = "scratch"
  · subst h7
    cases v with
    | vDict en => exact ⟨_, addStepN_scratch n en⟩
    | vStr s => exact Bool.noConfusion h
    | vBool b => exact Bool.noConfusion h
    | vFloat q => exact Bool.noConfusion h
  by_cases h8 : k = "data"
  · subst h8
    cases v with
    | vDict en =>
      cases hpe : parseNodeData en with
      | ok d => exact ⟨_, addStepN_data n en d hpe⟩
      | error u =>
        have hb : stepRaisesN "data" (Value.vDict en) =
            (match parseNodeData en with | .ok _ => false | .error _ => true) := rfl
        rw [hb, hpe] at h
        exact Bool.noConfusion h
    | vStr s => exact Bool.noConfusion h
    | vBool b => exact Bool.noConfusion h
    | vFloat q => exact Bool.noConfusion h
  by_cases h9 : k = "position"
  · subst h9
    cases v with
    | vDict en =>
      cases hpe : parsePosition en with
      | ok p => exact ⟨_, addStepN_position n en p hpe⟩
      | error u =>
        have hb : stepRaisesN "position" (Value.vDict en) =
            (match parsePosition en with | .ok _ => false | .error _ => true) := rfl
        rw [hb, hpe] at h
        exact Bool.noConfusion h
    | vStr s => exact Bool.noConfusion h
    | vBool b => exact Bool.noConfusion h
    | vFloat q => exact Bool.noConfusion h
  by_cases h10 : k = "pannable"
  · subst h10
    cases v with
    | vBool b => exact ⟨_, addStepN_pannable n b⟩
    | vStr s => exact Bool.noConfusion h
    | vFloat q => exact Bool.noConfusion h
    | vDict d => exact Bool.noConfusion h
  by_cases h11 : k = "id"
  · subst h11
    cases v with
    | vStr s => exact ⟨_, addStepN_id n s⟩
    | vBool b => exact Bool.noConfusion h
    | vFloat q => exact Bool.noConfusion h
    | vDict d => exact Bool.noConfusion h
  by_cases h12 : k = "parent"
  · subst h12
    cases v with
    | vStr s => exact ⟨_, addStepN_parent n s⟩
    | vBool b => exact Bool.noConfusion h
    | vFloat q => exact Bool.noConfusion h
    | vDict d => exact Bool.noConfusion h
  by_cases h13 : k = "label"
  · subst h13
    cases v with
    | vStr s => exact ⟨_, addStepN_label n s⟩
    | vBool b => exact Bool.noConfusion h
    | vFloat q => exact Bool.noConfusion h
    | vDict d => exact Bool.noConfusion h
  by_cases h14 : k = "x"
  · subst h14
    cases v with
    | vFloat q => exact ⟨_, addStepN_x n q⟩
    | vStr s => exact Bool.noConfusion h
    | vBool b => exact Bool.noConfusion h
    | vDict d => exact Bool.noConfusion h
  by_cases h15 : k = "y"
  · subst h15
    cases v with
    | vFloat q => exact ⟨_, addStepN_y n q⟩
    | vStr s => exact Bool.noConfusion h
    | vBool b => exact Bool.noConfusion h
    | vDict d => exact Bool.noConfusion h
  refine ⟨n, ?_⟩
  have hdd : NodeData.add_attribute n.data k v = .ok n.data := by
    unfold NodeData.add_attribute
    rw [if_neg h11, if_neg h12, if_neg h13]
  have hpp : Position.add_attribute n.position k v = .ok n.position := by
    unfold Position.add_attribute
    rw [if_neg h14, if_neg h15]
  have hnn : Node.add_attribute n k v = .ok n := by
    unfold Node.add_attribute
    rw [if_neg h2, if_neg h1, if_neg h3, if_neg h4, if_neg h5, if_neg h6, if_neg h7,
      if_neg h8, if_neg h9, if_neg h10, hdd]
    show (Position.add_attribute n.position k v >>= fun p =>
      (Except.ok { n with data := n.data, position := p } : Res Node)) = .ok n
    rw [hpp]
    rfl
  exact addStep_node_of_addAttr n n k v h1 hnn

theorem addStep_node_noraise (n : Node) (k : String) (v : Value) (e1 : Elem)
    (h : Elem.addStep (.node n) k v = .ok e1) : stepRaisesN k v = false := by
  cases hb : stepRaisesN k v with
  | false => rfl
  | true =>
    rw [addStep_node_err n k v hb] at h
    exact Except.noConfusion h

theorem addStep_node_shape (n : Node) (k : String) (v : Value) (e1 : Elem)
    (h : Elem.addStep (.node n) k v = .ok e1) : ∃ n1, e1 = .node n1 := by
  obtain ⟨n1, he⟩ := addStep_node_ok_ex n k v (addStep_node_noraise n k v e1 h)
  rw [he] at h
  refine ⟨n1, ?_⟩
  injection h with h2
  exact h2.symm

/-- The merge loop started on a `Node` ends on a `Node`. -/
theorem Elem.add_node_shape : ∀ (attrs : Attrs) (n : Node),
    ∃ y, (Elem.add (.node n) attrs).1 = .node y := by
  intro attrs
  induction attrs with
  | nil => intro n; exact ⟨n, rfl⟩
  | cons kv rest ih =>
    intro n
    obtain ⟨k, v⟩ := kv
    have hunf : Elem.add (.node n) ((k, v) :: rest) =
        match Elem.addStep (.node n) k v with
        | .ok e1 => e1.add rest
        | .error _ => (.node n, true) := rfl
    cases hstep : Elem.addStep (.node n) k v with
    | error u => exact ⟨n, by simp only [hunf, hstep]⟩
    | ok e1 =>
      obtain ⟨n1, he⟩ := addStep_node_shape n k v e1 hstep
      subst he
      obtain ⟨y, hy⟩ := ih n1
      refine ⟨y, ?_⟩
      simp only [hunf, hstep]
      exact hy

/-! ### Frame and absorption over the applied prefix -/

/-- The merge loop leaves every location its applied prefix never writes
unchanged (a raising pair mutates nothing and stops the loop). -/
theorem node_fold_frame : ∀ (attrs : Attrs) (n y : Node),
    (Elem.add (.node n) attrs).1 = .node y →
    (GenericElements.hasKey (takeOkN attrs) "classes" = false → y.classes = n.classes) ∧
    (GenericElements.hasKey (takeOkN attrs) "selected" = false →
      y.selected = n.selected) ∧
    (GenericElements.hasKey (takeOkN attrs) "selectable" = false →
      y.selectable = n.selectable) ∧
    (GenericElements.hasKey (takeOkN attrs) "locked" = false → y.locked = n.locked) ∧
    (GenericElements.hasKey (takeOkN attrs) "grabbable" = false →
      y.grabbable = n.grabbable) ∧
    (GenericElements.hasKey (takeOkN attrs) "pannable" = false →
      y.pannable = n.pannable) ∧
    (GenericElements.hasKey (takeOkN attrs) "scratch" = false →
      y.scratch = n.scratch) ∧
    (GenericElements.hasKey (takeOkN attrs) "id" = false →
      GenericElements.hasKey (takeOkN attrs) "data" = false →
      y.data.id = n.data.id) ∧
    (GenericElements.hasKey (takeOkN attrs) "parent" = false →
      GenericElements.hasKey (takeOkN attrs) "data" = false →
      y.data.parent = n.data.parent) ∧
    (GenericElements.hasKey (takeOkN attrs) "label" = false →
      GenericElements.hasKey (takeOkN attrs) "data" = false →
      y.data.label = n.data.label) ∧
    (GenericElements.hasKey (takeOkN attrs) "x" = false →
      GenericElements.hasKey (takeOkN attrs) "position" = false →
      y.position.x = n.position.x) ∧
    (GenericElements.hasKey (takeOkN attrs) "y" = false →
      GenericElements.hasKey (takeOkN attrs) "position" = false →
      y.position.y = n.position.y) := by
  intro attrs
  induction attrs with
  | nil =>
    intro n y hy
    replace hy : Elem.node n = .node y := hy
    rw [Elem.node.injEq] at hy
    subst hy
    exact ⟨fun _ => rfl, fun _ => rfl, fun _ => rfl, fun _ => rfl, fun _ => rfl,
      fun _ => rfl, fun _ => rfl, fun _ _ => rfl, fun _ _ => rfl, fun _ _ => rfl,
      fun _ _ => rfl, fun _ _ => rfl⟩
  | cons kv rest ih =>
    intro n y hy
    obtain ⟨k, v⟩ := kv
    have hunf : Elem.add (.node n) ((k, v) :: rest) =
        match Elem.addStep (.node n) k v with
        | .ok e1 => e1.add rest
        | .error _ => (.node n, true) := rfl
    cases hstep : Elem.addStep (.node n) k v with
    | error u =>
      simp only [hunf, hstep] at hy
      replace hy : Elem.node n = .node y := hy
      rw [Elem.node.injEq] at hy
      subst hy
      exact ⟨fun _ => rfl, fun _ => rfl, fun _ => rfl, fun _ => rfl, fun _ => rfl,
        fun _ => rfl, fun _ => rfl, fun _ _ => rfl, fun _ _ => rfl, fun _ _ => rfl,
        fun _ _ => rfl, fun _ _ => rfl⟩
    | ok e1 =>
      obtain ⟨n1, he1⟩ := addStep_node_shape n k v e1 hstep
      subst he1
      simp only [hunf, hstep] at hy
      have hok := addStep_node_noraise n k v _ hstep
      have htk := takeOkN_cons_ok k v rest hok
      obtain ⟨f1, f2, f3, f4, f5, f6, f7, f8, f9, f10, f11, f12⟩ :=
        addStep_node_frame n n1 k v hstep
      obtain ⟨g1, g2, g3, g4, g5, g6, g7, g8, g9, g10, g11, g12⟩ := ih n1 y hy
      rw [htk]
      refine ⟨?_, ?_, ?_, ?_, ?_, ?_, ?_, ?_, ?_, ?_, ?_, ?_⟩
      · intro hq
        rw [hasKey_cons, Bool.or_eq_false_iff] at hq
        exact (g1 hq.2).trans (f1 (by simpa using hq.1))
      · intro hq
        rw [hasKey_cons, Bool.or_eq_false_iff] at hq
        exact (g2 hq.2).trans (f2 (by simpa using hq.1))
      · intro hq
        rw [hasKey_cons, Bool.or_eq_false_iff] at hq
        exact (g3 hq.2).trans (f3 (by simpa using hq.1))
      · intro hq
        rw [hasKey_cons, Bool.or_eq_false_iff] at hq
        exact (g4 hq.2).trans (f4 (by simpa using hq.1))
      · intro hq
        rw [hasKey_cons, Bool.or_eq_false_iff] at hq
        exact (g5 hq.2).trans (f5 (by simpa using hq.1))
      · intro hq
        rw [hasKey_cons, Bool.or_eq_false_iff] at hq
        exact (g6 hq.2).trans (f6 (by simpa using hq.1))
      · intro hq
        rw [hasKey_cons, Bool.or_eq_false_iff] at hq
        exact (g7 hq.2).trans (f7 (by simpa using hq.1))
      · intro hq hdd
        rw [hasKey_cons, Bool.or_eq_false_iff] at hq hdd
        exact (g8 hq.2 hdd.2).trans (f8 (by simpa using hdd.1) (by simpa using hq.1))
      · intro hq hdd
        rw [hasKey_cons, Bool.or_eq_false_iff] at hq hdd
        exact (g9 hq.2 hdd.2).trans (f9 (by simpa using hdd.1) (by simpa using hq.1))
      · intro hq hdd
        rw [hasKey_cons, Bool.or_eq_false_iff] at hq hdd
        exact (g10 hq.2 hdd.2).trans (f10 (by simpa using hdd.1) (by simpa using hq.1))
      · intro hq hpp
        rw [hasKey_cons, Bool.or_eq_false_iff] at hq hpp
        exact (g11 hq.2 hpp.2).trans (f11 (by simpa using hpp.1) (by simpa using hq.1))
      · intro hq hpp
        rw [hasKey_cons, Bool.or_eq_false_iff] at hq hpp
        exact (g12 hq.2 hpp.2).trans (f12 (by simpa using hpp.1) (by simpa using hq.1))

/-- If the applied prefix contains the (unique) `classes` pair, the loop
result carries the correspondingly extended classes string. -/
theorem node_fold_classes : ∀ (attrs : Attrs) (n y : Node) (s : String),
    (attrs.map Prod.fst).Nodup →
    ("classes", Value.vStr s) ∈ takeOkN attrs →
    (Elem.add (.node n) attrs).1 = .node y →
    y.classes = addClassesStr n.classes s := by
  intro attrs
  induction attrs with
  | nil =>
    intro n y s _ hm _
    exact absurd hm (List.not_mem_nil _)
  | cons kv rest ih =>
    intro n y s hnd hm hy
    obtain ⟨k, v⟩ := kv
    simp only [List.map_cons, List.nodup_cons] at hnd
    cases hb : stepRaisesN k v with
    | true =>
      rw [takeOkN_cons_err k v rest hb] at hm
      exact absurd hm (List.not_mem_nil _)
    | false =>
      rw [takeOkN_cons_ok k v rest hb] at hm
      obtain ⟨n1, hstep⟩ := addStep_node_ok_ex n k v hb
      have hunf : Elem.add (.node n) ((k, v) :: rest) =
          match Elem.addStep (.node n) k v with
          | .ok e1 => e1.add rest
          | .error _ => (.node n, true) := rfl
      simp only [hunf, hstep] at hy
      rcases List.mem_cons.mp hm with he | ht
      · rw [Prod.mk.injEq] at he
        obtain ⟨hk, hv⟩ := he
        subst hk
        subst hv
        rw [addStepN_classes] at hstep
        simp only [Except.ok.injEq, Elem.node.injEq] at hstep
        subst hstep
        have hnk : GenericElements.hasKey rest "classes" = false :=
          hasKey_false_of_not_mem rest "classes" hnd.1
        obtain ⟨F1, _, _, _, _, _, _, _, _, _, _, _⟩ := node_fold_frame rest _ y hy
        rw [F1 (hasKey_takeOkN rest "classes" hnk)]
      · have hk2 : k ≠ "classes" := by
          intro hkc
          subst hkc
          exact hnd.1 (List.mem_map_of_mem Prod.fst (mem_takeOkN rest _ ht).1)
        obtain ⟨f1, _, _, _, _, _, _, _, _, _, _, _⟩ :=
          addStep_node_frame n n1 k v hstep
        rw [ih n1 y s hnd.2 ht hy, f1 hk2]

/-- If the applied prefix contains the (unique) `scratch` pair, the loop
result carries the correspondingly merged scratch dict. -/
theorem node_fold_scratch : ∀ (attrs : Attrs) (n y : Node)
    (en : List (String × Value)),
    (attrs.map Prod.fst).Nodup →
    ("scratch", Value.vDict en) ∈ takeOkN attrs →
    (Elem.add (.node n) attrs).1 = .node y →
    y.scratch = dsetAll n.scratch en := by
  intro attrs
  induction attrs with
  | nil =>
    intro n y en _ hm _
    exact absurd hm (List.not_mem_nil _)
  | cons kv rest ih =>
    intro n y en hnd hm hy
    obtain ⟨k, v⟩ := kv
    simp only [List.map_cons, List.nodup_cons] at hnd
    cases hb : stepRaisesN k v with
    | true =>
      rw [takeOkN_cons_err k v rest hb] at hm
      exact absurd hm (List.not_mem_nil _)
    | false =>
      rw [takeOkN_cons_ok k v rest hb] at hm
      obtain ⟨n1, hstep⟩ := addStep_node_ok_ex n k v hb
      have hunf : Elem.add (.node n) ((k, v) :: rest) =
          match Elem.addStep (.node n) k v with
          | .ok e1 => e1.add rest
          | .error _ => (.node n, true) := rfl
      simp only [hunf, hstep] at hy
      rcases List.mem_cons.mp hm with he | ht
      · rw [Prod.mk.injEq] at he
        obtain ⟨hk, hv⟩ := he
        subst hk
        subst hv
        rw [addStepN_scratch] at hstep
        simp only [Except.ok.injEq, Elem.node.injEq] at hstep
        subst hstep
        have hnk : GenericElements.hasKey rest "scratch" = false :=
          hasKey_false_of_not_mem rest "scratch" hnd.1
        obtain ⟨_, _, _, _, _, _, F7, _, _, _, _, _⟩ := node_fold_frame rest _ y hy
        rw [F7 (hasKey_takeOkN rest "scratch" hnk)]
      · have hk2 : k ≠ "scratch" := by
          intro hkc
          subst hkc
          exact hnd.1 (List.mem_map_of_mem Prod.fst (mem_takeOkN rest _ ht).1)
        obtain ⟨_, _, _, _, _, _, f7, _, _, _, _, _⟩ :=
          addStep_node_frame n n1 k v hstep
        rw [ih n1 y en hnd.2 ht hy, f7 hk2]

/-! ### Two start states the merge loop cannot distinguish -/

theorem nodeDataExt (a b : NodeData) (h1 : a.id = b.id) (h2 : a.parent = b.parent)
    (h3 : a.label = b.label) : a = b := by
  cases a
  cases b
  simp_all

theorem positionExt (a b : Position) (h1 : a.x = b.x) (h2 : a.y = b.y) : a = b := by
  cases a
  cases b
  simp_all

theorem nodeExt (a b : Node) (h1 : a.classes = b.classes)
    (h2 : a.selected = b.selected) (h3 : a.selectable = b.selectable)
    (h4 : a.locked = b.locked) (h5 : a.grabbable = b.grabbable)
    (h6 : a.scratch = b.scratch) (h7 : a.data = b.data)
    (h8 : a.position = b.position) (h9 : a.pannable = b.pannable) : a = b := by
  cases a
  cases b
  simp_all

/-- Start states of the same `Node` merge loop that the loop cannot tell
apart: each location either already agrees, or is rewritten by the applied
prefix with the same result from both sides (constant writes always are;
the absorbing `classes`/`scratch` writes must agree explicitly). -/
def NodeSync (attrs : Attrs) (n m : Node) : Prop :=
  (m.classes = n.classes ∨ ∃ s, ("classes", Value.vStr s) ∈ takeOkN attrs ∧
    addClassesStr m.classes s = addClassesStr n.classes s) ∧
  (m.selected = n.selected ∨
    GenericElements.hasKey (takeOkN attrs) "selected" = true) ∧
  (m.selectable = n.selectable ∨
    GenericElements.hasKey (takeOkN attrs) "selectable" = true) ∧
  (m.locked = n.locked ∨ GenericElements.hasKey (takeOkN attrs) "locked" = true) ∧
  (m.grabbable = n.grabbable ∨
    GenericElements.hasKey (takeOkN attrs) "grabbable" = true) ∧
  (m.pannable = n.pannable ∨
    GenericElements.hasKey (takeOkN attrs) "pannable" = true) ∧
  (m.scratch = n.scratch ∨ ∃ en, ("scratch", Value.vDict en) ∈ takeOkN attrs ∧
    dsetAll m.scratch en = dsetAll n.scratch en) ∧
  (m.data.id = n.data.id ∨ GenericElements.hasKey (takeOkN attrs) "id" = true ∨
    GenericElements.hasKey (takeOkN attrs) "data" = true) ∧
  (m.data.parent = n.data.parent ∨
    GenericElements.hasKey (takeOkN attrs) "parent" = true ∨
    GenericElements.hasKey (takeOkN attrs) "data" = true) ∧
  (m.data.label = n.data.label ∨
    GenericElements.hasKey (takeOkN attrs) "label" = true ∨
    GenericElements.hasKey (takeOkN attrs) "data" = true) ∧
  (m.position.x = n.position.x ∨ GenericElements.hasKey (takeOkN attrs) "x" = true ∨
    GenericElements.hasKey (takeOkN attrs) "position" = true) ∧
  (m.position.y = n.position.y ∨ GenericElements.hasKey (takeOkN attrs) "y" = true ∨
    GenericElements.hasKey (takeOkN attrs) "position" = true)

/-- If the loop applies nothing, indistinguishable start states are equal. -/
theorem nodeSync_empty_eq (attrs : Attrs) (n m : Node)
    (htk : takeOkN attrs = []) (h : NodeSync attrs n m) : m = n := by
  obtain ⟨c1, c2, c3, c4, c5, c6, c7, c8, c9, c10, c11, c12⟩ := h
  rw [htk] at c1 c2 c3 c4 c5 c6 c7 c8 c9 c10 c11 c12
  have e1 : m.classes = n.classes := by
    rcases c1 with h | ⟨s, hs, _⟩
    · exact h
    · exact absurd hs (List.not_mem_nil _)
  have e2 : m.selected = n.selected := by
    rcases c2 with h | h
    · exact h
    · exact Bool.noConfusion h
  have e3 : m.selectable = n.selectable := by
    rcases c3 with h | h
    · exact h
    · exact Bool.noConfusion h
  have e4 : m.locked = n.locked := by
    rcases c4 with h | h
    · exact h
    · exact Bool.noConfusion h
  have e5 : m.grabbable = n.grabbable := by
    rcases c5 with h | h
    · exact h
    · exact Bool.noConfusion h
  have e6 : m.pannable = n.pannable := by
    rcases c6 with h | h
    · exact h
    · exact Bool.noConfusion h
  have e7 : m.scratch = n.scratch := by
    rcases c7 with h | ⟨en, hs, _⟩
    · exact h
    · exact absurd hs (List.not_mem_nil _)
  have e8 : m.data.id = n.data.id := by
    rcases c8 with h | h | h
    · exact h
    · exact Bool.noConfusion h
    · exact Bool.noConfusion h
  have e9 : m.data.parent = n.data.parent := by
    rcases c9 with h | h | h
    · exact h
    · exact Bool.noConfusion h
    · exact Bool.noConfusion h
  have e10 : m.data.label = n.data.label := by
    rcases c10 with h | h | h
    · exact h
    · exact Bool.noConfusion h
    · exact Bool.noConfusion h
  have e11 : m.position.x = n.position.x := by
    rcases c11 with h | h | h
    · exact h
    · exact Bool.noConfusion h
    · exact Bool.noConfusion h
  have e12 : m.position.y = n.position.y := by
    rcases c12 with h | h | h
    · exact h
    · exact Bool.noConfusion h
    · exact Bool.noConfusion h
  exact nodeExt m n e1 e2 e3 e4 e5 e7 (nodeDataExt m.data n.data e8 e9 e10)
    (positionExt m.position n.position e11 e12) e6

/-- Applying one non-raising pair to two indistinguishable start states
keeps them indistinguishable for the remaining pairs. -/
theorem nodeSync_step (k : String) (v : Value) (rest : Attrs) (n m n1 m1 : Node)
    (hnd : k ∉ rest.map Prod.fst)
    (hok : stepRaisesN k v = false)
    (hsn : Elem.addStep (.node n) k v = .ok (.node n1))
    (hsm : Elem.addStep (.node m) k v = .ok (.node m1))
    (hsync : NodeSync ((k, v) :: rest) n m) :
    NodeSync rest n1 m1 := by
  have htk := takeOkN_cons_ok k v rest hok
  obtain ⟨c1, c2, c3, c4, c5, c6, c7, c8, c9, c10, c11, c12⟩ := hsync
  rw [htk] at c1 c2 c3 c4 c5 c6 c7 c8 c9 c10 c11 c12
  obtain ⟨f1, f2, f3, f4, f5, f6, f7, f8, f9, f10, f11, f12⟩ :=
    addStep_node_frame n n1 k v hsn
  obtain ⟨g1, g2, g3, g4, g5, g6, g7, g8, g9, g10, g11, g12⟩ :=
    addStep_node_frame m m1 k v hsm
  refine ⟨?_, ?_, ?_, ?_, ?_, ?_, ?_, ?_, ?_, ?_, ?_, ?_⟩
  · by_cases hk : k = "classes"
    · subst hk
      left
      cases v with
      | vStr s =>
        rw [addStepN_classes] at hsn hsm
        simp only [Except.ok.injEq, Elem.node.injEq] at hsn hsm
        subst hsn
        subst hsm
        show addClassesStr m.classes s = addClassesStr n.classes s
        rcases c1 with hA | ⟨s2, hmem, heq⟩
        · rw [hA]
        · rcases List.mem_cons.mp hmem with he | ht
          · have hs2 : s2 = s := by
              rw [Prod.mk.injEq, Value.vStr.injEq] at he
              exact he.2
            rw [← hs2]
            exact heq
          · exact absurd (List.mem_map_of_mem Prod.fst (mem_takeOkN rest _ ht).1) hnd
      | vBool b => exact Bool.noConfusion hok
      | vFloat q => exact Bool.noConfusion hok
      | vDict d => exact Bool.noConfusion hok
    · rcases c1 with hA | ⟨s2, hmem, heq⟩
      · left
        rw [g1 hk, f1 hk]
        exact hA
      · right
        refine ⟨s2, ?_, ?_⟩
        · rcases List.mem_cons.mp hmem with he | ht
          · exfalso
            rw [Prod.mk.injEq] at he
            exact hk he.1.symm
          · exact ht
        · rw [g1 hk, f1 hk]
          exact heq
  · by_cases hk : k = "selected"
    · subst hk
      left
      cases v with
      | vBool b =>
        rw [addStepN_selected] at hsn hsm
        simp only [Except.ok.injEq, Elem.node.injEq] at hsn hsm
        subst hsn
        subst hsm
        rfl
      | vStr s => exact Bool.noConfusion hok
      | vFloat q => exact Bool.noConfusion hok
      | vDict d => exact Bool.noConfusion hok
    · rcases c2 with hA | hB
      · left
        rw [g2 hk, f2 hk]
        exact hA
      · right
        rw [hasKey_cons] at hB
        simp only [Bool.or_eq_true, beq_iff_eq] at hB
        rcases hB with h | h
        · exact absurd h hk
        · exact h
  · by_cases hk : k = "selectable"
    · subst hk
      left
      cases v with
      | vBool b =>
        rw [addStepN_selectable] at hsn hsm
        simp only [Except.ok.injEq, Elem.node.injEq] at hsn hsm
        subst hsn
        subst hsm
        rfl
      | vStr s => exact Bool.noConfusion hok
      | vFloat q => exact Bool.noConfusion hok
      | vDict d => exact Bool.noConfusion hok
    · rcases c3 with hA | hB
      · left
        rw [g3 hk, f3 hk]
        exact hA
      · right
        rw [hasKey_cons] at hB
        simp only [Bool.or_eq_true, beq_iff_eq] at hB
        rcases hB with h | h
        · exact absurd h hk
        · exact h
  · by_cases hk : k = "locked"
    · subst hk
      left
      cases v with
      | vBool b =>
        rw [addStepN_locked] at hsn hsm
        simp only [Except.ok.injEq, Elem.node.injEq] at hsn hsm
        subst hsn
        subst hsm
        rfl
      | vStr s => exact Bool.noConfusion hok
      | vFloat q => exact Bool.noConfusion hok
      | vDict d => exact Bool.noConfusion hok
    · rcases c4 with hA | hB
      · left
        rw [g4 hk, f4 hk]
        exact hA
      · right
        rw [hasKey_cons] at hB
        simp only [Bool.or_eq_true, beq_iff_eq] at hB
        rcases hB with h | h
        · exact absurd h hk
        · exact h
  · by_cases hk : k = "grabbable"
    · subst hk
      left
      cases v with
      | vBool b =>
        rw [addStepN_grabbable] at hsn hsm
        simp only [Except.ok.injEq, Elem.node.injEq] at hsn hsm
        subst hsn
        subst hsm
        rfl
      | vStr s => exact Bool.noConfusion hok
      | vFloat q => exact Bool.noConfusion hok
      | vDict d => exact Bool.noConfusion hok
    · rcases c5 with hA | hB
      · left
        rw [g5 hk, f5 hk]
        exact hA
      · right
        rw [hasKey_cons] at hB
        simp only [Bool.or_eq_true, beq_iff_eq] at hB
        rcases hB with h | h
        · exact absurd h hk
        · exact h
  · by_cases hk : k = "pannable"
    · subst hk
      left
      cases v with
      | vBool b =>
        rw [addStepN_pannable] at hsn hsm
        simp only [Except.ok.injEq, Elem.node.injEq] at hsn hsm
        subst hsn
        subst hsm
        rfl
      | vStr s => exact Bool.noConfusion hok
      | vFloat q => exact Bool.noConfusion hok
      | vDict d => exact Bool.noConfusion hok
    · rcases c6 with hA | hB
      · left
        rw [g6 hk, f6 hk]
        exact hA
      · right
        rw [hasKey_cons] at hB
        simp only [Bool.or_eq_true, beq_iff_eq] at hB
        rcases hB with h | h
        · exact absurd h hk
        · exact h
  · by_cases hk : k = "scratch"
    · subst hk
      left
      cases v with
      | vDict en =>
        rw [addStepN_scratch] at hsn hsm
        simp only [Except.ok.injEq, Elem.node.injEq] at hsn hsm
        subst hsn
        subst hsm
        show dsetAll m.scratch en = dsetAll n.scratch en
        rcases c7 with hA | ⟨en2, hmem, heq⟩
        · rw [hA]
        · rcases List.mem_cons.mp hmem with he | ht
          · have hen2 : en2 = en := by
              rw [Prod.mk.injEq, Value.vDict.injEq] at he
              exact he.2
            rw [← hen2]
            exact heq
          · exact absurd (List.mem_map_of_mem Prod.fst (mem_takeOkN rest _ ht).1) hnd
      | vStr s => exact Bool.noConfusion hok
      | vBool b => exact Bool.noConfusion hok
      | vFloat q => exact Bool.noConfusion hok
    · rcases c7 with hA | ⟨en2, hmem, heq⟩
      · left
        rw [g7 hk, f7 hk]
        exact hA
      · right
        refine ⟨en2, ?_, ?_⟩
        · rcases List.mem_cons.mp hmem with he | ht
          · exfalso
            rw [Prod.mk.injEq] at he
            exact hk he.1.symm
          · exact ht
        · rw [g7 hk, f7 hk]
          exact heq
  · by_cases hk : k = "id"
    · subst hk
      left
      cases v with
      | vStr s =>
        rw [addStepN_id] at hsn hsm
        simp only [Except.ok.injEq, Elem.node.injEq] at hsn hsm
        subst hsn
        subst hsm
        rfl
      | vBool b => exact Bool.noConfusion hok
      | vFloat q => exact Bool.noConfusion hok
      | vDict d => exact Bool.noConfusion hok
    by_cases hkd : k = "data"
    · subst hkd
      left
      cases v with
      | vDict en =>
        cases hpe : parseNodeData en with
        | ok d =>
          rw [addStepN_data _ en d hpe] at hsn hsm
          simp only [Except.ok.injEq, Elem.node.injEq] at hsn hsm
          subst hsn
          subst hsm
          rfl
        | error u =>
          have hb2 : stepRaisesN "data" (Value.vDict en) =
              (match parseNodeData en with | .ok _ => false | .error _ => true) := rfl
          rw [hb2, hpe] at hok
          exact Bool.noConfusion hok
      | vStr s => exact Bool.noConfusion hok
      | vBool b => exact Bool.noConfusion hok
      | vFloat q => exact Bool.noConfusion hok
    · rcases c8 with hA | hB | hB
      · left
        rw [g8 hkd hk, f8 hkd hk]
        exact hA
      · right
        left
        rw [hasKey_cons] at hB
        simp only [Bool.or_eq_true, beq_iff_eq] at hB
        rcases hB with h | h
        · exact absurd h hk
        · exact h
      · right
        right
        rw [hasKey_cons] at hB
        simp only [Bool.or_eq_true, beq_iff_eq] at hB
        rcases hB with h | h
        · exact absurd h hkd
        · exact h
  · by_cases hk : k = "parent"
    · subst hk
      left
      cases v with
      | vStr s =>
        rw [addStepN_parent] at hsn hsm
        simp only [Except.ok.injEq, Elem.node.injEq] at hsn hsm
        subst hsn
        subst hsm
        rfl
      | vBool b => exact Bool.noConfusion hok
      | vFloat q => exact Bool.noConfusion hok
      | vDict d => exact Bool.noConfusion hok
    by_cases hkd : k = "data"
    · subst hkd
      left
      cases v with
      | vDict en =>
        cases hpe : parseNodeData en with
        | ok d =>
          rw [addStepN_data _ en d hpe] at hsn hsm
          simp only [Except.ok.injEq, Elem.node.injEq] at hsn hsm
          subst hsn
          subst hsm
          rfl
        | error u =>
          have hb2 : stepRaisesN "data" (Value.vDict en) =
              (match parseNodeData en with | .ok _ => false | .error _ => true) := rfl
          rw [hb2, hpe] at hok
          exact Bool.noConfusion hok
      | vStr s => exact Bool.noConfusion hok
      | vBool b => exact Bool.noConfusion hok
      | vFloat q => exact Bool.noConfusion hok
    · rcases c9 with hA | hB | hB
      · left
        rw [g9 hkd hk, f9 hkd hk]
        exact hA
      · right
        left
        rw [hasKey_cons] at hB
        simp only [Bool.or_eq_true, beq_iff_eq] at hB
        rcases hB with h | h
        · exact absurd h hk
        · exact h
      · right
        right
        rw [hasKey_cons] at hB
        simp only [Bool.or_eq_true, beq_iff_eq] at hB
        rcases hB with h | h
        · exact absurd h hkd
        · exact h
  · by_cases hk : k = "label"
    · subst hk
      left
      cases v with
      | vStr s =>
        rw [addStepN_label] at hsn hsm
        simp only [Except.ok.injEq, Elem.node.injEq] at hsn hsm
        subst hsn
        subst hsm
        rfl
      | vBool b => exact Bool.noConfusion hok
      | vFloat q => exact Bool.noConfusion hok
      | vDict d => exact Bool.noConfusion hok
    by_cases hkd : k = "data"
    · subst hkd
      left
      cases v with
      | vDict en =>
        cases hpe : parseNodeData en with
        | ok d =>
          rw [addStepN_data _ en d hpe] at hsn hsm
          simp only [Except.ok.injEq, Elem.node.injEq] at hsn hsm
          subst hsn
          subst hsm
          rfl
        | error u =>
          have hb2 : stepRaisesN "data" (Value.vDict en) =
              (match parseNodeData en with | .ok _ => false | .error _ => true) := rfl
          rw [hb2, hpe] at hok
          exact Bool.noConfusion hok
      | vStr s => exact Bool.noConfusion hok
      | vBool b => exact Bool.noConfusion hok
      | vFloat q => exact Bool.noConfusion hok
    · rcases c10 with hA | hB | hB
      · left
        rw [g10 hkd hk, f10 hkd hk]
        exact hA
      · right
        left
        rw [hasKey_cons] at hB
        simp only [Bool.or_eq_true, beq_iff_eq] at hB
        rcases hB with h | h
        · exact absurd h hk
        · exact h
      · right
        right
        rw [hasKey_cons] at hB
        simp only [Bool.or_eq_true, beq_iff_eq] at hB
        rcases hB with h | h
        · exact absurd h hkd
        · exact h
  · by_cases hk : k = "x"
    · subst hk
      left
      cases v with
      | vFloat q =>
        rw [addStepN_x] at hsn hsm
        simp only [Except.ok.injEq, Elem.node.injEq] at hsn hsm
        subst hsn
        subst hsm
        rfl
      | vStr s => exact Bool.noConfusion hok
      | vBool b => exact Bool.noConfusion hok
      | vDict d => exact Bool.noConfusion hok
    by_cases hkp : k = "position"
    · subst hkp
      left
      cases v with
      | vDict en =>
        cases hpe : parsePosition en with
        | ok p =>
          rw [addStepN_position _ en p hpe] at hsn hsm
          simp only [Except.ok.injEq, Elem.node.injEq] at hsn hsm
          subst hsn
          subst hsm
          rfl
        | error u =>
          have hb2 : stepRaisesN "position" (Value.vDict en) =
              (match parsePosition en with | .ok _ => false | .error _ => true) := rfl
          rw [hb2, hpe] at hok
          exact Bool.noConfusion hok
      | vStr s => exact Bool.noConfusion hok
      | vBool b => exact Bool.noConfusion hok
      | vFloat q => exact Bool.noConfusion hok
    · rcases c11 with hA | hB | hB
      · left
        rw [g11 hkp hk, f11 hkp hk]
        exact hA
      · right
        left
        rw [hasKey_cons] at hB
        simp only [Bool.or_eq_true, beq_iff_eq] at hB
        rcases hB with h | h
        · exact absurd h hk
        · exact h
      · right
        right
        rw [hasKey_cons] at hB
        simp only [Bool.or_eq_true, beq_iff_eq] at hB
        rcases hB with h | h
        · exact absurd h hkp
        · exact h
  · by_cases hk : k = "y"
    · subst hk
      left
      cases v with
      | vFloat q =>
        rw [addStepN_y] at hsn hsm
        simp only [Except.ok.injEq, Elem.node.injEq] at hsn hsm
        subst hsn
        subst hsm
        rfl
      | vStr s => exact Bool.noConfusion hok
      | vBool b => exact Bool.noConfusion hok
      | vDict d => exact Bool.noConfusion hok
    by_cases hkp : k = "position"
    · subst hkp
      left
      cases v with
      | vDict en =>
        cases hpe : parsePosition en with
        | ok p =>
          rw [addStepN_position _ en p hpe] at hsn hsm
          simp only [Except.ok.injEq, Elem.node.injEq] at hsn hsm
          subst hsn
          subst hsm
          rfl
        | error u =>
          have hb2 : stepRaisesN "position" (Value.vDict en) =
              (match parsePosition en with | .ok _ => false | .error _ => true) := rfl
          rw [hb2, hpe] at hok
          exact Bool.noConfusion hok
      | vStr s => exact Bool.noConfusion hok
      | vBool b => exact Bool.noConfusion hok
      | vFloat q => exact Bool.noConfusion hok
    · rcases c12 with hA | hB | hB
      · left
        rw [g12 hkp hk, f12 hkp hk]
        exact hA
      · right
        left
        rw [hasKey_cons] at hB
        simp only [Bool.or_eq_true, beq_iff_eq] at hB
        rcases hB with h | h
        · exact absurd h hk
        · exact h
      · right
        right
        rw [hasKey_cons] at hB
        simp only [Bool.or_eq_true, beq_iff_eq] at hB
        rcases hB with h | h
        · exact absurd h hkp
        · exact h

/-- The `Node` merge loop cannot distinguish `NodeSync`-related start
states: it performs the same writes and raises at the same pair. -/
theorem node_fold_ext : ∀ (attrs : Attrs) (n m : Node),
    (attrs.map Prod.fst).Nodup →
    NodeSync attrs n m →
    Elem.add (.node m) attrs = Elem.add (.node n) attrs := by
  intro attrs
  induction attrs with
  | nil =>
    intro n m _ hsync
    rw [nodeSync_empty_eq [] n m rfl hsync]
  | cons kv rest ih =>
    intro n m hnd hsync
    obtain ⟨k, v⟩ := kv
    simp only [List.map_cons, List.nodup_cons] at hnd
    have hunfn : Elem.add (.node n) ((k, v) :: rest) =
        match Elem.addStep (.node n) k v with
        | .ok e1 => e1.add rest
        | .error _ => (.node n, true) := rfl
    have hunfm : Elem.add (.node m) ((k, v) :: rest) =
        match Elem.addStep (.node m) k v with
        | .ok e1 => e1.add rest
        | .error _ => (.node m, true) := rfl
    cases hb : stepRaisesN k v with
    | true =>
      have heq : m = n :=
        nodeSync_empty_eq ((k, v) :: rest) n m (takeOkN_cons_err k v rest hb) hsync
      simp only [hunfn, hunfm, addStep_node_err n k v hb, addStep_node_err m k v hb,
        heq]
    | false =>
      obtain ⟨n1, hsn⟩ := addStep_node_ok_ex n k v hb
      obtain ⟨m1, hsm⟩ := addStep_node_ok_ex m k v hb
      have hsync1 := nodeSync_step k v rest n m n1 m1 hnd.1 hb hsn hsm hsync
      simp only [hunfn, hunfm, hsn, hsm]
      exact ih n1 m1 hnd.2 hsync1

/-- Re-merging the same distinct-keyed attrs into the node the first merge
produced reproduces the first merge exactly (same node, same raising
behaviour): the loop raises at the same pair either way, and every location
either was never written or absorbs its rewrite. -/
theorem Elem.add_idem_node (attrs : Attrs) (n : Node)
    (hnd : (attrs.map Prod.fst).Nodup)
    (hs : ScrOk attrs) :
    Elem.add ((Elem.add (.node n) attrs).1) attrs = Elem.add (.node n) attrs := by
  obtain ⟨y, hy⟩ := Elem.add_node_shape attrs n
  obtain ⟨F1, F2, F3, F4, F5, F6, F7, F8, F9, F10, F11, F12⟩ :=
    node_fold_frame attrs n y hy
  rw [hy]
  apply node_fold_ext attrs n y hnd
  refine ⟨?_, ?_, ?_, ?_, ?_, ?_, ?_, ?_, ?_, ?_, ?_, ?_⟩
  · cases hc : GenericElements.hasKey (takeOkN attrs) "classes" with
    | false => exact Or.inl (F1 hc)
    | true =>
      obtain ⟨v, hdl⟩ := dlookup_some_of_hasKey (takeOkN attrs) "classes" hc
      have hmem := dlookup_mem (takeOkN attrs) "classes" v hdl
      have hray := (mem_takeOkN attrs _ hmem).2
      cases v with
      | vStr s =>
        refine Or.inr ⟨s, hmem, ?_⟩
        rw [node_fold_classes attrs n y s hnd hmem hy]
        exact addClassesStr_idem n.classes s
      | vBool b => exact Bool.noConfusion hray
      | vFloat q => exact Bool.noConfusion hray
      | vDict d => exact Bool.noConfusion hray
  · cases hc : GenericElements.hasKey (takeOkN attrs) "selected" with
    | false => exact Or.inl (F2 hc)
    | true => exact Or.inr rfl
  · cases hc : GenericElements.hasKey (takeOkN attrs) "selectable" with
    | false => exact Or.inl (F3 hc)
    | true => exact Or.inr rfl
  · cases hc : GenericElements.hasKey (takeOkN attrs) "locked" with
    | false => exact Or.inl (F4 hc)
    | true => exact Or.inr rfl
  · cases hc : GenericElements.hasKey (takeOkN attrs) "grabbable" with
    | false => exact Or.inl (F5 hc)
    | true => exact Or.inr rfl
  · cases hc : GenericElements.hasKey (takeOkN attrs) "pannable" with
    | false => exact Or.inl (F6 hc)
    | true => exact Or.inr rfl
  · cases hc : GenericElements.hasKey (takeOkN attrs) "scratch" with
    | false => exact Or.inl (F7 hc)
    | true =>
      obtain ⟨v, hdl⟩ := dlookup_some_of_hasKey (takeOkN attrs) "scratch" hc
      have hmem := dlookup_mem (takeOkN attrs) "scratch" v hdl
      have hray := (mem_takeOkN attrs _ hmem).2
      cases v with
      | vDict en =>
        refine Or.inr ⟨en, hmem, ?_⟩
        rw [node_fold_scratch attrs n y en hnd hmem hy]
        exact dsetAll_idem n.scratch en (hs en (mem_takeOkN attrs _ hmem).1)
      | vStr s => exact Bool.noConfusion hray
      | vBool b => exact Bool.noConfusion hray
      | vFloat q => exact Bool.noConfusion hray
  · cases hc : GenericElements.hasKey (takeOkN attrs) "id" with
    | true => exact Or.inr (Or.inl rfl)
    | false =>
      cases hd2 : GenericElements.hasKey (takeOkN attrs) "data" with
      | true => exact Or.inr (Or.inr rfl)
      | false => exact Or.inl (F8 hc hd2)
  · cases hc : GenericElements.hasKey (takeOkN attrs) "parent" with
    | true => exact Or.inr (Or.inl rfl)
    | false =>
      cases hd2 : GenericElements.hasKey (takeOkN attrs) "data" with
      | true => exact Or.inr (Or.inr rfl)
      | false => exact Or.inl (F9 hc hd2)
  · cases hc : GenericElements.hasKey (takeOkN attrs) "label" with
    | true => exact Or.inr (Or.inl rfl)
    | false =>
      cases hd2 : GenericElements.hasKey (takeOkN attrs) "data" with
      | true => exact Or.inr (Or.inr rfl)
      | false => exact Or.inl (F10 hc hd2)
  · cases hc : GenericElements.hasKey (takeOkN attrs) "x" with
    | true => exact Or.inr (Or.inl rfl)
    | false =>
      cases hp2 : GenericElements.hasKey (takeOkN attrs) "position" with
      | true => exact Or.inr (Or.inr rfl)
      | false => exact Or.inl (F11 hc hp2)
  · cases hc : GenericElements.hasKey (takeOkN attrs) "y" with
    | true => exact Or.inr (Or.inl rfl)
    | false =>
      cases hp2 : GenericElements.hasKey (takeOkN attrs) "position" with
      | true => exact Or.inr (Or.inr rfl)
      | false => exact Or.inl (F12 hc hp2)

/-- The Edge analogue of `Elem.add_idem_node`. -/
theorem Elem.add_idem_edge : ∀ (attrs : Attrs) (e : Edge),
    (attrs.map Prod.fst).Nodup →
    GenericElements.hasKey attrs "data" = false →
    ScrOk attrs →
    Elem.add ((Elem.add (.edge e) attrs).1) attrs = Elem.add (.edge e) attrs := by
  intro attrs
  induction attrs with
  | nil => intro e _ _ _; rfl
  | cons kv rest ih =>
    intro e hnd hd hs
    obtain ⟨k, v⟩ := kv
    simp only [List.map_cons, List.nodup_cons] at hnd
    rw [hasKey_cons, Bool.or_eq_false_iff] at hd
    have hkd : k ≠ "data" := by simpa using hd.1
    have hunf : ∀ m : Edge, Elem.add (.edge m) ((k, v) :: rest) =
        match Elem.addStep (.edge m) k v with
        | .ok e1 => e1.add rest
        | .error _ => (.edge m, true) := fun m => rfl
    cases hstep : Elem.addStep (.edge e) k v with
    | error u =>
      simp only [hunf, hstep]
    | ok e1 =>
      obtain ⟨y1, he1, _⟩ := addStep_edge_track e k v e1 hkd hstep
      subst he1
      have hscr1 : k = "scratch" → ∀ en, v = .vDict en → (en.map Prod.fst).Nodup := by
        intro hks en hv
        subst hks
        subst hv
        exact hs en (List.mem_cons_self _ _)
      have hf1 := addStep_edge_fieldEq e y1 k v hscr1 hstep
      have hkrest : GenericElements.hasKey rest k = false :=
        hasKey_false_of_not_mem rest k hnd.1
      obtain ⟨y', hres, hf'⟩ := edgeFieldEq_fold rest y1 k v hkrest hd.2 hkd hf1
      have hfix := addStep_edge_fix y' k v hf'
      have hih := ih y1 hnd.2 hd.2 (fun en hm => hs en (List.mem_cons_of_mem _ hm))
      simp only [hunf, hstep]
      rw [hres]
      simp only [hunf, hfix]
      rw [hres] at hih
      exact hih

/-- Per-element idempotence of `Element.add` under the C4 side conditions. -/
theorem Elem.add_idem (e : Elem) (attrs : Attrs)
    (hnd : (attrs.map Prod.fst).Nodup)
    (hd : GenericElements.hasKey attrs "data" = false)
    (hs : ScrOk attrs) :
    Elem.add ((Elem.add e attrs).1) attrs = Elem.add e attrs := by
  cases e with
  | node n => exact Elem.add_idem_node attrs n hnd hs
  | edge ed => exact Elem.add_idem_edge attrs ed hnd hd hs

theorem set_split : ∀ (l : List Elem) (i : Nat) (x : Elem), l[i]? = some x →
    ∃ A B, l = A ++ x :: B ∧ A.length = i := by
  intro l
  induction l with
  | nil => intro i x h; simp at h
  | cons a rest ih =>
    intro i x h
    cases i with
    | zero =>
      simp only [List.getElem?_cons_zero, Option.some.injEq] at h
      subst h
      exact ⟨[], rest, rfl, rfl⟩
    | succ i' =>
      simp only [List.getElem?_cons_succ] at h
      obtain ⟨A, B, hl, hA⟩ := ih i' x h
      refine ⟨a :: A, B, ?_, by simp [hA]⟩
      rw [List.cons_append, ← hl]

/-- A scan miss, phrased on membership. -/
theorem scanIdx_none_mem (g : String) (ka : Attrs) (els : List Elem) (i0 : Nat)
    (h : GenericElements.scanIdx g ka els i0 = .ok none) :
    ∀ e ∈ els, ¬ scanHit g ka e := by
  intro e he
  obtain ⟨u, hu⟩ := List.mem_iff_getElem?.mp he
  exact scanIdx_none_spec g ka els i0 h u e hu

/-- The prefix before the first hit contains no hit, phrased on
membership. -/
theorem mem_left_no_hit (g : String) (ka : Attrs) (A : List Elem) (C : List Elem)
    (hmin : ∀ (u : Nat) (e' : Elem), u < A.length → (A ++ C)[u]? = some e' →
      ¬ scanHit g ka e') :
    ∀ e ∈ A, ¬ scanHit g ka e := by
  intro e he
  obtain ⟨u, hu⟩ := List.mem_iff_getElem?.mp he
  have hlt : u < A.length := (List.getElem?_eq_some.mp hu).1
  exact hmin u e hlt (by rw [List.getElem?_append, if_pos hlt]; exact hu)

/-- With an explicit id in the attrs, `add` never consults the uuid. -/
theorem add_fresh_indep (els : List Elem) (attrs : Attrs) (f1 f2 : String)
    (hid : GenericElements.hasKey attrs "id" = true) :
    GenericElements.add els attrs f1 = GenericElements.add els attrs f2 := by
  obtain ⟨o, ho⟩ := getIdx_total els attrs
  cases o with
  | some i => simp only [GenericElements.add, ho]
  | none =>
    simp only [GenericElements.add, ho]
    rw [if_pos hid, if_pos hid]

/-- A second `add` aimed (by id) at a Node the collection already holds in
place resolves it again and leaves the collection unchanged: the guard
either aborts or the merge absorbs (by per-element idempotence). -/
theorem add_again_node (A B : List Elem) (n' : Node) (attrs : Attrs) (f2 : String)
    (fl : Bool)
    (hid : GenericElements.hasKey attrs "id" = true)
    (hkw : GenericElements.kwget attrs "id" = .vStr n'.data.id)
    (hAno : ∀ e ∈ A, ¬ scanHit "nodes" [("id", GenericElements.kwget attrs "id")] e)
    (hfix : Elem.add (.node n') attrs = (.node n', fl)) :
    (GenericElements.add (A ++ .node n' :: B) attrs f2).1 = A ++ .node n' :: B := by
  have hhit : scanHit "nodes" [("id", GenericElements.kwget attrs "id")] (.node n') := by
    constructor
    · exact node_match_group_nodes n'
    · rw [hkw, node_match_id, veqStr_str]
      simp
  have hscan := scanIdx_first_hit "nodes" [("id", GenericElements.kwget attrs "id")]
    A B (.node n') 0 (id_proj_total _) hAno hhit
  rw [Nat.zero_add] at hscan
  have hget : GenericElements.getIdx (A ++ .node n' :: B) attrs =
      .ok (some A.length) := by
    unfold GenericElements.getIdx
    rw [if_pos hid, hscan]
  obtain ⟨ms2, hms2⟩ := filter_total (A ++ .node n' :: B)
    [("id", GenericElements.kwget attrs "id")]
    (by
      intro kv hkv
      simp only [List.mem_singleton] at hkv
      subst hkv
      exact ⟨by simp, by simp⟩)
  simp only [GenericElements.add, hget, getElem_append_mid]
  rw [if_pos hid]
  simp only [hms2]
  by_cases hall2 : ms2.all (fun x => x == Elem.node n') = true
  · rw [if_pos hall2]
    simp only [hfix]
    rw [set_append_mid]
  · rw [if_neg hall2]

/-- The Edge analogue of `add_again_node` (the node scan must miss). -/
theorem add_again_edge (A B : List Elem) (ed' : Edge) (attrs : Attrs) (f2 : String)
    (fl : Bool)
    (hid : GenericElements.hasKey attrs "id" = true)
    (hst : (GenericElements.hasKey attrs "source" &&
      GenericElements.hasKey attrs "target") = true)
    (hkws : GenericElements.kwget attrs "source" = .vStr ed'.data.source)
    (hkwt : GenericElements.kwget attrs "target" = .vStr ed'.data.target)
    (hNno : ∀ e ∈ A ++ .edge ed' :: B,
      ¬ scanHit "nodes" [("id", GenericElements.kwget attrs "id")] e)
    (hAno : ∀ e ∈ A, ¬ scanHit "edges"
      [("source", GenericElements.kwget attrs "source"),
       ("target", GenericElements.kwget attrs "target")] e)
    (hfix : Elem.add (.edge ed') attrs = (.edge ed', fl)) :
    (GenericElements.add (A ++ .edge ed' :: B) attrs f2).1 = A ++ .edge ed' :: B := by
  have hnscan : GenericElements.scanIdx "nodes"
      [("id", GenericElements.kwget attrs "id")] (A ++ .edge ed' :: B) 0 = .ok none :=
    scanIdx_no_hit _ _ _ _ (id_proj_total _) hNno
  have hhit : scanHit "edges"
      [("source", GenericElements.kwget attrs "source"),
       ("target", GenericElements.kwget attrs "target")] (.edge ed') := by
    constructor
    · exact edge_match_group_edges ed'
    · rw [hkws, hkwt, edge_match_src_tgt, veqStr_str, veqStr_str]
      simp
  have hescan := scanIdx_first_hit "edges"
    [("source", GenericElements.kwget attrs "source"),
     ("target", GenericElements.kwget attrs "target")]
    A B (.edge ed') 0 (edge_proj_total _ _) hAno hhit
  rw [Nat.zero_add] at hescan
  have hget : GenericElements.getIdx (A ++ .edge ed' :: B) attrs =
      .ok (some A.length) := by
    unfold GenericElements.getIdx
    rw [if_pos hid, hnscan]
    show (if (GenericElements.hasKey attrs "source" &&
        GenericElements.hasKey attrs "target") = true then
      GenericElements.scanIdx "edges"
        [("source", GenericElements.kwget attrs "source"),
         ("target", GenericElements.kwget attrs "target")] (A ++ .edge ed' :: B) 0
      else .ok none) = .ok (some A.length)
    rw [if_pos hst, hescan]
  obtain ⟨ms2, hms2⟩ := filter_total (A ++ .edge ed' :: B)
    [("id", GenericElements.kwget attrs "id")]
    (by
      intro kv hkv
      simp only [List.mem_singleton] at hkv
      subst hkv
      exact ⟨by simp, by simp⟩)
  simp only [GenericElements.add, hget, getElem_append_mid]
  rw [if_pos hid]
  simp only [hms2]
  by_cases hall2 : ms2.all (fun x => x == Elem.edge ed') = true
  · rw [if_pos hall2]
    simp only [hfix]
    rw [set_append_mid]
  · rw [if_neg hall2]

end DashCE
